import Mathlib

/-!
# MESH: per-frequency permittivity assembly and wavevector-space flux integration

A shallow embedding of `src/Mesh.cpp` (classes `FileLoader`, `Simulation`,
`SimulationPlanar`) and theorems about it.

Conventions of the embedding.

* `double` values are elements of an arbitrary linearly ordered field `K` (exact
  arithmetic); `std::complex<double>` is `dcomplex K`.
* `int` values are integers; `/` and `%` on `int` are `Int.tdiv` and `Int.tmod`
  (truncation toward zero).  Signed overflow is undefined in C++ and is not modelled:
  the products of point counts are taken in `ℤ`.
* A member function that can throw returns an `Outcome`: the exception or the value,
  together with the object state at that moment (a C++ exception does not roll the
  object back).
* Objects held through `Ptr<...>` and shared between containers (materials, layers) are
  referred to by their unique name, so that a mutation through one alias is seen through
  every alias.
* Array reads use a default value outside the allocation, where the C++ behaviour is
  undefined; the theorems state the well-formedness conditions under which every index
  is in range.
* Code of other translation units (Fourier factorisation, mode assembly, the flux
  kernel, dense linear algebra, string preprocessing) is collected in `Ext` and is
  arbitrary.
-/

namespace MESH

/-! ## Exceptions and outcomes -/

/-- Exception classes of namespace `UTILITY` thrown by the modelled code. -/
inductive Exn where
  | FileNotExistException
  | UnknownTypeException
  | RangeException
  | NameInUseException
  | IllegalNameException
  | AttributeNotSupportedException
  | ValueException
  | MemoryException
  | InternalException
  deriving DecidableEq, Repr

/-- Result of a member function call: what was returned or thrown, and the object state
at that moment. -/
structure Outcome (σ : Type) (α : Type) where
  result : Except Exn α
  state : σ

/-- True when the call threw exception `e`. -/
def Outcome.raises {σ α : Type} (o : Outcome σ α) (e : Exn) : Prop :=
  match o.result with
  | .error e1 => e1 = e
  | .ok _ => False

/-- True when the call returned normally. -/
def Outcome.returns {σ α : Type} (o : Outcome σ α) : Prop :=
  match o.result with
  | .error _ => False
  | .ok _ => True

instance {σ α : Type} (o : Outcome σ α) (e : Exn) : Decidable (o.raises e) := by
  unfold Outcome.raises
  cases o.result <;> infer_instance

instance {σ α : Type} (o : Outcome σ α) : Decidable o.returns := by
  unfold Outcome.returns
  cases o.result <;> infer_instance

/-! ## Enumerations -/

/-- Permittivity type of a material. -/
inductive EPSTYPE where
  | SCALAR_ | DIAGONAL_ | TENSOR_
  deriving DecidableEq, Repr

/-- Dimensionality of the periodicity. -/
inductive DIMENSION where
  | NO_ | ONE_ | TWO_
  deriving DecidableEq, Repr

/-- Shape kind of a pattern. -/
inductive PATTERN where
  | GRATING_ | RECTANGLE_ | CIRCLE_ | ELLIPSE_ | POLYGON_
  deriving DecidableEq, Repr

/-- Polarisation restriction. -/
inductive POLARIZATION where
  | BOTH_ | TE_ | TM_
  deriving DecidableEq, Repr

/-- Lattice truncation scheme. -/
inductive TRUNCATION where
  | CIRCULAR_ | PARALLELOGRAMIC_
  deriving DecidableEq, Repr

/-- Quadrature method of the k-parallel integration. -/
inductive METHOD where
  | GAUSSLEGENDRE_ | GAUSSKRONROD_
  deriving DecidableEq, Repr

/-! ## Complex numbers over `K` -/

/-- Exact counterpart of `std::complex<double>`: `dcomplex(re, im)`. -/
@[ext]
structure dcomplex (K : Type) where
  re : K
  im : K
  deriving DecidableEq, Repr

namespace dcomplex

variable {K : Type}

instance [Zero K] : Zero (dcomplex K) := ⟨⟨0, 0⟩⟩
instance [Zero K] [One K] : One (dcomplex K) := ⟨⟨1, 0⟩⟩
instance [Add K] : Add (dcomplex K) := ⟨fun z w => ⟨z.re + w.re, z.im + w.im⟩⟩
instance [Neg K] : Neg (dcomplex K) := ⟨fun z => ⟨-z.re, -z.im⟩⟩
instance [Sub K] : Sub (dcomplex K) := ⟨fun z w => ⟨z.re - w.re, z.im - w.im⟩⟩
instance [Mul K] [Add K] [Sub K] : Mul (dcomplex K) :=
  ⟨fun z w => ⟨z.re * w.re - z.im * w.im, z.re * w.im + z.im * w.re⟩⟩

/-- Complex conjugate. -/
def conj [Neg K] (z : dcomplex K) : dcomplex K := ⟨z.re, -z.im⟩

/-- A real number as a complex number (implicit conversion `double` to `dcomplex`). -/
def ofReal [Zero K] (x : K) : dcomplex K := ⟨x, 0⟩

/-- The imaginary unit `IMAG_I`. -/
def IMAG_I [Zero K] [One K] : dcomplex K := ⟨0, 1⟩

/-- Division of a complex number by a `double`. -/
def divReal [Div K] (z : dcomplex K) (x : K) : dcomplex K := ⟨z.re / x, z.im / x⟩

/-- Division of two complex numbers. -/
def cdiv [Field K] (z w : dcomplex K) : dcomplex K :=
  ⟨(z.re * w.re + z.im * w.im) / (w.re * w.re + w.im * w.im),
   (z.im * w.re - z.re * w.im) / (w.re * w.re + w.im * w.im)⟩

instance [CommRing K] : CommRing (dcomplex K) where
  add_assoc a b c := congrArg₂ dcomplex.mk (add_assoc a.re b.re c.re) (add_assoc a.im b.im c.im)
  zero_add a := congrArg₂ dcomplex.mk (zero_add a.re) (zero_add a.im)
  add_zero a := congrArg₂ dcomplex.mk (add_zero a.re) (add_zero a.im)
  add_comm a b := congrArg₂ dcomplex.mk (add_comm a.re b.re) (add_comm a.im b.im)
  nsmul := nsmulRec
  zsmul := zsmulRec
  neg_add_cancel a := congrArg₂ dcomplex.mk (neg_add_cancel a.re) (neg_add_cancel a.im)
  sub_eq_add_neg a b := congrArg₂ dcomplex.mk (sub_eq_add_neg a.re b.re) (sub_eq_add_neg a.im b.im)
  mul_assoc a b c := congrArg₂ dcomplex.mk
    (show (a.re * b.re - a.im * b.im) * c.re - (a.re * b.im + a.im * b.re) * c.im =
      a.re * (b.re * c.re - b.im * c.im) - a.im * (b.re * c.im + b.im * c.re) by ring)
    (show (a.re * b.re - a.im * b.im) * c.im + (a.re * b.im + a.im * b.re) * c.re =
      a.re * (b.re * c.im + b.im * c.re) + a.im * (b.re * c.re - b.im * c.im) by ring)
  one_mul a := congrArg₂ dcomplex.mk (show 1 * a.re - 0 * a.im = a.re by ring)
    (show 1 * a.im + 0 * a.re = a.im by ring)
  mul_one a := congrArg₂ dcomplex.mk (show a.re * 1 - a.im * 0 = a.re by ring)
    (show a.re * 0 + a.im * 1 = a.im by ring)
  left_distrib a b c := congrArg₂ dcomplex.mk
    (show a.re * (b.re + c.re) - a.im * (b.im + c.im) =
      a.re * b.re - a.im * b.im + (a.re * c.re - a.im * c.im) by ring)
    (show a.re * (b.im + c.im) + a.im * (b.re + c.re) =
      a.re * b.im + a.im * b.re + (a.re * c.im + a.im * c.re) by ring)
  right_distrib a b c := congrArg₂ dcomplex.mk
    (show (a.re + b.re) * c.re - (a.im + b.im) * c.im =
      a.re * c.re - a.im * c.im + (b.re * c.re - b.im * c.im) by ring)
    (show (a.re + b.re) * c.im + (a.im + b.im) * c.re =
      a.re * c.im + a.im * c.re + (b.re * c.im + b.im * c.re) by ring)
  mul_comm a b := congrArg₂ dcomplex.mk
    (show a.re * b.re - a.im * b.im = b.re * a.re - b.im * a.im by ring)
    (show a.re * b.im + a.im * b.re = b.re * a.im + b.im * a.re by ring)
  zero_mul a := congrArg₂ dcomplex.mk (show 0 * a.re - 0 * a.im = 0 by ring)
    (show 0 * a.im + 0 * a.re = 0 by ring)
  mul_zero a := congrArg₂ dcomplex.mk (show a.re * 0 - a.im * 0 = 0 by ring)
    (show a.re * 0 + a.im * 0 = 0 by ring)

end dcomplex

/-! ## Data model -/

/-- Storage of one permittivity sample: the C++ union of `scalar[2]`, `diagonal[6]` and
`tensor[10]`, which share their first entries. -/
abbrev EpsilonVal (K : Type) : Type := Fin 10 → K

/-- An `n × n` complex matrix (`RCWAcMatrix` of size `nG_ × nG_`). -/
abbrev RCWAcMatrix (K : Type) (n : Nat) : Type := Matrix (Fin n) (Fin n) (dcomplex K)

/-- A complex matrix whose size is decided by another translation unit, as its rows. -/
abbrev RCWAcDynMatrix (K : Type) : Type := List (List (dcomplex K))

/-- A real matrix (`RCWArMatrix`), as its rows. -/
abbrev RCWArMatrix (K : Type) : Type := List (List K)

/-- Modelled from the spec: class `Material` is declared outside `src/`; a material has a
unique name, an ordered frequency list, a permittivity type and one permittivity sample
per frequency. -/
structure Material (K : Type) where
  name : String
  omegaList : List K
  epsilonVals : List (EpsilonVal K)
  type_ : EPSTYPE

/-- The struct `Pattern`, with the members read by `Simulation::buildRCWAMatrices`. -/
structure Pattern (K : Type) where
  type_ : PATTERN
  arg1_ : K × K
  arg2_ : K × K
  angle_ : K
  parent : Int
  edgeList_ : List (K × K)

/-- Modelled from the spec: class `Layer` is declared outside `src/`; a layer has a unique
name, a background material, an ordered pattern list with one inclusion material per
pattern, a thickness, a source flag and an anisotropy flag.  Materials are referred to by
name. -/
structure Layer (K : Type) where
  name : String
  backGround : String
  thickness : K
  isSource : Bool
  hasTensor_ : Bool
  patterns : List (Pattern K)
  materials : List String

/-- The struct `Lattice`. -/
structure Lattice (K : Type) where
  bx : K × K
  by_ : K × K
  angle : K
  area : K

/-- The struct `Options` with the members used in `Mesh.cpp`. -/
structure Options where
  PrintIntermediate : Bool
  polarization : POLARIZATION
  truncation_ : TRUNCATION
  IntegralMethod : METHOD
  kxIntegralPreset : Bool
  kyIntegralPreset : Bool
  IntegrateKParallel : Bool

/-- The ten Fourier matrices of one layer that `buildRCWAMatrices` passes by reference to
the shape factorisers. -/
structure FourierMatrices (K : Type) (n : Nat) where
  eps_xx : RCWAcMatrix K n
  eps_xy : RCWAcMatrix K n
  eps_yx : RCWAcMatrix K n
  eps_yy : RCWAcMatrix K n
  eps_zz : RCWAcMatrix K n
  im_eps_xx : RCWAcMatrix K n
  im_eps_xy : RCWAcMatrix K n
  im_eps_yx : RCWAcMatrix K n
  im_eps_yy : RCWAcMatrix K n
  im_eps_zz : RCWAcMatrix K n

/-- Constants and functions defined outside `src/` (namespaces `datum`, `UTILITY`, `FMM`,
`GSEL`, the RCWA kernel, the quadrature routines, armadillo, `libm`).  They are arbitrary.
`gauss_legendre degree f a b` and `adapt_integrate f xmin xmax absError relError` return the
value of the quadrature of the integrand `f`. -/
structure Ext (K : Type) (n : Nat) where
  c_0 : K
  pi : K
  MICRON : K
  cos : K → K
  sin : K → K
  hypot : K → K → K
  preprocessString : String → String
  toTensor : EpsilonVal K → EPSTYPE → EpsilonVal K
  transformGrating : FourierMatrices K n → EpsilonVal K → EpsilonVal K → EPSTYPE →
    RCWArMatrix K → K → K → K → Bool → FourierMatrices K n
  transformRectangle : FourierMatrices K n → EpsilonVal K → EpsilonVal K → EPSTYPE →
    RCWArMatrix K → RCWArMatrix K → K × K → K → K × K → K → Bool → FourierMatrices K n
  transformCircle : FourierMatrices K n → EpsilonVal K → EpsilonVal K → EPSTYPE →
    RCWArMatrix K → RCWArMatrix K → K × K → K → K → Bool → FourierMatrices K n
  transformEllipse : FourierMatrices K n → EpsilonVal K → EpsilonVal K → EPSTYPE →
    RCWArMatrix K → RCWArMatrix K → K × K → K → K × K → K → Bool → FourierMatrices K n
  transformPolygon : FourierMatrices K n → EpsilonVal K → EpsilonVal K → EPSTYPE →
    RCWArMatrix K → RCWArMatrix K → K × K → K → List (K × K) → K → Bool →
    FourierMatrices K n
  inv : RCWAcMatrix K n → RCWAcMatrix K n
  getEMatrices : List (RCWAcMatrix K n) → List (RCWAcMatrix K n) → List (RCWAcMatrix K n) →
    List (RCWAcMatrix K n) → Int → List (RCWAcDynMatrix K)
  getGrandImaginaryMatrices : List (RCWAcMatrix K n) → List (RCWAcMatrix K n) →
    List (RCWAcMatrix K n) → List (RCWAcMatrix K n) → List (RCWAcMatrix K n) → Int →
    List (RCWAcDynMatrix K)
  poyntingFlux : K → List K → K → K → List (RCWAcDynMatrix K) → List (RCWAcDynMatrix K) →
    List (Option (RCWAcMatrix K n)) → RCWArMatrix K → RCWArMatrix K → List Bool → Int → Int →
    POLARIZATION → K
  getGMatrices : Lattice K → DIMENSION → TRUNCATION → RCWArMatrix K × RCWArMatrix K
  getGeometryContainmentRelation : Layer K → Layer K
  gauss_legendre : Int → (K → K) → K → K → K
  adapt_integrate : (K → K) → K → K → K → K → K
  ABSERROR : K
  RELERROR : K

/-- The struct `EPSILON`: the sample array (or `nullptr`) and the permittivity type. -/
structure EPSILON (K : Type) where
  epsilonVals : Option (List (EpsilonVal K))
  type_ : EPSTYPE

/-- The data members of class `FileLoader`. -/
structure FileLoader (K : Type) where
  omegaList_ : Option (List K)
  epsilonList_ : EPSILON K
  numOfOmega_ : Int
  preSet_ : Bool

/-- The data members of class `Simulation` (and of its subclasses) used in `Mesh.cpp`.
The number of harmonics `nG_` is the parameter `n`.  `structure_` holds the layer objects
in stack order; `layerInstanceMap_` holds pointers to the same objects under their names,
and `addLayer`, `addLayerCopy` and `deleteLayer` update both together, so a lookup in
`layerInstanceMap_` is a search by name in `structure_`.  An entry `none` of
`eps_zz_Inv_Matrices_` is the empty matrix left by `resize`.  `buildCount_` and
`fluxCount_` are ghost counters of the calls of `buildRCWAMatrices` and of `poyntingFlux`;
no code reads them.  The material table and the lattice kept inside the `Structure` object
are written by `Mesh.cpp` and never read by it; they are left out. -/
structure Simulation (K : Type) (n : Nat) where
  numOfOmega_ : Int
  Phi_ : Option (List K)
  omegaList_ : List K
  kxStart_ : K
  kxEnd_ : K
  kyStart_ : K
  kyEnd_ : K
  numOfKx_ : Int
  numOfKy_ : Int
  prefactor_ : K
  targetLayer_ : Int
  dim_ : DIMENSION
  structure_ : List (Layer K)
  materialInstanceMap_ : List (String × Material K)
  fileLoader_ : FileLoader K
  lattice_ : Lattice K
  reciprocalLattice_ : Lattice K
  options_ : Options
  numOfThread_ : Int
  degree_ : Int
  curOmegaIndex_ : Int
  EMatrices_ : List (RCWAcDynMatrix K)
  grandImaginaryMatrices_ : List (RCWAcDynMatrix K)
  eps_zz_Inv_Matrices_ : List (Option (RCWAcMatrix K n))
  Gx_mat_ : RCWArMatrix K
  Gy_mat_ : RCWArMatrix K
  sourceList_ : List Bool
  thicknessListVec_ : List K
  buildCount_ : Nat
  fluxCount_ : Nat

/-- Read of `a[i]` for an `int` index; the default stands for a read outside the
allocation. -/
def readAt {α : Type} (a : List α) (i : Int) (dflt : α) : α :=
  if 0 ≤ i then a.getD i.toNat dflt else dflt

/-- Write `a[i] = v` for an `int` index; a write outside the allocation is dropped. -/
def writeAt {α : Type} (a : List α) (i : Int) (v : α) : List α :=
  if 0 ≤ i then a.set i.toNat v else a

/-! ## Materials and layers -/

section Model

variable {K : Type} [LinearOrderedField K] {n : Nat}

/-- Modelled from the spec: `Material::getNumOfOmega`, declared outside `src/`: the number
of frequency samples of the material. -/
def Material.getNumOfOmega (m : Material K) : Int := m.omegaList.length

/-- Modelled from the spec: `Material::getEpsilonAtIndex`, declared outside `src/`: the
permittivity sample at a frequency index. -/
def Material.getEpsilonAtIndex (m : Material K) (i : Int) : EpsilonVal K :=
  readAt m.epsilonVals i (fun _ => 0)

/-- The material a `Ptr<Material>` points to: the registry entry of that name. -/
def derefMaterial (registry : List (String × Material K)) (name : String) : Material K :=
  (registry.lookup name).getD { name := name, omegaList := [], epsilonVals := [],
                                type_ := EPSTYPE.SCALAR_ }

/-- Modelled from the spec: `Layer::hasTensor`, declared outside `src/`: the anisotropy
flag of the layer. -/
def Layer.hasTensor (l : Layer K) : Bool := l.hasTensor_

/-! ## Chunk bounds of `integrateKxKyMPI` -/

/-- The pair `(start, end)` computed by `Simulation::integrateKxKyMPI(rank, size)` from
`totalNum = numOfOmega_ * numOfKx_ * numOfKy_`, the final clamp included, in exact integer
arithmetic; `mpiRange32` is the same computation in 32-bit `int` arithmetic. -/
def mpiRange (totalNum rank size : Int) : Int × Int :=
  let chunksize := totalNum.tdiv size
  let left := totalNum.tmod size
  let start :=
    if rank ≥ left then left * (chunksize + 1) + (rank - left) * chunksize
    else rank * (chunksize + 1)
  let end0 := if rank ≥ left then start + chunksize else start + chunksize + 1
  let end1 := if end0 > totalNum then totalNum else end0
  (start, end1)

/-! ## `Simulation::buildRCWAMatrices` -/

/-- The loop `for i: vec[i] = vals[i]` over the entries of `vals`, starting at index `i`. -/
def storeFrom {α : Type} : List α → Nat → List α → List α
  | [], _, arr => arr
  | v :: vs, i, arr => storeFrom vs (i + 1) (arr.set i v)

/-- All ten Fourier matrices zero (`fill::zeros`). -/
def FourierMatrices.zeros : FourierMatrices K n :=
  { eps_xx := 0, eps_xy := 0, eps_yx := 0, eps_yy := 0, eps_zz := 0,
    im_eps_xx := 0, im_eps_xy := 0, im_eps_yx := 0, im_eps_yy := 0, im_eps_zz := 0 }

/-- The embedding tensor `epsParentTensor` of a pattern: the background tensor when
`parent == -1`, otherwise the canonical tensor of the material at position `parent` of
the inclusion material list of the layer. -/
def epsParentTensor (ext : Ext K n) (registry : List (String × Material K))
    (omegaIndex : Int) (layer : Layer K) (epsBGTensor : EpsilonVal K) (pattern : Pattern K) :
    EpsilonVal K :=
  if pattern.parent = -1 then epsBGTensor
  else
    let materialParent := derefMaterial registry (readAt layer.materials pattern.parent "")
    ext.toTensor (materialParent.getEpsilonAtIndex omegaIndex) materialParent.type_

/-- One iteration of the pattern loop of `buildRCWAMatrices`: the dispatch on the shape
kind, for the pattern at position `count`. -/
def applyPattern (ext : Ext K n) (registry : List (String × Material K))
    (Gx_mat Gy_mat : RCWArMatrix K) (area : K) (omegaIndex : Int) (layer : Layer K)
    (epsBGTensor : EpsilonVal K) (acc : FourierMatrices K n) (count : Nat)
    (pattern : Pattern K) : FourierMatrices K n :=
  let material := derefMaterial registry (layer.materials.getD count "")
  let epsilon := material.getEpsilonAtIndex omegaIndex
  let parentTensor := epsParentTensor ext registry omegaIndex layer epsBGTensor pattern
  match pattern.type_ with
  | PATTERN.GRATING_ =>
    ext.transformGrating acc parentTensor epsilon material.type_ Gx_mat
      (pattern.arg1_.1 * ext.MICRON) (pattern.arg1_.2 * ext.MICRON) area layer.hasTensor
  | PATTERN.RECTANGLE_ =>
    ext.transformRectangle acc parentTensor epsilon material.type_ Gx_mat Gy_mat
      (pattern.arg1_.1 * ext.MICRON, pattern.arg1_.2 * ext.MICRON)
      (ext.pi / 180 * pattern.angle_)
      (pattern.arg2_.1 * ext.MICRON, pattern.arg2_.2 * ext.MICRON) area layer.hasTensor
  | PATTERN.CIRCLE_ =>
    ext.transformCircle acc parentTensor epsilon material.type_ Gx_mat Gy_mat
      (pattern.arg1_.1 * ext.MICRON, pattern.arg2_.1 * ext.MICRON)
      (pattern.arg1_.2 * ext.MICRON) area layer.hasTensor
  | PATTERN.ELLIPSE_ =>
    ext.transformEllipse acc parentTensor epsilon material.type_ Gx_mat Gy_mat
      (pattern.arg1_.1 * ext.MICRON, pattern.arg1_.2 * ext.MICRON)
      (ext.pi / 180 * pattern.angle_)
      (pattern.arg2_.1 * ext.MICRON, pattern.arg2_.2 * ext.MICRON) area layer.hasTensor
  | PATTERN.POLYGON_ =>
    ext.transformPolygon acc parentTensor epsilon material.type_ Gx_mat Gy_mat
      (pattern.arg1_.1 * ext.MICRON, pattern.arg1_.2 * ext.MICRON)
      (ext.pi / 180 * pattern.angle_)
      (pattern.edgeList_.map (fun e => (e.1 * ext.MICRON, e.2 * ext.MICRON)))
      area layer.hasTensor

/-- The pattern loop of `buildRCWAMatrices` for one layer, from position `count` on. -/
def applyPatterns (ext : Ext K n) (registry : List (String × Material K))
    (Gx_mat Gy_mat : RCWArMatrix K) (area : K) (omegaIndex : Int) (layer : Layer K)
    (epsBGTensor : EpsilonVal K) :
    List (Pattern K) → Nat → FourierMatrices K n → FourierMatrices K n
  | [], _, acc => acc
  | pattern :: rest, count, acc =>
    applyPatterns ext registry Gx_mat Gy_mat area omegaIndex layer epsBGTensor rest (count + 1)
      (applyPattern ext registry Gx_mat Gy_mat area omegaIndex layer epsBGTensor acc count
        pattern)

/-- The canonical background tensor `epsBGTensor` of a layer at a frequency index. -/
def epsBGTensor (ext : Ext K n) (registry : List (String × Material K)) (omegaIndex : Int)
    (layer : Layer K) : EpsilonVal K :=
  let backGround := derefMaterial registry layer.backGround
  ext.toTensor (backGround.getEpsilonAtIndex omegaIndex) backGround.type_

/-- The matrix `eps_zz` of a layer at the moment `buildRCWAMatrices` inverts it: what the
pattern loop accumulated, plus the background term. -/
def assembledEpsZZ (ext : Ext K n) (registry : List (String × Material K))
    (Gx_mat Gy_mat : RCWArMatrix K) (area : K) (omegaIndex : Int) (layer : Layer K) :
    RCWAcMatrix K n :=
  let t := epsBGTensor ext registry omegaIndex layer
  (applyPatterns ext registry Gx_mat Gy_mat area omegaIndex layer t layer.patterns 0
    FourierMatrices.zeros).eps_zz + (⟨t 8, t 9⟩ : dcomplex K) • (1 : RCWAcMatrix K n)

/-- The body of the layer loop of `buildRCWAMatrices`: the ten Fourier matrices of the
layer after the background contribution, and `eps_zz_Inv`. -/
def buildLayer (ext : Ext K n) (registry : List (String × Material K))
    (Gx_mat Gy_mat : RCWArMatrix K) (area : K) (omegaIndex : Int) (layer : Layer K) :
    FourierMatrices K n × RCWAcMatrix K n :=
  let onePadding1N : RCWAcMatrix K n := 1
  let t := epsBGTensor ext registry omegaIndex layer
  let m := applyPatterns ext registry Gx_mat Gy_mat area omegaIndex layer t layer.patterns 0
    FourierMatrices.zeros
  let eps_xx := m.eps_xx + (⟨t 0, t 1⟩ : dcomplex K) • onePadding1N
  let im_eps_xx := m.im_eps_xx + dcomplex.ofReal (t 1) • onePadding1N
  let eps_yy := m.eps_yy + (⟨t 6, t 7⟩ : dcomplex K) • onePadding1N
  let im_eps_yy := m.im_eps_yy + dcomplex.ofReal (t 7) • onePadding1N
  let eps_zz := m.eps_zz + (⟨t 8, t 9⟩ : dcomplex K) • onePadding1N
  let eps_zz_Inv := ext.inv eps_zz
  let im_eps_zz := m.im_eps_zz + dcomplex.ofReal (t 9) • onePadding1N
  let m1 : FourierMatrices K n :=
    { m with eps_xx := eps_xx, im_eps_xx := im_eps_xx, eps_yy := eps_yy,
             im_eps_yy := im_eps_yy, eps_zz := eps_zz, im_eps_zz := im_eps_zz }
  let m2 : FourierMatrices K n :=
    if layer.hasTensor then
      { m1 with
        eps_xy := m1.eps_xy + (⟨t 2, t 3⟩ : dcomplex K) • onePadding1N,
        eps_yx := m1.eps_yx + (⟨t 4, t 5⟩ : dcomplex K) • onePadding1N,
        im_eps_xy := m1.im_eps_xy +
          dcomplex.cdiv (dcomplex.divReal ((⟨t 2, t 3⟩ : dcomplex K) - ⟨t 4, -t 5⟩) 2)
            dcomplex.IMAG_I • onePadding1N,
        im_eps_yx := m1.im_eps_yx +
          dcomplex.cdiv (dcomplex.divReal ((⟨t 4, t 5⟩ : dcomplex K) - ⟨t 2, -t 3⟩) 2)
            dcomplex.IMAG_I • onePadding1N }
    else m1
  (m2, eps_zz_Inv)

/-- The variable `area` of `buildRCWAMatrices`. -/
def rcwaArea (ext : Ext K n) (dim : DIMENSION) (lattice : Lattice K) : K :=
  if dim = DIMENSION.ONE_ then lattice.area * ext.MICRON else lattice.area * ext.MICRON ^ 2

/-- The per-layer results of the layer loop of `buildRCWAMatrices`, in stack order. -/
def buildLayers (ext : Ext K n) (s : Simulation K n) :
    List (FourierMatrices K n × RCWAcMatrix K n) :=
  s.structure_.map
    (buildLayer ext s.materialInstanceMap_ s.Gx_mat_ s.Gy_mat_
      (rcwaArea ext s.dim_ s.lattice_) s.curOmegaIndex_)

/-- `Simulation::buildRCWAMatrices`: rebuilds the three cached matrix lists for the
frequency index `curOmegaIndex_`. -/
def buildRCWAMatrices (ext : Ext K n) (s : Simulation K n) : Simulation K n :=
  let numOfLayer : Int := s.structure_.length
  let per := buildLayers ext s
  { s with
    eps_zz_Inv_Matrices_ := storeFrom (per.map (fun p => some p.2)) 0 s.eps_zz_Inv_Matrices_
    EMatrices_ :=
      ext.getEMatrices (per.map (fun p => p.1.eps_xx)) (per.map (fun p => p.1.eps_xy))
        (per.map (fun p => p.1.eps_yx)) (per.map (fun p => p.1.eps_yy)) numOfLayer
    grandImaginaryMatrices_ :=
      ext.getGrandImaginaryMatrices (per.map (fun p => p.1.im_eps_xx))
        (per.map (fun p => p.1.im_eps_xy)) (per.map (fun p => p.1.im_eps_yx))
        (per.map (fun p => p.1.im_eps_yy)) (per.map (fun p => p.1.im_eps_zz)) numOfLayer
    buildCount_ := s.buildCount_ + 1 }

/-! ## Per-point evaluation -/

/-- The value returned by `Simulation::getPhiAtKxKy` once the cache is in place. -/
def phiAtKxKyValue (ext : Ext K n) (s : Simulation K n) (omegaIdx : Int) (kx ky : K) : K :=
  readAt s.omegaList_ omegaIdx 0 / ext.c_0 / ext.pi ^ 3 / 2 *
    ext.poyntingFlux (readAt s.omegaList_ omegaIdx 0 / ext.c_0 / ext.MICRON)
      s.thicknessListVec_ kx ky s.EMatrices_ s.grandImaginaryMatrices_
      s.eps_zz_Inv_Matrices_ s.Gx_mat_ s.Gy_mat_ s.sourceList_ s.targetLayer_ n
      s.options_.polarization

/-- The cache step shared by the evaluators: `if(curOmegaIndex_ != omegaIdx)` set the
index and call `buildRCWAMatrices`. -/
def refreshCache (ext : Ext K n) (s : Simulation K n) (omegaIdx : Int) : Simulation K n :=
  if s.curOmegaIndex_ ≠ omegaIdx then
    buildRCWAMatrices ext { s with curOmegaIndex_ := omegaIdx }
  else s

/-- `Simulation::getPhiAtKxKy`. -/
def getPhiAtKxKy (ext : Ext K n) (s : Simulation K n) (omegaIdx : Int) (kx ky : K) :
    Outcome (Simulation K n) K :=
  if omegaIdx ≥ s.numOfOmega_ then ⟨.error Exn.RangeException, s⟩
  else
    let s1 := refreshCache ext s omegaIdx
    ⟨.ok (phiAtKxKyValue ext s1 omegaIdx kx ky), { s1 with fluxCount_ := s1.fluxCount_ + 1 }⟩

/-- `SimulationPlanar::getPhiAtKParallel`. -/
def getPhiAtKParallel (ext : Ext K n) (s : Simulation K n) (omegaIdx : Int) (KParallel : K) :
    Outcome (Simulation K n) K :=
  if s.options_.IntegrateKParallel = false then ⟨.error Exn.InternalException, s⟩
  else if omegaIdx ≥ s.numOfOmega_ then ⟨.error Exn.RangeException, s⟩
  else
    let s1 := refreshCache ext s omegaIdx
    ⟨.ok ((readAt s1.omegaList_ omegaIdx 0 / ext.c_0) ^ 2 / ext.pi ^ 2 * KParallel *
        ext.poyntingFlux (readAt s1.omegaList_ omegaIdx 0 / ext.c_0 / ext.MICRON)
          s1.thicknessListVec_ KParallel 0 s1.EMatrices_ s1.grandImaginaryMatrices_
          s1.eps_zz_Inv_Matrices_ s1.Gx_mat_ s1.Gy_mat_ s1.sourceList_ s1.targetLayer_ 1
          s1.options_.polarization), { s1 with fluxCount_ := s1.fluxCount_ + 1 }⟩

/-- The range check at the head of `Simulation::getEpsilon`: the exception it throws, if
any. -/
def getEpsilonRangeCheck (s : Simulation K n) (omegaIndex : Int) : Option Exn :=
  if omegaIndex < 0 ∨ omegaIndex ≥ s.numOfOmega_ then some Exn.RangeException else none

/-- A run of consecutive `getPhiAtKxKy` calls at one frequency index, stopping at the
first exception; returns the state after the run. -/
def evalPoints (ext : Ext K n) (omegaIdx : Int) : List (K × K) → Simulation K n →
    Simulation K n
  | [], s => s
  | p :: ps, s =>
    match getPhiAtKxKy ext s omegaIdx p.1 p.2 with
    | ⟨.ok _, s1⟩ => evalPoints ext omegaIdx ps s1
    | ⟨.error _, s1⟩ => s1

/-! ## `Simulation::initSimulation` -/

/-- `Simulation::resetSimulation`. -/
def resetSimulation (s : Simulation K n) : Simulation K n :=
  { s with EMatrices_ := [], grandImaginaryMatrices_ := [], eps_zz_Inv_Matrices_ := [],
           sourceList_ := [], thicknessListVec_ := [], curOmegaIndex_ := -1 }

/-- The layer loop of `initSimulation`, from layer index `i` on: fills the thickness and
source vectors and throws when a source layer lies above the probe layer. -/
def initLayers (ext : Ext K n) : List (Layer K) → Int → Simulation K n →
    Outcome (Simulation K n) Unit
  | [], _, s => ⟨.ok (), s⟩
  | layer :: rest, i, s =>
    let s1 := { s with
      thicknessListVec_ := writeAt s.thicknessListVec_ i (layer.thickness * ext.MICRON)
      sourceList_ := writeAt s.sourceList_ i layer.isSource }
    if readAt s1.sourceList_ i false = true ∧ i > s1.targetLayer_ then
      ⟨.error Exn.RangeException, s1⟩
    else initLayers ext rest (i + 1) s1

/-- `Simulation::initSimulation`.  With an empty structure the C++ code dereferences a
missing first layer; the model then takes an empty frequency list. -/
def initSimulation (ext : Ext K n) (s : Simulation K n) : Outcome (Simulation K n) Unit :=
  let s0 := resetSimulation s
  let rescaledLattice : Lattice K :=
    { bx := (s0.reciprocalLattice_.bx.1 / ext.MICRON, s0.reciprocalLattice_.bx.2 / ext.MICRON)
      by_ := (s0.reciprocalLattice_.by_.1 / ext.MICRON,
              s0.reciprocalLattice_.by_.2 / ext.MICRON)
      angle := s0.reciprocalLattice_.angle
      area := if s0.dim_ = DIMENSION.ONE_ then s0.reciprocalLattice_.area / ext.MICRON
              else s0.reciprocalLattice_.area / ext.MICRON ^ 2 }
  let G := ext.getGMatrices rescaledLattice s0.dim_ s0.options_.truncation_
  let backGround : Material K :=
    match s0.structure_.head? with
    | some firstLayer => derefMaterial s0.materialInstanceMap_ firstLayer.backGround
    | none => { name := "", omegaList := [], epsilonVals := [], type_ := EPSTYPE.SCALAR_ }
  let numOfLayer := s0.structure_.length
  let s1 : Simulation K n :=
    { s0 with
      Gx_mat_ := G.1
      Gy_mat_ := G.2
      numOfOmega_ := backGround.getNumOfOmega
      omegaList_ := backGround.omegaList
      EMatrices_ := List.replicate numOfLayer []
      grandImaginaryMatrices_ := List.replicate numOfLayer []
      eps_zz_Inv_Matrices_ := List.replicate numOfLayer none
      thicknessListVec_ := List.replicate numOfLayer 0
      sourceList_ := List.replicate numOfLayer false }
  match initLayers ext s1.structure_ 0 s1 with
  | ⟨.error e, s2⟩ => ⟨.error e, s2⟩
  | ⟨.ok _, s2⟩ =>
    let s3 := { s2 with
      thicknessListVec_ :=
        writeAt (writeAt s2.thicknessListVec_ 0 0) ((numOfLayer : Int) - 1) 0 }
    if s3.dim_ ≠ DIMENSION.NO_ ∧ s3.reciprocalLattice_.bx.1 = 0 then
      ⟨.error Exn.ValueException, s3⟩
    else if s3.dim_ = DIMENSION.TWO_ ∧ s3.reciprocalLattice_.by_.2 = 0 then
      ⟨.error Exn.ValueException, s3⟩
    else
      ⟨.ok (), { s3 with
        Phi_ := some (List.replicate s3.numOfOmega_.toNat 0)
        structure_ := s3.structure_.map ext.getGeometryContainmentRelation }⟩

/-! ## Integration bounds -/

/-- `Simulation::setKxIntegral`. -/
def setKxIntegral (ext : Ext K n) (s : Simulation K n) (points : Int) (end_ : K) :
    Outcome (Simulation K n) Unit :=
  if points < 2 then ⟨.error Exn.ValueException, s⟩
  else
    let s1 := { s with numOfKx_ := points }
    if s1.dim_ ≠ DIMENSION.NO_ ∧ s1.reciprocalLattice_.bx.1 = 0 then
      ⟨.error Exn.ValueException, s1⟩
    else if s1.dim_ = DIMENSION.NO_ ∧ end_ = 0 then ⟨.error Exn.ValueException, s1⟩
    else
      let s2 :=
        if end_ ≠ 0 then
          { s1 with kxEnd_ := end_, options_ := { s1.options_ with kxIntegralPreset := true } }
        else
          { s1 with
            kxEnd_ := ext.hypot s1.reciprocalLattice_.bx.1 s1.reciprocalLattice_.bx.2 / 2
            options_ := { s1.options_ with kxIntegralPreset := false } }
      ⟨.ok (), { s2 with kxStart_ := -s2.kxEnd_ }⟩

/-- `Simulation::setKxIntegralSym`. -/
def setKxIntegralSym (ext : Ext K n) (s : Simulation K n) (points : Int) (end_ : K) :
    Outcome (Simulation K n) Unit :=
  if points < 2 then ⟨.error Exn.ValueException, s⟩
  else
    let s1 := { s with numOfKx_ := points }
    if s1.dim_ ≠ DIMENSION.NO_ ∧ s1.reciprocalLattice_.bx.1 = 0 then
      ⟨.error Exn.ValueException, s1⟩
    else if s1.dim_ = DIMENSION.NO_ ∧ end_ = 0 then ⟨.error Exn.ValueException, s1⟩
    else
      let s2 :=
        if end_ ≠ 0 then
          { s1 with kxEnd_ := end_, options_ := { s1.options_ with kxIntegralPreset := true } }
        else
          { s1 with
            kxEnd_ := ext.hypot s1.reciprocalLattice_.bx.1 s1.reciprocalLattice_.bx.2 / 2
            options_ := { s1.options_ with kxIntegralPreset := false } }
      ⟨.ok (), { s2 with kxStart_ := 0, prefactor_ := s2.prefactor_ * 2 }⟩

/-- `Simulation::setKyIntegral`. -/
def setKyIntegral (ext : Ext K n) (s : Simulation K n) (points : Int) (end_ : K) :
    Outcome (Simulation K n) Unit :=
  if points < 2 then ⟨.error Exn.ValueException, s⟩
  else
    let s1 := { s with numOfKy_ := points }
    if s1.dim_ = DIMENSION.TWO_ ∧ s1.reciprocalLattice_.by_.2 = 0 then
      ⟨.error Exn.ValueException, s1⟩
    else if (s1.dim_ = DIMENSION.NO_ ∨ s1.dim_ = DIMENSION.ONE_) ∧ end_ = 0 then
      ⟨.error Exn.ValueException, s1⟩
    else
      let s2 :=
        if end_ ≠ 0 then
          { s1 with kyEnd_ := end_, options_ := { s1.options_ with kyIntegralPreset := true } }
        else
          { s1 with
            kyEnd_ := ext.hypot s1.reciprocalLattice_.by_.1 s1.reciprocalLattice_.by_.2 / 2
            options_ := { s1.options_ with kyIntegralPreset := false } }
      ⟨.ok (), { s2 with kyStart_ := -s2.kyEnd_ }⟩

/-- `Simulation::setKyIntegralSym`. -/
def setKyIntegralSym (ext : Ext K n) (s : Simulation K n) (points : Int) (end_ : K) :
    Outcome (Simulation K n) Unit :=
  if points < 2 then ⟨.error Exn.ValueException, s⟩
  else
    let s1 := { s with numOfKy_ := points }
    if s1.dim_ = DIMENSION.TWO_ ∧ s1.reciprocalLattice_.by_.2 = 0 then
      ⟨.error Exn.ValueException, s1⟩
    else if (s1.dim_ = DIMENSION.NO_ ∨ s1.dim_ = DIMENSION.ONE_) ∧ end_ = 0 then
      ⟨.error Exn.ValueException, s1⟩
    else
      let s2 :=
        if end_ ≠ 0 then
          { s1 with kyEnd_ := end_, options_ := { s1.options_ with kyIntegralPreset := true } }
        else
          { s1 with
            kyEnd_ := ext.hypot s1.reciprocalLattice_.by_.1 s1.reciprocalLattice_.by_.2 / 2
            options_ := { s1.options_ with kyIntegralPreset := false } }
      ⟨.ok (), { s2 with kyStart_ := 0, prefactor_ := s2.prefactor_ * 2 }⟩

/-! ## `Simulation::integrateKxKyInternal` -/

/-- The entry `scalex[i]`. -/
def scalex (ext : Ext K n) (s : Simulation K n) (i : Int) : K :=
  match s.dim_ with
  | DIMENSION.NO_ => 1
  | DIMENSION.ONE_ =>
    if s.options_.kxIntegralPreset then 1 else readAt s.omegaList_ i 0 / ext.c_0
  | DIMENSION.TWO_ =>
    if s.options_.kxIntegralPreset then 1 else readAt s.omegaList_ i 0 / ext.c_0

/-- The entry `scaley[i]`. -/
def scaley (ext : Ext K n) (s : Simulation K n) (i : Int) : K :=
  match s.dim_ with
  | DIMENSION.NO_ => 1
  | DIMENSION.ONE_ => 1
  | DIMENSION.TWO_ =>
    if s.options_.kyIntegralPreset then 1 else readAt s.omegaList_ i 0 / ext.c_0

/-- The step `dkx`. -/
def dkx (s : Simulation K n) : K := (s.kxEnd_ - s.kxStart_) / ((s.numOfKx_ - 1 : Int) : K)

/-- The step `dky`. -/
def dky (s : Simulation K n) : K := (s.kyEnd_ - s.kyStart_) / ((s.numOfKy_ - 1 : Int) : K)

/-- The sheared and scaled `kx` handed to `getPhiAtKxKy` for grid indices
`(kxIdx, kyIdx)` at frequency index `omegaIdx`. -/
def kxAt (ext : Ext K n) (s : Simulation K n) (omegaIdx kxIdx : Int) : K :=
  ((s.kxStart_ + dkx s * (kxIdx : K)) *
    ext.cos ((s.reciprocalLattice_.angle - 90) * ext.pi / 180)) / scalex ext s omegaIdx

/-- The sheared and scaled `ky` handed to `getPhiAtKxKy`. -/
def kyAt (ext : Ext K n) (s : Simulation K n) (omegaIdx kxIdx kyIdx : Int) : K :=
  ((s.kyStart_ + dky s * (kyIdx : K)) - (s.kxStart_ + dkx s * (kxIdx : K)) *
    ext.sin ((s.reciprocalLattice_.angle - 90) * ext.pi / 180)) / scaley ext s omegaIdx

/-- A counted `for` loop `for(int i = i0; ...; i++)` over a state, stopping at the first
exception. -/
def forLoop {σ : Type} (body : Int → σ → Outcome σ Unit) : Nat → Int → σ → Outcome σ Unit
  | 0, _, st => ⟨.ok (), st⟩
  | k + 1, i, st =>
    match body i st with
    | ⟨.ok _, st1⟩ => forLoop body k (i + 1) st1
    | ⟨.error e, st1⟩ => ⟨.error e, st1⟩

/-- Body of the chunked loop (`parallel == false`) for the flat index `i`. -/
def chunkBody (ext : Ext K n) (i : Int) (st : Simulation K n × (Int → K)) :
    Outcome (Simulation K n × (Int → K)) Unit :=
  let s := st.1
  let omegaIdx := i.tdiv (s.numOfKx_ * s.numOfKy_)
  let s1 := refreshCache ext s omegaIdx
  let residue := i.tmod (s1.numOfKx_ * s1.numOfKy_)
  let kxIdx := residue.tdiv s1.numOfKy_
  let kyIdx := residue.tmod s1.numOfKy_
  match getPhiAtKxKy ext s1 omegaIdx (kxAt ext s1 omegaIdx kxIdx)
      (kyAt ext s1 omegaIdx kxIdx kyIdx) with
  | ⟨.ok v, s2⟩ => ⟨.ok (), (s2, Function.update st.2 i v)⟩
  | ⟨.error e, s2⟩ => ⟨.error e, (s2, st.2)⟩

/-- Body of the inner loop of the grid branch (`parallel == true`) at frequency index
`omegaIdx` for the in-plane index `i`; `kxList` and `kyList` are read at
`[i / numOfKy_][i % numOfKy_]`. -/
def gridBody (ext : Ext K n) (omegaIdx : Int) (i : Int) (st : Simulation K n × (Int → K)) :
    Outcome (Simulation K n × (Int → K)) Unit :=
  let s := st.1
  let kxIdx := i.tdiv s.numOfKy_
  let kyIdx := i.tmod s.numOfKy_
  match getPhiAtKxKy ext s omegaIdx (kxAt ext s omegaIdx kxIdx)
      (kyAt ext s omegaIdx kxIdx kyIdx) with
  | ⟨.ok v, s2⟩ =>
    ⟨.ok (), (s2, Function.update st.2 (omegaIdx * s.numOfKx_ * s.numOfKy_ + i) v)⟩
  | ⟨.error e, s2⟩ => ⟨.error e, (s2, st.2)⟩

/-- Body of the frequency loop of the grid branch. -/
def gridOmegaBody (ext : Ext K n) (omegaIdx : Int) (st : Simulation K n × (Int → K)) :
    Outcome (Simulation K n × (Int → K)) Unit :=
  let s1 := refreshCache ext st.1 omegaIdx
  forLoop (gridBody ext omegaIdx) (s1.numOfKx_ * s1.numOfKy_).toNat 0 (s1, st.2)

/-- The weight with which `resultArray[i]` enters `Phi_[omegaIdx]`. -/
def phiTerm (ext : Ext K n) (s : Simulation K n) (omegaIdx : Int) (r : K) : K :=
  s.prefactor_ * r * dkx s / scalex ext s omegaIdx * dky s / scaley ext s omegaIdx *
    (readAt s.omegaList_ omegaIdx 0 / ext.c_0) ^ 2 *
    |ext.sin (s.reciprocalLattice_.angle * ext.pi / 180)|

/-- The final loop of `integrateKxKyInternal`: `Phi_[omegaIdx] += ...` for `count` flat
indices from `i` on. -/
def accumulatePhi (ext : Ext K n) (s : Simulation K n) (resultArray : Int → K) :
    Nat → Int → List K → List K
  | 0, _, phi => phi
  | k + 1, i, phi =>
    let omegaIdx := i.tdiv (s.numOfKx_ * s.numOfKy_)
    accumulatePhi ext s resultArray k (i + 1)
      (writeAt phi omegaIdx (readAt phi omegaIdx 0 + phiTerm ext s omegaIdx (resultArray i)))

/-- `Simulation::integrateKxKyInternal`. -/
def integrateKxKyInternal (ext : Ext K n) (s : Simulation K n) (start end_ : Int)
    (parallel : Bool) : Outcome (Simulation K n) Unit :=
  let resultArray : Int → K := fun _ => 0
  let filled :=
    if parallel then forLoop (gridOmegaBody ext) s.numOfOmega_.toNat 0 (s, resultArray)
    else forLoop (chunkBody ext) (end_ - start).toNat start (s, resultArray)
  match filled with
  | ⟨.error e, st⟩ => ⟨.error e, st.1⟩
  | ⟨.ok _, st⟩ =>
    ⟨.ok (), { st.1 with
      Phi_ := st.1.Phi_.map (accumulatePhi ext st.1 st.2 (end_ - start).toNat start) }⟩

/-- `Simulation::integrateKxKy`. -/
def integrateKxKy (ext : Ext K n) (s : Simulation K n) : Outcome (Simulation K n) Unit :=
  integrateKxKyInternal ext s 0 (s.numOfOmega_ * s.numOfKx_ * s.numOfKy_) true

/-- `Simulation::integrateKxKyMPI`. -/
def integrateKxKyMPI (ext : Ext K n) (s : Simulation K n) (rank size : Int) :
    Outcome (Simulation K n) Unit :=
  let r := mpiRange (s.numOfOmega_ * s.numOfKx_ * s.numOfKy_) rank size
  integrateKxKyInternal ext s r.1 r.2 false

/-! ## `SimulationPlanar`: the k-parallel integration -/

/-- `SimulationPlanar::setKParallelIntegral`. -/
def setKParallelIntegral (s : Simulation K n) (end_ : K) : Simulation K n :=
  { s with kxStart_ := 0, numOfKx_ := 0, kxEnd_ := end_,
           options_ := { s.options_ with IntegrateKParallel := true } }

/-- The struct `ArgWrapper` handed to the quadrature routines, with the members that
`integrateKParallel` fills. -/
structure ArgWrapper (K : Type) (n : Nat) where
  thicknessList : List K
  Gx_mat : RCWArMatrix K
  Gy_mat : RCWArMatrix K
  sourceList : List Bool
  targetLayer : Int
  omega : K
  EMatrices : List (RCWAcDynMatrix K)
  grandImaginaryMatrices : List (RCWAcDynMatrix K)
  eps_zz_Inv : List (Option (RCWAcMatrix K n))
  polar : POLARIZATION

/-- The integrand `wrapperFunQuadgl` of the Gauss-Legendre rule: `kx` times the flux kernel
at `(kx, 0)` with one harmonic. -/
def wrapperFunQuadgl (ext : Ext K n) (kx : K) (wrapper : ArgWrapper K n) : K :=
  kx * ext.poyntingFlux (wrapper.omega / ext.MICRON) wrapper.thicknessList kx 0
    wrapper.EMatrices wrapper.grandImaginaryMatrices wrapper.eps_zz_Inv wrapper.Gx_mat
    wrapper.Gy_mat wrapper.sourceList wrapper.targetLayer 1 wrapper.polar

/-- The integrand `wrapperFunQuadgk` of the adaptive rule: the value stored in `fval[0]`. -/
def wrapperFunQuadgk (ext : Ext K n) (kx : K) (wrapper : ArgWrapper K n) : K :=
  kx * ext.poyntingFlux (wrapper.omega / ext.MICRON) wrapper.thicknessList kx 0
    wrapper.EMatrices wrapper.grandImaginaryMatrices wrapper.eps_zz_Inv wrapper.Gx_mat
    wrapper.Gy_mat wrapper.sourceList wrapper.targetLayer 1 wrapper.polar

/-- The three cached matrix lists of one frequency index, as `integrateKParallel` copies
them into `EMatricesVec[i]`, `grandImaginaryMatricesVec[i]` and
`eps_zz_Inv_MatricesVec[i]`. -/
abbrev CacheCopy (K : Type) (n : Nat) : Type :=
  List (RCWAcDynMatrix K) × List (RCWAcDynMatrix K) × List (Option (RCWAcMatrix K n))

/-- The first loop of `integrateKParallel`, `count` frequency indices from `i` on: sets the
cached index, rebuilds the cache and copies it. -/
def kParallelCaches (ext : Ext K n) :
    Nat → Int → Simulation K n × List (CacheCopy K n) → Simulation K n × List (CacheCopy K n)
  | 0, _, st => st
  | count + 1, i, st =>
    let s1 := buildRCWAMatrices ext { st.1 with curOmegaIndex_ := i }
    kParallelCaches ext count (i + 1)
      (s1, writeAt st.2 i (s1.EMatrices_, s1.grandImaginaryMatrices_, s1.eps_zz_Inv_Matrices_))

/-- The second loop of `integrateKParallel`, `count` frequency indices from `i` on: the
quadrature of the wrapped flux kernel over `[kxStart_, kxEnd_]`, stored in `Phi_[i]` and
scaled there by `(ω / c_0)³ / π²`. -/
def kParallelPhi (ext : Ext K n) (s : Simulation K n) (caches : List (CacheCopy K n)) :
    Nat → Int → List K → List K
  | 0, _, phi => phi
  | count + 1, i, phi =>
    let cache := readAt caches i ([], [], [])
    let wrapper : ArgWrapper K n :=
      { thicknessList := s.thicknessListVec_, Gx_mat := s.Gx_mat_, Gy_mat := s.Gy_mat_,
        sourceList := s.sourceList_, targetLayer := s.targetLayer_,
        omega := readAt s.omegaList_ i 0 / ext.c_0,
        EMatrices := cache.1, grandImaginaryMatrices := cache.2.1, eps_zz_Inv := cache.2.2,
        polar := s.options_.polarization }
    let phi1 :=
      match s.options_.IntegralMethod with
      | METHOD.GAUSSLEGENDRE_ =>
        writeAt phi i
          (ext.gauss_legendre s.degree_ (fun kx => wrapperFunQuadgl ext kx wrapper)
            s.kxStart_ s.kxEnd_)
      | METHOD.GAUSSKRONROD_ =>
        writeAt phi i
          (ext.adapt_integrate (fun kx => wrapperFunQuadgk ext kx wrapper) s.kxStart_ s.kxEnd_
            ext.ABSERROR ext.RELERROR)
    kParallelPhi ext s caches count (i + 1)
      (writeAt phi1 i (readAt phi1 i 0 * ((readAt s.omegaList_ i 0 / ext.c_0) ^ 3 / ext.pi ^ 2)))

/-- `SimulationPlanar::integrateKParallel`. -/
def integrateKParallel (ext : Ext K n) (s : Simulation K n) : Outcome (Simulation K n) Unit :=
  if s.options_.IntegrateKParallel = false then ⟨.error Exn.InternalException, s⟩
  else
    let built := kParallelCaches ext s.numOfOmega_.toNat 0
      (s, List.replicate s.numOfOmega_.toNat ([], [], []))
    ⟨.ok (), { built.1 with
      Phi_ := built.1.Phi_.map (kParallelPhi ext built.1 built.2 built.1.numOfOmega_.toNat 0) }⟩

/-! ## `FileLoader` -/

/-- The constructor `FileLoader::FileLoader` behind `FileLoader::instanceNew`: no array is
allocated.  The members `numOfOmega_` and `preSet_` get their initial values in the class
declaration, outside `src/`; they are taken as `0` and `false`, and the permittivity type
as scalar. -/
def FileLoader.instanceNew : FileLoader K :=
  { omegaList_ := none
    epsilonList_ := { epsilonVals := none, type_ := EPSTYPE.SCALAR_ }
    numOfOmega_ := 0
    preSet_ := false }

/-- A text file as `FileLoader::load` sees it: the rows delivered by `std::getline`, and
the values delivered by the successive `>>` extractions of the second pass. -/
structure TextFile (K : Type) where
  lines : List String
  numbers : List K

/-- The C function `isspace` in the default locale. -/
def isspace (c : Char) : Bool := c.toNat = 32 || (9 ≤ c.toNat && c.toNat ≤ 13)

/-- The function `checkType`: counts the white space of the preprocessed row. -/
def checkType (preprocessString : String → String) (line : String) : Except Exn EPSTYPE :=
  let numOfSpace := ((preprocessString line).data.filter isspace).length
  if numOfSpace = 2 then .ok EPSTYPE.SCALAR_
  else if numOfSpace = 6 then .ok EPSTYPE.DIAGONAL_
  else if numOfSpace = 10 then .ok EPSTYPE.TENSOR_
  else .error Exn.UnknownTypeException

/-- The first pass of `load`: `count++; type = checkType(line)` for every row. -/
def countRows (preprocessString : String → String) :
    List String → Int × EPSTYPE → Except Exn (Int × EPSTYPE)
  | [], acc => .ok acc
  | line :: rest, acc =>
    match checkType preprocessString line with
    | .error e => .error e
    | .ok t => countRows preprocessString rest (acc.1 + 1, t)

/-- The entries of a sample after one row was read into it: of the `width` values
extracted, those at even positions are stored as they are and those at odd positions
(imaginary parts) negated; the other entries keep their content. -/
def storeRow (width : Nat) (vals : List K) (old : EpsilonVal K) : EpsilonVal K :=
  fun j => if j.val < width then (if j.val % 2 = 1 then -(vals.getD j.val 0) else vals.getD j.val 0)
           else old j

/-- Number of values extracted after the frequency for a permittivity type. -/
def rowWidth : EPSTYPE → Nat
  | EPSTYPE.SCALAR_ => 2
  | EPSTYPE.DIAGONAL_ => 6
  | EPSTYPE.TENSOR_ => 10

/-- The second pass of `load`, `count` rows from row `i` on: reads the frequency and the
permittivity values of each row from the stream `src`.  A value that the stream cannot
deliver is taken as `0`; the C++ code leaves it indeterminate. -/
def readRows (type_ : EPSTYPE) :
    Nat → Nat → List K → List K × List (EpsilonVal K) → List K × List (EpsilonVal K)
  | 0, _, _, acc => acc
  | count + 1, i, src, acc =>
    let omega := src.headD 0
    let vals := src.tail.take (rowWidth type_)
    readRows type_ count (i + 1) (src.tail.drop (rowWidth type_))
      (acc.1.set i omega, acc.2.set i (storeRow (rowWidth type_) vals (acc.2.getD i (fun _ => 0))))

/-- `FileLoader::load`; `disk` gives the content of the files that exist. -/
def FileLoader.load (preprocessString : String → String) (disk : String → Option (TextFile K))
    (self : FileLoader K) (fileName : String) : Outcome (FileLoader K) Unit :=
  match disk fileName with
  | none => ⟨.error Exn.FileNotExistException, self⟩
  | some file =>
    match countRows preprocessString file.lines (0, EPSTYPE.SCALAR_) with
    | .error e => ⟨.error e, self⟩
    | .ok (count, type) =>
      let prepared : Option (FileLoader K) :=
        if !self.preSet_ then
          some { self with
            numOfOmega_ := count
            preSet_ := true
            omegaList_ := some (List.replicate count.toNat 0)
            epsilonList_ := { self.epsilonList_ with
              epsilonVals := some (List.replicate count.toNat (fun _ => 0)) } }
        else if self.numOfOmega_ ≠ count then none
        else some self
      match prepared with
      | none => ⟨.error Exn.RangeException, self⟩
      | some self1 =>
        let filled := readRows type self1.numOfOmega_.toNat 0 file.numbers
          (self1.omegaList_.getD [], self1.epsilonList_.epsilonVals.getD [])
        ⟨.ok (), { self1 with
          omegaList_ := self1.omegaList_.map (fun _ => filled.1)
          epsilonList_ :=
            { epsilonVals := self1.epsilonList_.epsilonVals.map (fun _ => filled.2)
              type_ := type } }⟩

/-! ## Materials and layers of the simulation: creation, lookup, deletion -/

/-- Modelled from the spec: `Material::instanceNew`, declared outside `src/`: a material
with the given name that holds its own copy of the first `numOfOmega` frequencies and
permittivity samples and the permittivity type of the loader. -/
def Material.instanceNew (name : String) (omegaList : Option (List K))
    (epsilonList : EPSILON K) (numOfOmega : Int) : Material K :=
  { name := name
    omegaList := (omegaList.getD []).take numOfOmega.toNat
    epsilonVals := (epsilonList.epsilonVals.getD []).take numOfOmega.toNat
    type_ := epsilonList.type_ }

/-- Modelled from the spec: `Layer::instanceNew(name, material, thick)`, declared outside
`src/`: a layer with that name, background and thickness, without patterns and not marked
as source, whose anisotropy flag says whether the background is of tensor type.  The
pointer `material` is given by the registry key and the object. -/
def Layer.instanceNew (name : String) (material : String × Material K) (thick : K) : Layer K :=
  { name := name, backGround := material.1, thickness := thick, isSource := false,
    hasTensor_ := decide (material.2.type_ = EPSTYPE.TENSOR_), patterns := [], materials := [] }

/-- Modelled from the spec: `Layer::setThickness`, declared outside `src/`. -/
def Layer.setThickness (l : Layer K) (thick : K) : Layer K := { l with thickness := thick }

/-- Modelled from the spec: `Layer::setIsSource`, declared outside `src/`: marks the layer
as source. -/
def Layer.setIsSource (l : Layer K) : Layer K := { l with isSource := true }

/-- Modelled from the spec: `Structure::addLayer`, declared outside `src/`: puts the layer
on top of the ordered layer stack. -/
def Structure.addLayer (stack : List (Layer K)) (layer : Layer K) : List (Layer K) :=
  stack ++ [layer]

/-- Modelled from the spec: `Structure::deleteLayerByName`, declared outside `src/`: takes
the layer of that name out of the layer stack. -/
def Structure.deleteLayerByName (stack : List (Layer K)) (name : String) : List (Layer K) :=
  stack.eraseP (fun l => l.name == name)

/-- The lookup `layerInstanceMap_.find(name)`: the layer object registered under the name,
if there is one. -/
def findLayer (s : Simulation K n) (name : String) : Option (Layer K) :=
  s.structure_.find? (fun l => l.name == name)

/-- A member call through the pointer `layerInstanceMap_.find(name)->second`: the layer
object registered under the name becomes `f` of it. -/
def updateLayer (f : Layer K → Layer K) (name : String) : List (Layer K) → List (Layer K)
  | [] => []
  | l :: rest => if l.name == name then f l :: rest else l :: updateLayer f name rest

/-- `Simulation::addMaterial`; `disk` gives the content of the files that exist. -/
def addMaterial (ext : Ext K n) (disk : String → Option (TextFile K)) (s : Simulation K n)
    (name infile : String) : Outcome (Simulation K n) Unit :=
  if (s.materialInstanceMap_.lookup name).isSome then ⟨.error Exn.NameInUseException, s⟩
  else
    match FileLoader.load ext.preprocessString disk s.fileLoader_ infile with
    | ⟨.error e, loader⟩ => ⟨.error e, { s with fileLoader_ := loader }⟩
    | ⟨.ok _, loader⟩ =>
      let material := Material.instanceNew name loader.omegaList_ loader.epsilonList_
        loader.numOfOmega_
      ⟨.ok (), { s with
        fileLoader_ := loader
        materialInstanceMap_ := s.materialInstanceMap_ ++ [(name, material)] }⟩

/-- `Simulation::addLayer`. -/
def addLayer (s : Simulation K n) (name : String) (thick : K) (materialName : String) :
    Outcome (Simulation K n) Unit :=
  match s.materialInstanceMap_.lookup materialName with
  | none => ⟨.error Exn.IllegalNameException, s⟩
  | some material =>
    if (findLayer s name).isSome then ⟨.error Exn.NameInUseException, s⟩
    else
      let layer := Layer.instanceNew name (materialName, material) thick
      ⟨.ok (), { s with structure_ := Structure.addLayer s.structure_ layer }⟩

/-- `Simulation::setLayerThickness`. -/
def setLayerThickness (s : Simulation K n) (name : String) (thick : K) :
    Outcome (Simulation K n) Unit :=
  if (findLayer s name).isNone then ⟨.error Exn.IllegalNameException, s⟩
  else
    ⟨.ok (), { s with
      structure_ := updateLayer (fun l => l.setThickness thick) name s.structure_ }⟩

/-- `Simulation::deleteLayer`. -/
def deleteLayer (s : Simulation K n) (name : String) : Outcome (Simulation K n) Unit :=
  if (findLayer s name).isNone then ⟨.error Exn.NameInUseException, s⟩
  else ⟨.ok (), { s with structure_ := Structure.deleteLayerByName s.structure_ name }⟩

/-- `Simulation::setSourceLayer`. -/
def setSourceLayer (s : Simulation K n) (name : String) : Outcome (Simulation K n) Unit :=
  if (findLayer s name).isNone then ⟨.error Exn.IllegalNameException, s⟩
  else ⟨.ok (), { s with structure_ := updateLayer (fun l => l.setIsSource) name s.structure_ }⟩

/-- `Simulation::setTargetLayerByLayer`: the index of the first layer of the stack that is
the object `layer`. -/
def setTargetLayerByLayer (s : Simulation K n) (layer : String) : Simulation K n :=
  match s.structure_.findIdx? (fun l => l.name == layer) with
  | some i => { s with targetLayer_ := i }
  | none => s

/-- `Simulation::setProbeLayer`. -/
def setProbeLayer (s : Simulation K n) (name : String) : Outcome (Simulation K n) Unit :=
  if (findLayer s name).isNone then ⟨.error Exn.IllegalNameException, s⟩
  else ⟨.ok (), setTargetLayerByLayer s name⟩

/-- `Simulation::optSetLatticeTruncation`.  In the last branch the exception object is
constructed and dropped: there is no `throw`. -/
def optSetLatticeTruncation (s : Simulation K n) (truncation : String) :
    Outcome (Simulation K n) Unit :=
  if truncation = "Circular" then
    ⟨.ok (), { s with options_ := { s.options_ with truncation_ := TRUNCATION.CIRCULAR_ } }⟩
  else if truncation = "Parallelogramic" then
    ⟨.ok (), { s with
      options_ := { s.options_ with truncation_ := TRUNCATION.PARALLELOGRAMIC_ } }⟩
  else ⟨.ok (), s⟩

/-- A sequence of calls on one object, stopped by the first exception. -/
def callSeq {σ : Type} : List (σ → Outcome σ Unit) → σ → Outcome σ Unit
  | [], st => ⟨.ok (), st⟩
  | f :: rest, st =>
    match f st with
    | ⟨.ok _, st1⟩ => callSeq rest st1
    | ⟨.error e, st1⟩ => ⟨.error e, st1⟩

/-! ## `Simulation::setThread` -/

/-- `Simulation::setThread`.  `openMP` says whether the macro `_OPENMP` is defined when
`Mesh.cpp` is compiled, and `omp_get_max_threads` is the value that the OpenMP run time
returns. -/
def setThread (openMP : Bool) (omp_get_max_threads : Int) (s : Simulation K n) (thread : Int) :
    Outcome (Simulation K n) Unit :=
  if thread ≤ 0 then ⟨.error Exn.RangeException, s⟩
  else if openMP then ⟨.ok (), { s with numOfThread_ := min thread omp_get_max_threads }⟩
  else ⟨.ok (), s⟩

/-! ## `Simulation::getEpsilon`: the layer that owns a height -/

/-- The layer search loop of `Simulation::getEpsilon` with `count` iterations left, at
layer index `i` and cumulative thickness `offset`: the values of `layerIdx` and `offset`
when the loop is left, through `break` or at its end. -/
def locateLoop (thicknessListVec : List K) (z : K) : Nat → Int → K → Int × K
  | 0, _, offset => (0, offset)
  | count + 1, i, offset =>
    if z > offset ∧ z ≤ offset + readAt thicknessListVec i 0 then (i, offset)
    else locateLoop thicknessListVec z count (i + 1) (offset + readAt thicknessListVec i 0)

/-- The layer index `layerIdx` that `Simulation::getEpsilon` computes for the height
`positions[2]`. -/
def getEpsilonLayerIdx (s : Simulation K n) (z : K) : Int :=
  let numOfLayer : Int := s.structure_.length
  let r := locateLoop s.thicknessListVec_ z (numOfLayer - 1).toNat 1 0
  if r.1 = 0 ∧ z > r.2 then numOfLayer - 1 else r.1

/-! ## The pattern dispatch of `buildRCWAMatrices` -/

/-- The `switch` of the pattern loop of `buildRCWAMatrices`: the call of the factoriser of
the shape kind, with the embedding tensor `epsParentTensor`, the sample `epsilon` and the
type of the inclusion material. -/
def dispatchShape (ext : Ext K n) (Gx_mat Gy_mat : RCWArMatrix K) (area : K) (hasTensor : Bool)
    (acc : FourierMatrices K n) (pattern : Pattern K) (epsParentTensor epsilon : EpsilonVal K)
    (type_ : EPSTYPE) : FourierMatrices K n :=
  match pattern.type_ with
  | PATTERN.GRATING_ =>
    ext.transformGrating acc epsParentTensor epsilon type_ Gx_mat
      (pattern.arg1_.1 * ext.MICRON) (pattern.arg1_.2 * ext.MICRON) area hasTensor
  | PATTERN.RECTANGLE_ =>
    ext.transformRectangle acc epsParentTensor epsilon type_ Gx_mat Gy_mat
      (pattern.arg1_.1 * ext.MICRON, pattern.arg1_.2 * ext.MICRON)
      (ext.pi / 180 * pattern.angle_)
      (pattern.arg2_.1 * ext.MICRON, pattern.arg2_.2 * ext.MICRON) area hasTensor
  | PATTERN.CIRCLE_ =>
    ext.transformCircle acc epsParentTensor epsilon type_ Gx_mat Gy_mat
      (pattern.arg1_.1 * ext.MICRON, pattern.arg2_.1 * ext.MICRON)
      (pattern.arg1_.2 * ext.MICRON) area hasTensor
  | PATTERN.ELLIPSE_ =>
    ext.transformEllipse acc epsParentTensor epsilon type_ Gx_mat Gy_mat
      (pattern.arg1_.1 * ext.MICRON, pattern.arg1_.2 * ext.MICRON)
      (ext.pi / 180 * pattern.angle_)
      (pattern.arg2_.1 * ext.MICRON, pattern.arg2_.2 * ext.MICRON) area hasTensor
  | PATTERN.POLYGON_ =>
    ext.transformPolygon acc epsParentTensor epsilon type_ Gx_mat Gy_mat
      (pattern.arg1_.1 * ext.MICRON, pattern.arg1_.2 * ext.MICRON)
      (ext.pi / 180 * pattern.angle_)
      (pattern.edgeList_.map (fun e => (e.1 * ext.MICRON, e.2 * ext.MICRON)))
      area hasTensor

/-! ## Sequences of integration-bound setters -/

/-- A call of one of the four integration-bound setters, with its arguments. -/
inductive KSetter (K : Type) where
  | kx (points : Int) (end_ : K)
  | kxSym (points : Int) (end_ : K)
  | ky (points : Int) (end_ : K)
  | kySym (points : Int) (end_ : K)

/-- The call is one of the two symmetric setters. -/
def KSetter.isSym : KSetter K → Bool
  | .kx _ _ => false
  | .kxSym _ _ => true
  | .ky _ _ => false
  | .kySym _ _ => true

/-- Performs the call on a simulation. -/
def KSetter.call (ext : Ext K n) (c : KSetter K) (s : Simulation K n) :
    Outcome (Simulation K n) Unit :=
  match c with
  | .kx points end_ => setKxIntegral ext s points end_
  | .kxSym points end_ => setKxIntegralSym ext s points end_
  | .ky points end_ => setKyIntegral ext s points end_
  | .kySym points end_ => setKyIntegralSym ext s points end_

/-- The constructors `Simulation::Simulation` and `SimulationPlanar::SimulationPlanar`.
`decl` gives the members that neither constructor initialises: they get their values in
the class declarations, outside `src/`.  `DEGREE` is a macro defined outside `src/`.  The
number of harmonics, which the constructor sets to `0` and `setNumOfG` sets later, is the
parameter `n`. -/
def SimulationPlanar.instanceNew (decl : Simulation K n) (DEGREE : Int) : Simulation K n :=
  { decl with
    numOfOmega_ := 0, Phi_ := none, omegaList_ := []
    kxStart_ := 0, kxEnd_ := 0, kyStart_ := 0, kyEnd_ := 0, numOfKx_ := 0, numOfKy_ := 0
    targetLayer_ := -1, dim_ := DIMENSION.NO_, structure_ := [], materialInstanceMap_ := []
    fileLoader_ := FileLoader.instanceNew, degree_ := DEGREE, prefactor_ := 1 }

/-! ## The chunk bounds before the clamp -/

/-- The pair `(start, end)` of `integrateKxKyMPI` before the statement
`if(end > totalNum) end = totalNum`. -/
def mpiRangeUnclamped (totalNum rank size : Int) : Int × Int :=
  let chunksize := totalNum.tdiv size
  let left := totalNum.tmod size
  if rank ≥ left then
    (left * (chunksize + 1) + (rank - left) * chunksize,
     left * (chunksize + 1) + (rank - left) * chunksize + chunksize)
  else (rank * (chunksize + 1), rank * (chunksize + 1) + chunksize + 1)

/-! ## `integrateKxKyMPI` in 32-bit arithmetic -/

/-- The value of an `int` expression whose exact value is `x`: `x` reduced modulo `2^32`
into `[-2^31, 2^31)`. -/
def wrapInt (x : Int) : Int := (x + 2147483648) % 4294967296 - 2147483648

/-- The pair `(start, end)` computed by `Simulation::integrateKxKyMPI(rank, size)` with the
result of every `int` operation reduced to 32 bits, the final clamp included. -/
def mpiRange32 (totalNum rank size : Int) : Int × Int :=
  let chunksize := totalNum.tdiv size
  let left := totalNum.tmod size
  let start :=
    if rank ≥ left then
      wrapInt (wrapInt (left * wrapInt (chunksize + 1)) + wrapInt (wrapInt (rank - left) * chunksize))
    else wrapInt (rank * wrapInt (chunksize + 1))
  let end0 :=
    if rank ≥ left then wrapInt (start + chunksize) else wrapInt (wrapInt (start + chunksize) + 1)
  let end1 := if end0 > totalNum then totalNum else end0
  (start, end1)

/-- `Simulation::integrateKxKyMPI` with `totalNum`, `start` and `end` computed in 32-bit
`int` arithmetic. -/
def integrateKxKyMPI32 (ext : Ext K n) (s : Simulation K n) (rank size : Int) :
    Outcome (Simulation K n) Unit :=
  let totalNum := wrapInt (wrapInt (s.numOfOmega_ * s.numOfKx_) * s.numOfKy_)
  let r := mpiRange32 totalNum rank size
  integrateKxKyInternal ext s r.1 r.2 false

/-! ## The flux kernel as a function of the frequency index and the wavevector -/

/-- The state `s` with the cached index, the three cached matrix lists and the ghost
counters replaced. -/
def withCache (s : Simulation K n) (cur : Int) (E G : List (RCWAcDynMatrix K))
    (Z : List (Option (RCWAcMatrix K n))) (b f : Nat) : Simulation K n :=
  { s with curOmegaIndex_ := cur, EMatrices_ := E, grandImaginaryMatrices_ := G,
           eps_zz_Inv_Matrices_ := Z, buildCount_ := b, fluxCount_ := f }

/-- The state after the cache was rebuilt for the frequency index `w`. -/
def cacheAt (ext : Ext K n) (s : Simulation K n) (w : Int) : Simulation K n :=
  buildRCWAMatrices ext { s with curOmegaIndex_ := w }

/-- The cache is invalid (negative cached index, as after `resetSimulation`) or holds what
`buildRCWAMatrices` produces for the cached index. -/
def CacheValid (ext : Ext K n) (s : Simulation K n) : Prop :=
  s.curOmegaIndex_ < 0 ∨
    (s.EMatrices_ = (cacheAt ext s s.curOmegaIndex_).EMatrices_ ∧
     s.grandImaginaryMatrices_ = (cacheAt ext s s.curOmegaIndex_).grandImaginaryMatrices_ ∧
     s.eps_zz_Inv_Matrices_ = (cacheAt ext s s.curOmegaIndex_).eps_zz_Inv_Matrices_)

/-- The value of `getPhiAtKxKy(w, kx, ky)` on the cache of the frequency index `w`: the
flux kernel as a function of `(w, kx, ky)`. -/
def fluxAt (ext : Ext K n) (s : Simulation K n) (w : Int) (kx ky : K) : K :=
  phiAtKxKyValue ext (cacheAt ext s w) w kx ky

/-- The flux kernel at the grid point with the unsheared, unscaled coordinates `(x, y)`:
the integrand of the grid sum. -/
def gridFlux (ext : Ext K n) (s : Simulation K n) (w : Int) (x y : K) : K :=
  fluxAt ext s w
    ((x * ext.cos ((s.reciprocalLattice_.angle - 90) * ext.pi / 180)) / scalex ext s w)
    ((y - x * ext.sin ((s.reciprocalLattice_.angle - 90) * ext.pi / 180)) / scaley ext s w)

/-- The flux kernel at the grid point of the flat index `i`: frequency index
`i / (numOfKx_ * numOfKy_)`, kx index `(i % (numOfKx_ * numOfKy_)) / numOfKy_`, ky index
`i % numOfKy_`. -/
def flatFlux (ext : Ext K n) (s : Simulation K n) (i : Int) : K :=
  let omegaIdx := i.tdiv (s.numOfKx_ * s.numOfKy_)
  let residue := i.tmod (s.numOfKx_ * s.numOfKy_)
  fluxAt ext s omegaIdx (kxAt ext s omegaIdx (residue.tdiv s.numOfKy_))
    (kyAt ext s omegaIdx (residue.tdiv s.numOfKy_) (residue.tmod s.numOfKy_))

/-- Closed form of the chunk boundaries of `integrateKxKyMPI`: rank `r` starts at
`mpiBound r` and ends at `mpiBound (r + 1)`. -/
def mpiBound (totalNum size r : Int) : Int :=
  r * (totalNum / size) + min r (totalNum % size)

/-- The states reached from `s` by cache refreshes and flux evaluations: `s` up to the
cache and the ghost counters, with a cache that is stored into the same slots and is
invalid or that of the cached index. -/
def Reach (ext : Ext K n) (s t : Simulation K n) : Prop :=
  ∃ (c : Int) (E G : List (RCWAcDynMatrix K)) (Z : List (Option (RCWAcMatrix K n)))
    (b f : Nat),
    t = withCache s c E G Z b f ∧
    (∀ vals : List (Option (RCWAcMatrix K n)), vals.length = s.structure_.length →
      storeFrom vals 0 Z = storeFrom vals 0 s.eps_zz_Inv_Matrices_) ∧
    (c < 0 ∨
      (E = (cacheAt ext s c).EMatrices_ ∧ G = (cacheAt ext s c).grandImaginaryMatrices_ ∧
       Z = (cacheAt ext s c).eps_zz_Inv_Matrices_))

/-- The sum that one call of `integrateKxKy` adds to `Phi_[w]`: the weighted flux kernel
over all grid points. -/
def gridSum (ext : Ext K n) (s : Simulation K n) (w : Int) : K :=
  ∑ i ∈ Finset.range s.numOfKx_.toNat, ∑ j ∈ Finset.range s.numOfKy_.toNat,
    phiTerm ext s w
      (gridFlux ext s w (s.kxStart_ + dkx s * (i : K)) (s.kyStart_ + dky s * (j : K)))

/-- The cumulative thickness `t[1] + ... + t[i]` of the layers `1` to `i`. -/
def cumThickness (t : List K) (i : Nat) : K := ∑ j ∈ Finset.range i, t.getD (j + 1) 0

end Model

/-! ## Concrete instances for evaluation -/

/-- External functions over `ℚ` for concrete evaluations: the flux kernel returns
`kx² + ky² + 1` (even in `kx` and in `ky`), `sin` and `cos` take the values of the sine and cosine at `0` and, for
every other argument, at a right angle; the factorisers add nothing. -/
def demoExt (n : Nat) : Ext ℚ n :=
  { c_0 := 1, pi := 2, MICRON := 1
    cos := fun x => if x = 0 then 1 else 0
    sin := fun x => if x = 0 then 0 else 1
    hypot := fun x y => x + y
    preprocessString := fun l => l
    toTensor := fun e _ => e
    transformGrating := fun m _ _ _ _ _ _ _ _ => m
    transformRectangle := fun m _ _ _ _ _ _ _ _ _ _ => m
    transformCircle := fun m _ _ _ _ _ _ _ _ _ => m
    transformEllipse := fun m _ _ _ _ _ _ _ _ _ _ => m
    transformPolygon := fun m _ _ _ _ _ _ _ _ _ _ => m
    inv := fun m => m
    getEMatrices := fun _ _ _ _ _ => []
    getGrandImaginaryMatrices := fun _ _ _ _ _ _ => []
    poyntingFlux := fun _ _ kx ky _ _ _ _ _ _ _ _ _ => kx * kx + ky * ky + 1
    getGMatrices := fun _ _ _ => ([], [])
    getGeometryContainmentRelation := fun l => l
    gauss_legendre := fun _ f a b => (b - a) * f ((a + b) / 2)
    adapt_integrate := fun f a b _ _ => (b - a) * f ((a + b) / 2)
    ABSERROR := 0, RELERROR := 0 }

/-- A planar simulation (`dim_ == NO_`) without layers, one frequency `ω = 2`, a zeroed
flux spectrum, an invalid cache, a right lattice angle and `ky` bounds `[-1, 1]` with two
points. -/
def demoSim (n : Nat) : Simulation ℚ n :=
  { numOfOmega_ := 1, Phi_ := some [0], omegaList_ := [2]
    kxStart_ := 0, kxEnd_ := 0, kyStart_ := -1, kyEnd_ := 1
    numOfKx_ := 0, numOfKy_ := 2, prefactor_ := 1, targetLayer_ := 0
    dim_ := DIMENSION.NO_, structure_ := [], materialInstanceMap_ := []
    fileLoader_ := FileLoader.instanceNew
    lattice_ := ⟨(0, 0), (0, 0), 90, 1⟩, reciprocalLattice_ := ⟨(0, 0), (0, 0), 90, 1⟩
    options_ := ⟨false, POLARIZATION.BOTH_, TRUNCATION.CIRCULAR_, METHOD.GAUSSLEGENDRE_,
                 false, false, false⟩
    numOfThread_ := 1, degree_ := 1, curOmegaIndex_ := -1
    EMatrices_ := [], grandImaginaryMatrices_ := [], eps_zz_Inv_Matrices_ := []
    Gx_mat_ := [], Gy_mat_ := [], sourceList_ := [], thicknessListVec_ := []
    buildCount_ := 0, fluxCount_ := 0 }

/-- The planar example after `setKxIntegral(3, 1)`: a grid of three `kx` points on
`[-1, 1]` and two `ky` points on `[-1, 1]`. -/
def demoGrid (n : Nat) : Simulation ℚ n := (setKxIntegral (demoExt n) (demoSim n) 3 1).state

/-- The stack of `examples/Simple_Planar_Far/test.cpp`: a PEC layer, a GaAs layer marked
as source, and a vacuum layer, with one frequency sample per material. -/
def demoLayers : List (Layer ℚ) :=
  [ { name := "PECLayer", backGround := "PEC", thickness := 0, isSource := false,
      hasTensor_ := false, patterns := [], materials := [] },
    { name := "GaAsLayer", backGround := "GaAs", thickness := 1, isSource := true,
      hasTensor_ := false, patterns := [], materials := [] },
    { name := "VacuumLayer", backGround := "Vacuum", thickness := 0, isSource := false,
      hasTensor_ := false, patterns := [], materials := [] } ]

/-- The three materials of `demoLayers`, each scalar with the permittivity `1`. -/
def demoMaterials : List (String × Material ℚ) :=
  ["PEC", "GaAs", "Vacuum"].map (fun nm =>
    (nm, { name := nm, omegaList := [2], type_ := EPSTYPE.SCALAR_
           epsilonVals := [fun j => if j.val % 2 = 0 then 1 else 0] }))

/-- The example stack with the probe layer at index `target`. -/
def demoStack (n : Nat) (target : Int) : Simulation ℚ n :=
  { demoSim n with
    structure_ := demoLayers, materialInstanceMap_ := demoMaterials, targetLayer_ := target }

/-- A file loader that has already loaded a file of one row. -/
def demoLoader : FileLoader ℚ :=
  { omegaList_ := some [1]
    epsilonList_ := { epsilonVals := some [fun _ => 0], type_ := EPSTYPE.SCALAR_ }
    numOfOmega_ := 1, preSet_ := true }

/-- A disk with two files of two rows: one with two scalar rows, one whose second row has
a single value after the frequency. -/
def demoDisk (name : String) : Option (TextFile ℚ) :=
  if name = "two_rows.txt" then
    some { lines := ["1 2 3", "4 5 6"], numbers := [1, 2, 3, 4, 5, 6] }
  else if name = "short_row.txt" then
    some { lines := ["1 2 3", "4 5"], numbers := [1, 2, 3, 4, 5] }
  else none

/-- One layer whose background `A` and whose single inclusion material `B` are registered
with the given permittivity types; the anisotropy flag is `flag`. -/
def demoAniso (typeA typeB : EPSTYPE) (flag : Bool) : Simulation ℚ 1 :=
  { demoSim 1 with
    structure_ :=
      [ { name := "L", backGround := "A", thickness := 1, isSource := false, hasTensor_ := flag
          patterns := [ { type_ := PATTERN.CIRCLE_, arg1_ := (0, 1), arg2_ := (0, 0),
                          angle_ := 0, parent := -1, edgeList_ := [] } ]
          materials := ["B"] } ]
    materialInstanceMap_ :=
      [ ("A", { name := "A", omegaList := [2], epsilonVals := [fun _ => 1], type_ := typeA }),
        ("B", { name := "B", omegaList := [2], epsilonVals := [fun _ => 1], type_ := typeB }) ] }

/-- The planar example built through the public interface: three materials loaded from a
file of two scalar rows, the three layers of `examples/Simple_Planar_Far/test.cpp`, the two
lower layers marked as source one after the other, the top layer as probe, and
`initSimulation`. -/
def demoTwoSources : Outcome (Simulation ℚ 1) Unit :=
  callSeq
    [ fun s => addMaterial (demoExt 1) demoDisk s "PEC" "two_rows.txt",
      fun s => addMaterial (demoExt 1) demoDisk s "GaAs" "two_rows.txt",
      fun s => addMaterial (demoExt 1) demoDisk s "Vacuum" "two_rows.txt",
      fun s => addLayer s "PECLayer" 0 "PEC",
      fun s => addLayer s "GaAsLayer" 1 "GaAs",
      fun s => addLayer s "VacuumLayer" 0 "Vacuum",
      fun s => setSourceLayer s "PECLayer",
      fun s => setSourceLayer s "GaAsLayer",
      fun s => setProbeLayer s "VacuumLayer",
      fun s => initSimulation (demoExt 1) s ]
    (demoSim 1)

/-- A disk with one file of two rows, the first with two values after the frequency and
the second with six. -/
def demoMixedDisk (name : String) : Option (TextFile ℚ) :=
  if name = "mixed_rows.txt" then
    some { lines := ["1 2 3", "4 5 6 7 8 9 10"], numbers := [1, 2, 3, 4, 5, 6, 7, 8, 9, 10] }
  else none

/-- The example stack after `setKxIntegral(3, 1)`: three `kx` points and two `ky` points. -/
def demoStackGrid : Simulation ℚ 1 := (setKxIntegral (demoExt 1) (demoStack 1 2) 3 1).state

/-- The layer of `demoAniso` with tensor background `A` and tensor inclusion `B`, its flag
set, and a third, scalar material `C` in the registry. -/
def demoAnisoC : Simulation ℚ 1 :=
  { demoAniso EPSTYPE.TENSOR_ EPSTYPE.TENSOR_ true with
    materialInstanceMap_ :=
      (demoAniso EPSTYPE.TENSOR_ EPSTYPE.TENSOR_ true).materialInstanceMap_ ++
        [("C", { name := "C", omegaList := [2], epsilonVals := [fun _ => 1],
                 type_ := EPSTYPE.SCALAR_ })] }

/-- The example stack as a grating simulation (`dim_ == ONE_`) whose lattice was never set,
with the probe layer below the source layer. -/
def demoNoLattice : Simulation ℚ 1 := { demoStack 1 0 with dim_ := DIMENSION.ONE_ }

/-- The layer of `demoAnisoC`. -/
def demoCircleLayer : Layer ℚ :=
  { name := "L", backGround := "A", thickness := 1, isSource := false, hasTensor_ := true
    patterns := [ { type_ := PATTERN.CIRCLE_, arg1_ := (0, 1), arg2_ := (0, 0),
                    angle_ := 0, parent := -1, edgeList_ := [] } ]
    materials := ["B"] }

/-- The planar example with one frequency and a grid of five `kx` points and two `ky`
points: ten flat indices. -/
def demoTen : Simulation ℚ 1 := { demoSim 1 with numOfKx_ := 5 }

/-! # Theorems -/

section Theorems

variable {K : Type} [LinearOrderedField K] {n : Nat}

/-! ## Basic facts on array access -/

theorem readAt_ofNat {α : Type} (a : List α) (i : Nat) (d : α) :
    readAt a (i : Int) d = a.getD i d := by
  simp [readAt]

theorem writeAt_ofNat {α : Type} (a : List α) (i : Nat) (v : α) :
    writeAt a (i : Int) v = a.set i v := by
  simp [writeAt]

theorem writeAt_length {α : Type} (a : List α) (i : Int) (v : α) :
    (writeAt a i v).length = a.length := by
  unfold writeAt
  split <;> simp

/-! ## The chunk bounds -/

/-- Closed form of the chunk bounds for a rank below `size`: the clamp never fires. -/
theorem mpiRange_eq (totalNum rank size : Int) (h0 : 0 ≤ totalNum) (h1 : 1 ≤ size)
    (hr : rank < size) :
    mpiRange totalNum rank size =
      if totalNum % size ≤ rank then
        (totalNum % size * (totalNum / size + 1) + (rank - totalNum % size) * (totalNum / size),
         totalNum % size * (totalNum / size + 1) + (rank - totalNum % size) * (totalNum / size)
           + totalNum / size)
      else (rank * (totalNum / size + 1), rank * (totalNum / size + 1) + totalNum / size + 1) := by
  have hs : 0 ≤ size := by omega
  have hq : 0 ≤ totalNum / size := Int.ediv_nonneg h0 hs
  have hl1 : totalNum % size < size := Int.emod_lt_of_pos _ (by omega)
  have hdiv : size * (totalNum / size) + totalNum % size = totalNum :=
    Int.ediv_add_emod totalNum size
  simp only [mpiRange, Int.tdiv_eq_ediv h0 hs, Int.tmod_eq_emod h0 hs, ge_iff_le, gt_iff_lt]
  generalize totalNum / size = q at *
  generalize totalNum % size = l at *
  have h2 : (rank + 1) * q ≤ size * q := by
    apply mul_le_mul_of_nonneg_right _ hq
    omega
  by_cases hc : l ≤ rank
  · simp only [hc, if_true]
    have : ¬ (totalNum < l * (q + 1) + (rank - l) * q + q) := by nlinarith
    simp [this]
  · simp only [hc, if_false]
    have : ¬ (totalNum < rank * (q + 1) + q + 1) := by nlinarith
    simp [this]

/-- C1: for `totalNum ≥ 0` and `size ≥ 1` the half-open ranges `[start(r), end(r))` of
`integrateKxKyMPI` for the ranks `0 .. size-1` are contiguous and tile `[0, totalNum)`:
`start(0) = 0`, `end(r) = start(r+1)`, `end(size-1) = totalNum`; the first
`totalNum mod size` ranks get `floor(totalNum/size) + 1` indices, every other rank
`floor(totalNum/size)`. -/
theorem mpiRange_tiles (totalNum size : Int) (h0 : 0 ≤ totalNum) (h1 : 1 ≤ size) :
    (mpiRange totalNum 0 size).1 = 0 ∧
    (∀ r : Int, 0 ≤ r → r < size - 1 →
      (mpiRange totalNum r size).2 = (mpiRange totalNum (r + 1) size).1) ∧
    (mpiRange totalNum (size - 1) size).2 = totalNum ∧
    (∀ r : Int, 0 ≤ r → r < totalNum % size →
      (mpiRange totalNum r size).2 - (mpiRange totalNum r size).1 = totalNum / size + 1) ∧
    (∀ r : Int, totalNum % size ≤ r → r < size →
      (mpiRange totalNum r size).2 - (mpiRange totalNum r size).1 = totalNum / size) := by
  have hl0 : 0 ≤ totalNum % size := Int.emod_nonneg _ (by omega)
  have hl1 : totalNum % size < size := Int.emod_lt_of_pos _ (by omega)
  have hdiv : size * (totalNum / size) + totalNum % size = totalNum :=
    Int.ediv_add_emod totalNum size
  refine ⟨?_, ?_, ?_, ?_, ?_⟩
  · rw [mpiRange_eq totalNum 0 size h0 h1 (by omega)]
    split
    · have : totalNum % size = 0 := by omega
      simp [this]
    · simp
  · intro r hr0 hr
    rw [mpiRange_eq totalNum r size h0 h1 (by omega),
      mpiRange_eq totalNum (r + 1) size h0 h1 (by omega)]
    by_cases hc : totalNum % size ≤ r
    · have hc1 : totalNum % size ≤ r + 1 := by omega
      simp only [hc, hc1, if_true]
      ring
    · by_cases hc1 : totalNum % size ≤ r + 1
      · have hl : totalNum % size = r + 1 := by omega
        rw [if_neg hc, if_pos hc1, hl]
        show r * (totalNum / size + 1) + totalNum / size + 1 =
          (r + 1) * (totalNum / size + 1) + (r + 1 - (r + 1)) * (totalNum / size)
        ring
      · simp only [hc, hc1, if_false]
        ring
  · rw [mpiRange_eq totalNum (size - 1) size h0 h1 (by omega)]
    have hc : totalNum % size ≤ size - 1 := by omega
    simp only [hc, if_true]
    linear_combination hdiv
  · intro r _ hr
    rw [mpiRange_eq totalNum r size h0 h1 (by omega)]
    have hc : ¬ totalNum % size ≤ r := by omega
    simp only [hc, if_false]
    ring
  · intro r hr hr1
    rw [mpiRange_eq totalNum r size h0 h1 hr1]
    simp only [hr, if_true]
    ring

/-- Witness of `mpiRange_tiles`: ten indices over three ranks. -/
theorem mpiRange_tiles_witness :
    (mpiRange 10 0 3).1 = 0 ∧
    (∀ r : Int, 0 ≤ r → r < 3 - 1 → (mpiRange 10 r 3).2 = (mpiRange 10 (r + 1) 3).1) ∧
    (mpiRange 10 (3 - 1) 3).2 = 10 ∧
    (∀ r : Int, 0 ≤ r → r < 10 % 3 → (mpiRange 10 r 3).2 - (mpiRange 10 r 3).1 = 10 / 3 + 1) ∧
    (∀ r : Int, 10 % 3 ≤ r → r < 3 → (mpiRange 10 r 3).2 - (mpiRange 10 r 3).1 = 10 / 3) :=
  mpiRange_tiles 10 3 (by decide) (by decide)

/-! ## The per-point evaluators and the cache -/

theorem refreshCache_eq_self (ext : Ext K n) (s : Simulation K n) (omegaIdx : Int)
    (h : s.curOmegaIndex_ = omegaIdx) : refreshCache ext s omegaIdx = s := by
  simp [refreshCache, h]

theorem refreshCache_frame (ext : Ext K n) (s : Simulation K n) (omegaIdx : Int) :
    (refreshCache ext s omegaIdx).curOmegaIndex_ = omegaIdx ∧
    (refreshCache ext s omegaIdx).numOfOmega_ = s.numOfOmega_ ∧
    (refreshCache ext s omegaIdx).fluxCount_ = s.fluxCount_ ∧
    (refreshCache ext s omegaIdx).Phi_ = s.Phi_ ∧
    (refreshCache ext s omegaIdx).buildCount_ =
      s.buildCount_ + (if s.curOmegaIndex_ ≠ omegaIdx then 1 else 0) := by
  unfold refreshCache
  by_cases h : s.curOmegaIndex_ = omegaIdx
  · simp [h]
  · simp [h, buildRCWAMatrices]

/-- A run of evaluations at the cached frequency index only advances the flux counter. -/
theorem evalPoints_cached (ext : Ext K n) (omegaIdx : Int) (pts : List (K × K)) :
    ∀ s : Simulation K n, s.curOmegaIndex_ = omegaIdx → omegaIdx < s.numOfOmega_ →
      evalPoints ext omegaIdx pts s = { s with fluxCount_ := s.fluxCount_ + pts.length } := by
  induction pts with
  | nil => intro s _ _; rfl
  | cons p ps ih =>
    intro s hc hlt
    have hge : ¬ omegaIdx ≥ s.numOfOmega_ := by omega
    simp only [evalPoints, getPhiAtKxKy, hge, if_false, refreshCache_eq_self ext s omegaIdx hc]
    refine (ih { s with fluxCount_ := s.fluxCount_ + 1 } hc hlt).trans ?_
    simp [Nat.add_assoc, Nat.add_comm 1]

/-- C4: for a valid frequency index, `getPhiAtKxKy` returns, calls `buildRCWAMatrices`
exactly when the cached index differs from the requested one, and leaves
`curOmegaIndex_` equal to the requested index; any further run of evaluations at that
index, at arbitrary `(kx, ky)`, evaluates the kernel once per point and leaves the
cached index, the build counter and the three cached matrix lists unchanged. -/
theorem getPhiAtKxKy_cache (ext : Ext K n) (s : Simulation K n) (omegaIdx : Int) (kx ky : K)
    (_h0 : 0 ≤ omegaIdx) (h1 : omegaIdx < s.numOfOmega_) :
    (getPhiAtKxKy ext s omegaIdx kx ky).returns ∧
    (getPhiAtKxKy ext s omegaIdx kx ky).state.curOmegaIndex_ = omegaIdx ∧
    (getPhiAtKxKy ext s omegaIdx kx ky).state.buildCount_ =
      s.buildCount_ + (if s.curOmegaIndex_ ≠ omegaIdx then 1 else 0) ∧
    (s.curOmegaIndex_ = omegaIdx →
      (getPhiAtKxKy ext s omegaIdx kx ky).state.EMatrices_ = s.EMatrices_ ∧
      (getPhiAtKxKy ext s omegaIdx kx ky).state.grandImaginaryMatrices_ =
        s.grandImaginaryMatrices_ ∧
      (getPhiAtKxKy ext s omegaIdx kx ky).state.eps_zz_Inv_Matrices_ =
        s.eps_zz_Inv_Matrices_) ∧
    ∀ pts : List (K × K),
      (evalPoints ext omegaIdx pts (getPhiAtKxKy ext s omegaIdx kx ky).state).curOmegaIndex_
        = omegaIdx ∧
      (evalPoints ext omegaIdx pts (getPhiAtKxKy ext s omegaIdx kx ky).state).buildCount_
        = (getPhiAtKxKy ext s omegaIdx kx ky).state.buildCount_ ∧
      (evalPoints ext omegaIdx pts (getPhiAtKxKy ext s omegaIdx kx ky).state).fluxCount_
        = (getPhiAtKxKy ext s omegaIdx kx ky).state.fluxCount_ + pts.length ∧
      (evalPoints ext omegaIdx pts (getPhiAtKxKy ext s omegaIdx kx ky).state).EMatrices_
        = (getPhiAtKxKy ext s omegaIdx kx ky).state.EMatrices_ ∧
      (evalPoints ext omegaIdx pts
          (getPhiAtKxKy ext s omegaIdx kx ky).state).grandImaginaryMatrices_
        = (getPhiAtKxKy ext s omegaIdx kx ky).state.grandImaginaryMatrices_ ∧
      (evalPoints ext omegaIdx pts
          (getPhiAtKxKy ext s omegaIdx kx ky).state).eps_zz_Inv_Matrices_
        = (getPhiAtKxKy ext s omegaIdx kx ky).state.eps_zz_Inv_Matrices_ := by
  have hge : ¬ omegaIdx ≥ s.numOfOmega_ := by omega
  obtain ⟨hc, hn, _, _, hb⟩ := refreshCache_frame ext s omegaIdx
  have hst : (getPhiAtKxKy ext s omegaIdx kx ky).state =
      { refreshCache ext s omegaIdx with
        fluxCount_ := (refreshCache ext s omegaIdx).fluxCount_ + 1 } := by
    simp [getPhiAtKxKy, hge]
  refine ⟨?_, ?_, ?_, ?_, ?_⟩
  · simp [getPhiAtKxKy, hge, Outcome.returns]
  · rw [hst]; exact hc
  · rw [hst]; exact hb
  · intro h
    rw [hst, refreshCache_eq_self ext s omegaIdx h]
    exact ⟨rfl, rfl, rfl⟩
  · intro pts
    rw [evalPoints_cached ext omegaIdx pts _ (by rw [hst]; exact hc)
      (by rw [hst]; show omegaIdx < (refreshCache ext s omegaIdx).numOfOmega_; omega)]
    exact ⟨by rw [hst]; exact hc, rfl, rfl, rfl, rfl, rfl⟩

/-- Witness of `getPhiAtKxKy_cache`: frequency index `0` on the planar example, whose
cache is invalid, followed by two more points. -/
theorem getPhiAtKxKy_cache_witness :
    (getPhiAtKxKy (demoExt 1) (demoSim 1) 0 1 1).returns ∧
    (getPhiAtKxKy (demoExt 1) (demoSim 1) 0 1 1).state.buildCount_ = 1 ∧
    (evalPoints (demoExt 1) 0 [(2, 3), (4, 5)]
      (getPhiAtKxKy (demoExt 1) (demoSim 1) 0 1 1).state).buildCount_ = 1 ∧
    (evalPoints (demoExt 1) 0 [(2, 3), (4, 5)]
      (getPhiAtKxKy (demoExt 1) (demoSim 1) 0 1 1).state).fluxCount_ = 3 := by
  have h := getPhiAtKxKy_cache (demoExt 1) (demoSim 1) 0 1 1 (by decide) (by decide)
  refine ⟨h.1, ?_, ?_, ?_⟩
  · rw [h.2.2.1]; decide
  · rw [(h.2.2.2.2 [(2, 3), (4, 5)]).2.1, h.2.2.1]; decide
  · rw [(h.2.2.2.2 [(2, 3), (4, 5)]).2.2.1]; decide

/-- C10 (the code at a negative index): with one loaded frequency, `getPhiAtKxKy` and
`getPhiAtKParallel` called with index `-2` raise nothing; they set the cached index to
`-2`, rebuild the cache and call the flux kernel, whereas the range check of
`getEpsilon` rejects the same index. -/
theorem negative_index_not_rejected :
    (getPhiAtKxKy (demoExt 1) (demoSim 1) (-2) 0 0).returns ∧
    (getPhiAtKxKy (demoExt 1) (demoSim 1) (-2) 0 0).state.curOmegaIndex_ = -2 ∧
    (getPhiAtKxKy (demoExt 1) (demoSim 1) (-2) 0 0).state.buildCount_ = 1 ∧
    (getPhiAtKxKy (demoExt 1) (demoSim 1) (-2) 0 0).state.fluxCount_ = 1 ∧
    (getPhiAtKParallel (demoExt 1)
      { demoSim 1 with options_ := { (demoSim 1).options_ with IntegrateKParallel := true } }
      (-2) 0).returns ∧
    (getPhiAtKParallel (demoExt 1)
      { demoSim 1 with options_ := { (demoSim 1).options_ with IntegrateKParallel := true } }
      (-2) 0).state.buildCount_ = 1 ∧
    getEpsilonRangeCheck (demoSim 1) (-2) = some Exn.RangeException := by
  decide

/-! ## The symmetric integration bounds -/

/-- C9: a successful `setKxIntegralSym(points, end)` with `end != 0` sets `kxStart_ = 0`,
`kxEnd_ = end`, `numOfKx_ = points`, the kx preset flag, doubles `prefactor_` and leaves
`kyStart_`, `kyEnd_`, `numOfKy_` unchanged; `setKyIntegralSym` does the same with the
roles of kx and ky exchanged. -/
theorem setKIntegralSym_effect (ext : Ext K n) (s : Simulation K n) (points : Int) (end_ : K)
    (hend : end_ ≠ 0) :
    ((setKxIntegralSym ext s points end_).returns →
      (setKxIntegralSym ext s points end_).state.kxStart_ = 0 ∧
      (setKxIntegralSym ext s points end_).state.kxEnd_ = end_ ∧
      (setKxIntegralSym ext s points end_).state.numOfKx_ = points ∧
      (setKxIntegralSym ext s points end_).state.options_.kxIntegralPreset = true ∧
      (setKxIntegralSym ext s points end_).state.prefactor_ = 2 * s.prefactor_ ∧
      (setKxIntegralSym ext s points end_).state.kyStart_ = s.kyStart_ ∧
      (setKxIntegralSym ext s points end_).state.kyEnd_ = s.kyEnd_ ∧
      (setKxIntegralSym ext s points end_).state.numOfKy_ = s.numOfKy_ ∧
      (setKxIntegralSym ext s points end_).state.options_.kyIntegralPreset =
        s.options_.kyIntegralPreset) ∧
    ((setKyIntegralSym ext s points end_).returns →
      (setKyIntegralSym ext s points end_).state.kyStart_ = 0 ∧
      (setKyIntegralSym ext s points end_).state.kyEnd_ = end_ ∧
      (setKyIntegralSym ext s points end_).state.numOfKy_ = points ∧
      (setKyIntegralSym ext s points end_).state.options_.kyIntegralPreset = true ∧
      (setKyIntegralSym ext s points end_).state.prefactor_ = 2 * s.prefactor_ ∧
      (setKyIntegralSym ext s points end_).state.kxStart_ = s.kxStart_ ∧
      (setKyIntegralSym ext s points end_).state.kxEnd_ = s.kxEnd_ ∧
      (setKyIntegralSym ext s points end_).state.numOfKx_ = s.numOfKx_ ∧
      (setKyIntegralSym ext s points end_).state.options_.kxIntegralPreset =
        s.options_.kxIntegralPreset) := by
  constructor
  · unfold setKxIntegralSym
    by_cases hp : points < 2
    · simp [hp, Outcome.returns]
    · by_cases hl : s.dim_ ≠ DIMENSION.NO_ ∧ s.reciprocalLattice_.bx.1 = 0
      · simp [hp, hl, Outcome.returns]
      · intro _
        simp [hp, hl, hend, mul_comm]
  · unfold setKyIntegralSym
    by_cases hp : points < 2
    · simp [hp, Outcome.returns]
    · by_cases hl : s.dim_ = DIMENSION.TWO_ ∧ s.reciprocalLattice_.by_.2 = 0
      · simp [hp, hl, Outcome.returns]
      · intro _
        simp [hp, hl, hend, mul_comm]

/-- Witness of `setKIntegralSym_effect`: three points up to `1` on the planar example. -/
theorem setKIntegralSym_effect_witness :
    (setKxIntegralSym (demoExt 1) (demoSim 1) 3 1).returns ∧
    (setKxIntegralSym (demoExt 1) (demoSim 1) 3 1).state.prefactor_ = 2 * (demoSim 1).prefactor_ ∧
    (setKyIntegralSym (demoExt 1) (demoSim 1) 3 1).returns ∧
    (setKyIntegralSym (demoExt 1) (demoSim 1) 3 1).state.kyStart_ = 0 :=
  ⟨by decide,
   ((setKIntegralSym_effect (demoExt 1) (demoSim 1) 3 1 (by decide)).1 (by decide)).2.2.2.2.1,
   by decide,
   ((setKIntegralSym_effect (demoExt 1) (demoSim 1) 3 1 (by decide)).2 (by decide)).1⟩

/-! ## `initSimulation`: the probe layer check -/

theorem readAt_writeAt_self {α : Type} (a : List α) (i : Int) (v d : α) (h0 : 0 ≤ i)
    (h1 : i < a.length) : readAt (writeAt a i v) i d = v := by
  have h2 : i.toNat < a.length := by omega
  simp [readAt, writeAt, h0, List.getD_eq_getElem?_getD, List.getElem?_set, h2]

/-- The layer loop of `initSimulation` touches neither the flux spectrum nor the ghost
counters, and throws exactly when a source layer lies above the probe layer. -/
theorem initLayers_spec (ext : Ext K n) :
    ∀ (layers : List (Layer K)) (i : Int) (s : Simulation K n),
      0 ≤ i → i + layers.length ≤ s.sourceList_.length →
      (initLayers ext layers i s).state.Phi_ = s.Phi_ ∧
      (initLayers ext layers i s).state.buildCount_ = s.buildCount_ ∧
      (initLayers ext layers i s).state.fluxCount_ = s.fluxCount_ ∧
      (initLayers ext layers i s).state.EMatrices_ = s.EMatrices_ ∧
      (initLayers ext layers i s).state.grandImaginaryMatrices_ = s.grandImaginaryMatrices_ ∧
      (initLayers ext layers i s).state.eps_zz_Inv_Matrices_ = s.eps_zz_Inv_Matrices_ ∧
      ((∃ (j : Nat) (l : Layer K), layers[j]? = some l ∧ l.isSource = true ∧
          i + j > s.targetLayer_) → (initLayers ext layers i s).raises Exn.RangeException) ∧
      ((∀ (j : Nat) (l : Layer K), layers[j]? = some l → l.isSource = true →
          i + j ≤ s.targetLayer_) → (initLayers ext layers i s).returns) := by
  intro layers
  induction layers with
  | nil =>
    intro i s _ _
    simp [initLayers, Outcome.raises, Outcome.returns]
  | cons layer rest ih =>
    intro i s h0 hlen
    have hlen1 : i < s.sourceList_.length := by
      simp only [List.length_cons, Nat.cast_add, Nat.cast_one] at hlen
      omega
    have hread : readAt (writeAt s.sourceList_ i layer.isSource) i false = layer.isSource :=
      readAt_writeAt_self _ _ _ _ h0 hlen1
    simp only [initLayers, hread]
    by_cases hthrow : layer.isSource = true ∧ i > s.targetLayer_
    · rw [if_pos hthrow]
      refine ⟨rfl, rfl, rfl, rfl, rfl, rfl, fun _ => ?_, fun hall => ?_⟩
      · simp [Outcome.raises]
      · have := hall 0 layer (by simp) hthrow.1
        simp at this
        omega
    · rw [if_neg hthrow]
      have hlen2 : i + 1 + (rest.length : Int) ≤
          (writeAt s.sourceList_ i layer.isSource).length := by
        rw [writeAt_length]
        simp only [List.length_cons, Nat.cast_add, Nat.cast_one] at hlen
        omega
      obtain ⟨h1, h2, h3, h4, h5, h6, h7, h8⟩ := ih (i + 1)
        { s with
          thicknessListVec_ := writeAt s.thicknessListVec_ i (layer.thickness * ext.MICRON)
          sourceList_ := writeAt s.sourceList_ i layer.isSource } (by omega) hlen2
      refine ⟨h1, h2, h3, h4, h5, h6, fun hex => h7 ?_, fun hall => h8 ?_⟩
      · obtain ⟨j, l, hj, hs, hgt⟩ := hex
        cases j with
        | zero =>
          simp at hj
          subst hj
          exact absurd ⟨hs, by simpa using hgt⟩ hthrow
        | succ j =>
          refine ⟨j, l, by simpa using hj, hs, ?_⟩
          show i + 1 + (j : Int) > s.targetLayer_
          push_cast at hgt
          omega
      · intro j l hj hs
        have := hall (j + 1) l (by simpa using hj) hs
        show i + 1 + (j : Int) ≤ s.targetLayer_
        push_cast at this
        omega

/-- C5: when some layer flagged as source has an index above the probe layer index,
`initSimulation` raises a range error, builds no per-frequency matrix (the build counter
is unchanged and the cached lists hold only empty matrices), evaluates no flux and leaves
`Phi_` as it was; when every source layer index is at most the probe index,
`initSimulation` raises no range error. -/
theorem initSimulation_probe_check (ext : Ext K n) (s : Simulation K n) :
    ((∃ (j : Nat) (l : Layer K), s.structure_[j]? = some l ∧ l.isSource = true ∧
        (j : Int) > s.targetLayer_) →
      (initSimulation ext s).raises Exn.RangeException ∧
      (initSimulation ext s).state.Phi_ = s.Phi_ ∧
      (initSimulation ext s).state.buildCount_ = s.buildCount_ ∧
      (initSimulation ext s).state.fluxCount_ = s.fluxCount_ ∧
      (∀ M ∈ (initSimulation ext s).state.EMatrices_, M = []) ∧
      (∀ M ∈ (initSimulation ext s).state.grandImaginaryMatrices_, M = []) ∧
      (∀ M ∈ (initSimulation ext s).state.eps_zz_Inv_Matrices_, M = none)) ∧
    ((∀ (j : Nat) (l : Layer K), s.structure_[j]? = some l → l.isSource = true →
        (j : Int) ≤ s.targetLayer_) →
      ¬ (initSimulation ext s).raises Exn.RangeException) := by
  unfold initSimulation
  simp only []
  generalize hs1 : ({ resetSimulation s with
      Gx_mat_ := _, Gy_mat_ := _, numOfOmega_ := _, omegaList_ := _, EMatrices_ := _,
      grandImaginaryMatrices_ := _, eps_zz_Inv_Matrices_ := _, thicknessListVec_ := _,
      sourceList_ := _ } : Simulation K n) = s1
  have hstruct : s1.structure_ = s.structure_ := by subst hs1; rfl
  have hrs : (resetSimulation s).structure_ = s.structure_ := rfl
  simp only [hrs]
  have htarget : s1.targetLayer_ = s.targetLayer_ := by subst hs1; rfl
  have hphi : s1.Phi_ = s.Phi_ := by subst hs1; rfl
  have hb : s1.buildCount_ = s.buildCount_ := by subst hs1; rfl
  have hf : s1.fluxCount_ = s.fluxCount_ := by subst hs1; rfl
  have hE : s1.EMatrices_ = List.replicate s.structure_.length [] := by subst hs1; rfl
  have hG : s1.grandImaginaryMatrices_ = List.replicate s.structure_.length [] := by
    subst hs1; rfl
  have hZ : s1.eps_zz_Inv_Matrices_ = List.replicate s.structure_.length none := by
    subst hs1; rfl
  have hsl : s1.sourceList_.length = s.structure_.length := by subst hs1; simp [resetSimulation]
  obtain ⟨h1, h2, h3, h4, h5, h6, h7, h8⟩ := initLayers_spec ext s1.structure_ 0 s1 (by omega)
    (by rw [hsl, hstruct]; omega)
  rw [hstruct, htarget] at h7 h8
  simp only [zero_add] at h7 h8
  rw [hstruct] at h1 h2 h3 h4 h5 h6
  constructor
  · intro hex
    have hr := h7 hex
    rcases ho : initLayers ext s.structure_ 0 s1 with ⟨r, st⟩
    rw [ho] at hr h1 h2 h3 h4 h5 h6
    cases r with
    | ok u => simp [Outcome.raises] at hr
    | error e =>
      simp only [Outcome.raises] at hr
      subst hr
      simp only [Outcome.raises, true_and]
      simp only at h1 h2 h3 h4 h5 h6
      refine ⟨by rw [h1, hphi], by rw [h2, hb], by rw [h3, hf], ?_, ?_, ?_⟩
      · rw [h4, hE]; intro M hM; exact List.eq_of_mem_replicate hM
      · rw [h5, hG]; intro M hM; exact List.eq_of_mem_replicate hM
      · rw [h6, hZ]; intro M hM; exact List.eq_of_mem_replicate hM
  · intro hall
    have hr := h8 hall
    rcases ho : initLayers ext s.structure_ 0 s1 with ⟨r, st⟩
    rw [ho] at hr
    cases r with
    | error e => simp [Outcome.returns] at hr
    | ok u =>
      simp only [Outcome.raises]
      split_ifs <;> simp

/-- Witness of `initSimulation_probe_check`: the example stack has its source at index 1;
with the probe at index 0 the call is rejected, with the probe at index 2 it is not. -/
theorem initSimulation_probe_check_witness :
    (initSimulation (demoExt 1) (demoStack 1 0)).raises Exn.RangeException ∧
    (initSimulation (demoExt 1) (demoStack 1 0)).state.Phi_ = (demoStack 1 0).Phi_ ∧
    (initSimulation (demoExt 1) (demoStack 1 0)).state.buildCount_ = 0 ∧
    ¬ (initSimulation (demoExt 1) (demoStack 1 2)).raises Exn.RangeException := by
  have h := (initSimulation_probe_check (demoExt 1) (demoStack 1 0)).1
    ⟨1, _, rfl, rfl, by decide⟩
  refine ⟨h.1, h.2.1, h.2.2.1, (initSimulation_probe_check (demoExt 1) (demoStack 1 2)).2 ?_⟩
  intro j l hj _
  have hlt : j < 3 := by
    rcases Nat.lt_or_ge j 3 with h3 | h3
    · exact h3
    · have hnone : (demoStack 1 2).structure_[j]? = none := List.getElem?_eq_none h3
      rw [hnone] at hj
      cases hj
  show (j : Int) ≤ 2
  omega

/-! ## `buildRCWAMatrices`: the inverse of `eps_zz` -/

theorem storeFrom_getElem? {α : Type} :
    ∀ (vals : List α) (k : Nat) (arr : List α) (j : Nat),
      (storeFrom vals k arr)[j]? =
        if k ≤ j ∧ j < k + vals.length ∧ j < arr.length then vals[j - k]? else arr[j]? := by
  intro vals
  induction vals with
  | nil =>
    intro k arr j
    have hc : ¬ (k ≤ j ∧ j < k + ([] : List α).length ∧ j < arr.length) := by
      simp only [List.length_nil]
      omega
    rw [if_neg hc]
    rfl
  | cons v vs ih =>
    intro k arr j
    simp only [storeFrom, ih, List.length_set, List.length_cons]
    by_cases hjk : j = k
    · subst hjk
      have h1 : ¬ (j + 1 ≤ j ∧ j < j + 1 + vs.length ∧ j < arr.length) := by omega
      rw [if_neg h1]
      by_cases hlen : j < arr.length
      · have h2 : j ≤ j ∧ j < j + (vs.length + 1) ∧ j < arr.length := ⟨le_refl _, by omega, hlen⟩
        rw [if_pos h2]
        simp [List.getElem?_set, hlen]
      · have h2 : ¬ (j ≤ j ∧ j < j + (vs.length + 1) ∧ j < arr.length) := by omega
        rw [if_neg h2]
        simp [List.getElem?_set, hlen]
        omega
    · have hset : (arr.set k v)[j]? = arr[j]? := by
        simp [List.getElem?_set, Ne.symm hjk]
      rw [hset]
      by_cases hc : k + 1 ≤ j ∧ j < k + 1 + vs.length ∧ j < arr.length
      · have hc2 : k ≤ j ∧ j < k + (vs.length + 1) ∧ j < arr.length := by omega
        rw [if_pos hc, if_pos hc2]
        have : j - k = (j - (k + 1)) + 1 := by omega
        rw [this, List.getElem?_cons_succ]
      · have hc2 : ¬ (k ≤ j ∧ j < k + (vs.length + 1) ∧ j < arr.length) := by omega
        rw [if_neg hc, if_neg hc2]

/-- C3: if the inversion routine returns an inverse of every invertible matrix, then for
every layer and frequency index whose assembled `eps_zz` (the accumulated pattern
contributions plus the background term times the identity) is invertible, the matrix
that `buildRCWAMatrices` stores in `eps_zz_Inv_Matrices_[layer]` is the result of
inverting that complete matrix, and `eps_zz * eps_zz_Inv = 1`. -/
theorem buildRCWAMatrices_eps_zz_inverse (ext : Ext K n) (s : Simulation K n) (i : Nat)
    (layer : Layer K) (hl : s.structure_[i]? = some layer)
    (hi : i < s.eps_zz_Inv_Matrices_.length)
    (hinv : ∀ M : RCWAcMatrix K n, IsUnit M → M * ext.inv M = 1)
    (hE : IsUnit (assembledEpsZZ ext s.materialInstanceMap_ s.Gx_mat_ s.Gy_mat_
      (rcwaArea ext s.dim_ s.lattice_) s.curOmegaIndex_ layer)) :
    ∃ M : RCWAcMatrix K n,
      (buildRCWAMatrices ext s).eps_zz_Inv_Matrices_[i]? = some (some M) ∧
      assembledEpsZZ ext s.materialInstanceMap_ s.Gx_mat_ s.Gy_mat_
        (rcwaArea ext s.dim_ s.lattice_) s.curOmegaIndex_ layer * M = 1 := by
  refine ⟨ext.inv (assembledEpsZZ ext s.materialInstanceMap_ s.Gx_mat_ s.Gy_mat_
      (rcwaArea ext s.dim_ s.lattice_) s.curOmegaIndex_ layer), ?_, hinv _ hE⟩
  have hlen : i < s.structure_.length := by
    rcases Nat.lt_or_ge i s.structure_.length with h | h
    · exact h
    · rw [List.getElem?_eq_none h] at hl; cases hl
  show (storeFrom _ 0 s.eps_zz_Inv_Matrices_)[i]? = _
  rw [storeFrom_getElem?]
  have hc : 0 ≤ i ∧ i < 0 + ((buildLayers ext s).map (fun p => some p.2)).length ∧
      i < s.eps_zz_Inv_Matrices_.length := by
    refine ⟨Nat.zero_le _, ?_, hi⟩
    simp [buildLayers, hlen]
  rw [if_pos hc]
  simp only [Nat.sub_zero, buildLayers, List.map_map, List.getElem?_map, hl, Option.map_some',
    Function.comp]
  rfl

/-- Witness of `buildRCWAMatrices_eps_zz_inverse`: the bottom layer of the example stack,
whose assembled `eps_zz` is the identity, with the ring inverse as inversion routine. -/
theorem buildRCWAMatrices_eps_zz_inverse_witness :
    ∃ M : RCWAcMatrix ℚ 1,
      (buildRCWAMatrices { demoExt 1 with inv := Ring.inverse }
        { demoStack 1 2 with
          curOmegaIndex_ := 0, eps_zz_Inv_Matrices_ := [none, none, none] }
        ).eps_zz_Inv_Matrices_[0]? = some (some M) ∧
      assembledEpsZZ { demoExt 1 with inv := Ring.inverse } demoMaterials [] []
        (rcwaArea { demoExt 1 with inv := Ring.inverse } DIMENSION.NO_ ⟨(0, 0), (0, 0), 90, 1⟩)
        0 { name := "PECLayer", backGround := "PEC", thickness := 0, isSource := false,
            hasTensor_ := false, patterns := [], materials := [] } * M = 1 :=
  buildRCWAMatrices_eps_zz_inverse { demoExt 1 with inv := Ring.inverse }
    { demoStack 1 2 with curOmegaIndex_ := 0, eps_zz_Inv_Matrices_ := [none, none, none] }
    0 _ rfl (by decide) (fun M hM => Ring.mul_inverse_cancel M hM)
    (by
      have h1 : assembledEpsZZ { demoExt 1 with inv := Ring.inverse } demoMaterials [] []
          (rcwaArea { demoExt 1 with inv := Ring.inverse } DIMENSION.NO_
            ⟨(0, 0), (0, 0), 90, 1⟩)
          0 { name := "PECLayer", backGround := "PEC", thickness := 0, isSource := false,
              hasTensor_ := false, patterns := [], materials := [] } = 1 := by
        decide!
      exact h1 ▸ isUnit_one)

/-! ## `FileLoader::load`: the row count check -/

theorem checkType_error (pre : String → String) (line : String) (e : Exn)
    (h : checkType pre line = .error e) : e = Exn.UnknownTypeException := by
  unfold checkType at h
  simp only [] at h
  split_ifs at h
  cases h
  rfl

theorem countRows_ok (pre : String → String) :
    ∀ (lines : List String) (acc : Int × EPSTYPE),
      (∀ line ∈ lines, ∃ t, checkType pre line = .ok t) →
      ∃ t, countRows pre lines acc = .ok (acc.1 + lines.length, t) := by
  intro lines
  induction lines with
  | nil => intro acc _; exact ⟨acc.2, by simp [countRows]⟩
  | cons line rest ih =>
    intro acc hall
    obtain ⟨t, ht⟩ := hall line (List.mem_cons_self _ _)
    obtain ⟨t2, ht2⟩ := ih (acc.1 + 1, t) (fun l hl => hall l (List.mem_cons_of_mem _ hl))
    refine ⟨t2, ?_⟩
    simp only [countRows, ht, ht2, List.length_cons, Nat.cast_add, Nat.cast_one]
    congr 2
    ring

theorem countRows_error (pre : String → String) :
    ∀ (lines : List String) (acc : Int × EPSTYPE),
      (∃ line ∈ lines, ∀ t, checkType pre line ≠ .ok t) →
      countRows pre lines acc = .error Exn.UnknownTypeException := by
  intro lines
  induction lines with
  | nil => intro acc h; obtain ⟨l, hl, _⟩ := h; cases hl
  | cons line rest ih =>
    intro acc hex
    rcases hc : checkType pre line with e | t
    · simp only [countRows, hc]
      rw [checkType_error pre line e hc]
    · simp only [countRows, hc]
      apply ih
      obtain ⟨l, hl, hbad⟩ := hex
      rcases List.mem_cons.mp hl with h | h
      · subst h; exact absurd hc (hbad t)
      · exact ⟨l, h, hbad⟩

/-- C6, amended: when a loader that already loaded `n` rows loads an existing file with
`m ≠ n` rows, the loader state is left as it was; the call raises a range error if every
row has 2, 6 or 10 white-space characters, and an unknown-type error if some row has
another count. -/
theorem load_row_count_mismatch (pre : String → String) (disk : String → Option (TextFile K))
    (self : FileLoader K) (fileName : String) (file : TextFile K)
    (hfile : disk fileName = some file) (hpre : self.preSet_ = true)
    (hne : self.numOfOmega_ ≠ file.lines.length) :
    (FileLoader.load pre disk self fileName).state = self ∧
    ((∀ line ∈ file.lines, ∃ t, checkType pre line = .ok t) →
      (FileLoader.load pre disk self fileName).raises Exn.RangeException) ∧
    ((∃ line ∈ file.lines, ∀ t, checkType pre line ≠ .ok t) →
      (FileLoader.load pre disk self fileName).raises Exn.UnknownTypeException) := by
  by_cases hall : ∀ line ∈ file.lines, ∃ t, checkType pre line = .ok t
  · obtain ⟨t, ht⟩ := countRows_ok pre file.lines (0, EPSTYPE.SCALAR_) hall
    simp only [zero_add] at ht
    have hload : FileLoader.load pre disk self fileName = ⟨.error Exn.RangeException, self⟩ := by
      simp [FileLoader.load, hfile, ht, hpre, hne]
    rw [hload]
    refine ⟨rfl, fun _ => by simp [Outcome.raises], fun hex => ?_⟩
    obtain ⟨l, hl, hbad⟩ := hex
    obtain ⟨t1, ht1⟩ := hall l hl
    exact absurd ht1 (hbad t1)
  · have hex : ∃ line ∈ file.lines, ∀ t, checkType pre line ≠ .ok t := by
      push_neg at hall
      exact hall
    have hcr := countRows_error pre file.lines (0, EPSTYPE.SCALAR_) hex
    have hload : FileLoader.load pre disk self fileName =
        ⟨.error Exn.UnknownTypeException, self⟩ := by
      simp [FileLoader.load, hfile, hcr]
    rw [hload]
    exact ⟨rfl, fun h => absurd h hall, fun _ => by simp [Outcome.raises]⟩


/-- Witness of `load_row_count_mismatch`: two scalar rows after a file of one row. -/
theorem load_row_count_mismatch_witness :
    (FileLoader.load id demoDisk demoLoader "two_rows.txt").state = demoLoader ∧
    (FileLoader.load id demoDisk demoLoader "two_rows.txt").raises Exn.RangeException :=
  have h := load_row_count_mismatch id demoDisk demoLoader "two_rows.txt"
    { lines := ["1 2 3", "4 5 6"], numbers := [1, 2, 3, 4, 5, 6] } rfl rfl (by decide)
  ⟨h.1, h.2.1 (by
    intro line hl
    simp only [List.mem_cons, List.mem_singleton, List.not_mem_nil, or_false] at hl
    rcases hl with rfl | rfl <;> exact ⟨EPSTYPE.SCALAR_, rfl⟩)⟩

/-- C6 as stated fails: after a file of one row, a file of two rows whose second row has
one value after the frequency raises an unknown-type error, not a range error. -/
theorem load_row_count_mismatch_counterexample :
    demoLoader.preSet_ = true ∧ demoLoader.numOfOmega_ = 1 ∧
    (demoDisk "short_row.txt").map (fun f => f.lines.length) = some 2 ∧
    ¬ (FileLoader.load id demoDisk demoLoader "short_row.txt").raises Exn.RangeException ∧
    (FileLoader.load id demoDisk demoLoader "short_row.txt").raises
      Exn.UnknownTypeException := by
  decide

/-! ## The flux kernel on reachable states and the integration loops -/

theorem storeFrom_length {α : Type} :
    ∀ (vals : List α) (k : Nat) (arr : List α), (storeFrom vals k arr).length = arr.length := by
  intro vals
  induction vals with
  | nil => intro k arr; rfl
  | cons v vs ih => intro k arr; simp [storeFrom, ih]

theorem storeFrom_storeFrom {α : Type} (u v : List α) (k : Nat) (arr : List α)
    (h : u.length = v.length) :
    storeFrom v k (storeFrom u k arr) = storeFrom v k arr := by
  apply List.ext_getElem?
  intro j
  rw [storeFrom_getElem?, storeFrom_getElem?, storeFrom_getElem?, storeFrom_length, h]
  by_cases hc : k ≤ j ∧ j < k + v.length ∧ j < arr.length
  · rw [if_pos hc, if_pos hc]
  · rw [if_neg hc, if_neg hc, if_neg hc]

theorem Reach.refl (ext : Ext K n) (s : Simulation K n) (h : CacheValid ext s) :
    Reach ext s s :=
  ⟨s.curOmegaIndex_, s.EMatrices_, s.grandImaginaryMatrices_, s.eps_zz_Inv_Matrices_,
    s.buildCount_, s.fluxCount_, rfl, fun _ _ => rfl, h⟩

/-- A cache refresh for a non-negative index leads to a reachable state that holds the
cache of that index. -/
theorem Reach.refresh (ext : Ext K n) (s t : Simulation K n) (w : Int) (hw : 0 ≤ w)
    (h : Reach ext s t) :
    ∃ (b f : Nat), refreshCache ext t w =
        withCache s w (cacheAt ext s w).EMatrices_ (cacheAt ext s w).grandImaginaryMatrices_
          (cacheAt ext s w).eps_zz_Inv_Matrices_ b f ∧
      f = t.fluxCount_ ∧ Reach ext s (refreshCache ext t w) := by
  obtain ⟨c, E, G, Z, b, f, rfl, hZ, hc⟩ := h
  by_cases hcw : c = w
  · subst hcw
    have hr : refreshCache ext (withCache s c E G Z b f) c = withCache s c E G Z b f := by
      simp [refreshCache, withCache]
    rcases hc with hneg | ⟨hE, hG, hZ2⟩
    · omega
    · refine ⟨b, f, ?_, rfl, ?_⟩
      · rw [hr, hE, hG, hZ2]
      · rw [hr]
        exact ⟨c, E, G, Z, b, f, rfl, hZ, Or.inr ⟨hE, hG, hZ2⟩⟩
  · have hr : refreshCache ext (withCache s c E G Z b f) w =
        withCache s w (cacheAt ext s w).EMatrices_ (cacheAt ext s w).grandImaginaryMatrices_
          (storeFrom ((buildLayers ext { s with curOmegaIndex_ := w }).map (fun p => some p.2))
            0 Z) (b + 1) f := by
      simp only [refreshCache, withCache]
      rw [if_pos hcw]
      rfl
    have hZ3 : storeFrom ((buildLayers ext { s with curOmegaIndex_ := w }).map
        (fun p => some p.2)) 0 Z = (cacheAt ext s w).eps_zz_Inv_Matrices_ := by
      rw [hZ _ (by simp [buildLayers])]
      rfl
    rw [hZ3] at hr
    refine ⟨b + 1, f, hr, rfl, ?_⟩
    rw [hr]
    refine ⟨w, _, _, _, b + 1, f, rfl, ?_, Or.inr ⟨rfl, rfl, rfl⟩⟩
    intro vals hvals
    show storeFrom vals 0 (storeFrom _ 0 s.eps_zz_Inv_Matrices_) = _
    rw [storeFrom_storeFrom]
    rw [hvals]
    simp [buildLayers]

theorem Reach.frame (ext : Ext K n) (s t : Simulation K n) (h : Reach ext s t) :
    t.numOfKx_ = s.numOfKx_ ∧ t.numOfKy_ = s.numOfKy_ ∧ t.numOfOmega_ = s.numOfOmega_ ∧
    t.Phi_ = s.Phi_ ∧ (∀ w i, kxAt ext t w i = kxAt ext s w i) ∧
    (∀ w i j, kyAt ext t w i j = kyAt ext s w i j) ∧
    (∀ w r, phiTerm ext t w r = phiTerm ext s w r) := by
  obtain ⟨c, E, G, Z, b, f, rfl, _, _⟩ := h
  exact ⟨rfl, rfl, rfl, rfl, fun _ _ => rfl, fun _ _ _ => rfl, fun _ _ => rfl⟩

theorem Reach.bump (ext : Ext K n) (s t : Simulation K n) (h : Reach ext s t) :
    Reach ext s { t with fluxCount_ := t.fluxCount_ + 1 } := by
  obtain ⟨c, E, G, Z, b, f, rfl, hZ, hc⟩ := h
  exact ⟨c, E, G, Z, b, f + 1, rfl, hZ, hc⟩

/-- On a reachable state and for a valid frequency index, `getPhiAtKxKy` returns the flux
kernel value `fluxAt` and leads to a reachable state. -/
theorem getPhiAtKxKy_reach (ext : Ext K n) (s t : Simulation K n) (w : Int) (kx ky : K)
    (hw0 : 0 ≤ w) (hw1 : w < s.numOfOmega_) (h : Reach ext s t) :
    ∃ t1, getPhiAtKxKy ext t w kx ky = ⟨.ok (fluxAt ext s w kx ky), t1⟩ ∧ Reach ext s t1 := by
  have hn := (Reach.frame ext s t h).2.2.1
  have hge : ¬ w ≥ t.numOfOmega_ := by omega
  obtain ⟨b, f, hr, _, hreach⟩ := Reach.refresh ext s t w hw0 h
  refine ⟨{ refreshCache ext t w with fluxCount_ := (refreshCache ext t w).fluxCount_ + 1 },
    ?_, Reach.bump ext s _ hreach⟩
  simp only [getPhiAtKxKy, hge, if_false]
  congr 2
  rw [hr]
  rfl

theorem tdiv_bounds (i nk nw : Int) (hi : 0 ≤ i) (hnk : 0 < nk) (hlt : i < nw * nk) :
    0 ≤ i.tdiv nk ∧ i.tdiv nk < nw := by
  rw [Int.tdiv_eq_ediv hi (le_of_lt hnk)]
  exact ⟨Int.ediv_nonneg hi (le_of_lt hnk), Int.ediv_lt_of_lt_mul hnk hlt⟩

/-- The chunked loop stores the flux kernel value of every flat index of the chunk. -/
theorem chunkLoop_spec (ext : Ext K n) (s : Simulation K n)
    (hnk : 0 < s.numOfKx_ * s.numOfKy_) :
    ∀ (count : Nat) (start : Int) (t : Simulation K n) (arr : Int → K),
      0 ≤ start → start + count ≤ s.numOfOmega_ * (s.numOfKx_ * s.numOfKy_) →
      Reach ext s t →
      ∃ (t1 : Simulation K n) (arr1 : Int → K),
        forLoop (chunkBody ext) count start (t, arr) = ⟨.ok (), (t1, arr1)⟩ ∧
        Reach ext s t1 ∧
        ∀ j, arr1 j = if start ≤ j ∧ j < start + count then flatFlux ext s j else arr j := by
  intro count
  induction count with
  | zero =>
    intro start t arr _ _ h
    refine ⟨t, arr, rfl, h, fun j => ?_⟩
    have : ¬ (start ≤ j ∧ j < start + ((0 : Nat) : Int)) := by
      simp only [Nat.cast_zero, add_zero]
      omega
    rw [if_neg this]
  | succ k ih =>
    intro start t arr h0 hle h
    obtain ⟨hkx, hky, _, _, _, _, _⟩ := Reach.frame ext s t h
    have hlt : start < s.numOfOmega_ * (s.numOfKx_ * s.numOfKy_) := by
      push_cast at hle
      omega
    obtain ⟨hw0, hw1⟩ := tdiv_bounds start _ _ h0 hnk hlt
    obtain ⟨_, _, _, _, hreach⟩ := Reach.refresh ext s t (start.tdiv (s.numOfKx_ * s.numOfKy_))
      hw0 h
    obtain ⟨hkx1, hky1, _, _, hkxAt, hkyAt, _⟩ := Reach.frame ext s _ hreach
    obtain ⟨t1, hget, hreach1⟩ := getPhiAtKxKy_reach ext s _ (start.tdiv (s.numOfKx_ * s.numOfKy_))
      (kxAt ext s (start.tdiv (s.numOfKx_ * s.numOfKy_))
        ((start.tmod (s.numOfKx_ * s.numOfKy_)).tdiv s.numOfKy_))
      (kyAt ext s (start.tdiv (s.numOfKx_ * s.numOfKy_))
        ((start.tmod (s.numOfKx_ * s.numOfKy_)).tdiv s.numOfKy_)
        ((start.tmod (s.numOfKx_ * s.numOfKy_)).tmod s.numOfKy_)) hw0 hw1 hreach
    obtain ⟨t2, arr2, hloop, hreach2, harr2⟩ := ih (start + 1) t1
      (Function.update arr start (flatFlux ext s start)) (by omega)
      (by push_cast at hle; omega) hreach1
    refine ⟨t2, arr2, ?_, hreach2, fun j => ?_⟩
    · rw [forLoop]
      have hbody : chunkBody ext start (t, arr) =
          ⟨.ok (), (t1, Function.update arr start (flatFlux ext s start))⟩ := by
        simp only [chunkBody, hkx, hky, hkx1, hky1, hkxAt, hkyAt, hget]
        rfl
      rw [hbody]
      exact hloop
    · rw [harr2 j]
      by_cases hj : j = start
      · subst hj
        have h1 : ¬ (j + 1 ≤ j ∧ j < j + 1 + (k : Int)) := by omega
        have h2 : j ≤ j ∧ j < j + ((k + 1 : Nat) : Int) := by
          push_cast
          omega
        rw [if_neg h1, if_pos h2, Function.update_same]
      · rw [Function.update_noteq hj]
        by_cases hc : start + 1 ≤ j ∧ j < start + 1 + (k : Int)
        · have h2 : start ≤ j ∧ j < start + ((k + 1 : Nat) : Int) := by
            push_cast
            omega
          rw [if_pos hc, if_pos h2]
        · have h2 : ¬ (start ≤ j ∧ j < start + ((k + 1 : Nat) : Int)) := by
            push_cast
            omega
          rw [if_neg hc, if_neg h2]

theorem flat_index_split (w i nk : Int) (hw : 0 ≤ w) (hi0 : 0 ≤ i) (hi1 : i < nk) :
    (w * nk + i).tdiv nk = w ∧ (w * nk + i).tmod nk = i := by
  have hnk : 0 < nk := by omega
  have hnn : 0 ≤ w * nk + i := by
    have := mul_nonneg hw (le_of_lt hnk)
    omega
  rw [Int.tdiv_eq_ediv hnn (le_of_lt hnk), Int.tmod_eq_emod hnn (le_of_lt hnk)]
  constructor
  · rw [add_comm, Int.add_mul_ediv_right _ _ (ne_of_gt hnk), Int.ediv_eq_zero_of_lt hi0 hi1]
    simp
  · rw [add_comm, Int.add_mul_emod_self, Int.emod_eq_of_lt hi0 hi1]

/-- The inner loop of the grid branch stores, for every in-plane index it runs over, the
flux kernel value of the corresponding flat index. -/
theorem gridLoop_spec (ext : Ext K n) (s : Simulation K n) (w : Int) (hw0 : 0 ≤ w)
    (hw1 : w < s.numOfOmega_) :
    ∀ (count : Nat) (i0 : Int) (t : Simulation K n) (arr : Int → K),
      0 ≤ i0 → i0 + count ≤ s.numOfKx_ * s.numOfKy_ → Reach ext s t →
      ∃ (t1 : Simulation K n) (arr1 : Int → K),
        forLoop (gridBody ext w) count i0 (t, arr) = ⟨.ok (), (t1, arr1)⟩ ∧
        Reach ext s t1 ∧
        ∀ j, arr1 j =
          if w * (s.numOfKx_ * s.numOfKy_) + i0 ≤ j ∧
              j < w * (s.numOfKx_ * s.numOfKy_) + i0 + count
          then flatFlux ext s j else arr j := by
  intro count
  induction count with
  | zero =>
    intro i0 t arr _ _ h
    refine ⟨t, arr, rfl, h, fun j => ?_⟩
    have : ¬ (w * (s.numOfKx_ * s.numOfKy_) + i0 ≤ j ∧
        j < w * (s.numOfKx_ * s.numOfKy_) + i0 + ((0 : Nat) : Int)) := by
      simp only [Nat.cast_zero, add_zero]
      omega
    rw [if_neg this]
  | succ k ih =>
    intro i0 t arr h0 hle h
    obtain ⟨hkx, hky, _, _, hkxAt, hkyAt, _⟩ := Reach.frame ext s t h
    have hlt : i0 < s.numOfKx_ * s.numOfKy_ := by
      push_cast at hle
      omega
    obtain ⟨hdiv, hmod⟩ := flat_index_split w i0 _ hw0 h0 hlt
    obtain ⟨t1, hget, hreach1⟩ := getPhiAtKxKy_reach ext s t w
      (kxAt ext s w (i0.tdiv s.numOfKy_)) (kyAt ext s w (i0.tdiv s.numOfKy_) (i0.tmod s.numOfKy_))
      hw0 hw1 h
    have hflat : flatFlux ext s (w * (s.numOfKx_ * s.numOfKy_) + i0) =
        fluxAt ext s w (kxAt ext s w (i0.tdiv s.numOfKy_))
          (kyAt ext s w (i0.tdiv s.numOfKy_) (i0.tmod s.numOfKy_)) := by
      simp only [flatFlux, hdiv, hmod]
    obtain ⟨t2, arr2, hloop, hreach2, harr2⟩ := ih (i0 + 1) t1
      (Function.update arr (w * (s.numOfKx_ * s.numOfKy_) + i0)
        (flatFlux ext s (w * (s.numOfKx_ * s.numOfKy_) + i0))) (by omega)
      (by push_cast at hle; omega) hreach1
    refine ⟨t2, arr2, ?_, hreach2, fun j => ?_⟩
    · rw [forLoop]
      have hbody : gridBody ext w i0 (t, arr) =
          ⟨.ok (), (t1, Function.update arr (w * (s.numOfKx_ * s.numOfKy_) + i0)
            (flatFlux ext s (w * (s.numOfKx_ * s.numOfKy_) + i0)))⟩ := by
        simp only [gridBody, hkx, hky, hkxAt, hkyAt, hget, hflat, mul_assoc]
      rw [hbody]
      exact hloop
    · rw [harr2 j]
      generalize w * (s.numOfKx_ * s.numOfKy_) = base
      by_cases hj : j = base + i0
      · subst hj
        have h1 : ¬ (base + (i0 + 1) ≤ base + i0 ∧ base + i0 < base + (i0 + 1) + (k : Int)) := by
          omega
        have h2 : base + i0 ≤ base + i0 ∧ base + i0 < base + i0 + ((k + 1 : Nat) : Int) := by
          push_cast
          omega
        rw [if_neg h1, if_pos h2, Function.update_same]
      · rw [Function.update_noteq hj]
        by_cases hc : base + (i0 + 1) ≤ j ∧ j < base + (i0 + 1) + (k : Int)
        · have h2 : base + i0 ≤ j ∧ j < base + i0 + ((k + 1 : Nat) : Int) := by
            push_cast
            omega
          rw [if_pos hc, if_pos h2]
        · have h2 : ¬ (base + i0 ≤ j ∧ j < base + i0 + ((k + 1 : Nat) : Int)) := by
            push_cast
            omega
          rw [if_neg hc, if_neg h2]

/-- The frequency loop of the grid branch stores the flux kernel value of every flat
index of the frequencies it runs over. -/
theorem gridOmegaLoop_spec (ext : Ext K n) (s : Simulation K n)
    (hnk : 0 ≤ s.numOfKx_ * s.numOfKy_) :
    ∀ (count : Nat) (w0 : Int) (t : Simulation K n) (arr : Int → K),
      0 ≤ w0 → w0 + count ≤ s.numOfOmega_ → Reach ext s t →
      ∃ (t1 : Simulation K n) (arr1 : Int → K),
        forLoop (gridOmegaBody ext) count w0 (t, arr) = ⟨.ok (), (t1, arr1)⟩ ∧
        Reach ext s t1 ∧
        ∀ j, arr1 j =
          if w0 * (s.numOfKx_ * s.numOfKy_) ≤ j ∧ j < (w0 + count) * (s.numOfKx_ * s.numOfKy_)
          then flatFlux ext s j else arr j := by
  intro count
  induction count with
  | zero =>
    intro w0 t arr _ _ h
    refine ⟨t, arr, rfl, h, fun j => ?_⟩
    have : ¬ (w0 * (s.numOfKx_ * s.numOfKy_) ≤ j ∧
        j < (w0 + ((0 : Nat) : Int)) * (s.numOfKx_ * s.numOfKy_)) := by
      simp only [Nat.cast_zero, add_zero]
      omega
    rw [if_neg this]
  | succ k ih =>
    intro w0 t arr h0 hle h
    have hlt : w0 < s.numOfOmega_ := by
      push_cast at hle
      omega
    obtain ⟨_, _, _, _, hreach⟩ := Reach.refresh ext s t w0 h0 h
    obtain ⟨hkx1, hky1, _, _, _, _, _⟩ := Reach.frame ext s _ hreach
    obtain ⟨t1, arr1, hinner, hreach1, harr1⟩ := gridLoop_spec ext s w0 h0 hlt
      (s.numOfKx_ * s.numOfKy_).toNat 0 (refreshCache ext t w0) arr (le_refl _)
      (by rw [Int.toNat_of_nonneg hnk]; omega) hreach
    obtain ⟨t2, arr2, hloop, hreach2, harr2⟩ := ih (w0 + 1) t1 arr1 (by omega)
      (by push_cast at hle; omega) hreach1
    refine ⟨t2, arr2, ?_, hreach2, fun j => ?_⟩
    · rw [forLoop]
      have hbody : gridOmegaBody ext w0 (t, arr) = ⟨.ok (), (t1, arr1)⟩ := by
        simp only [gridOmegaBody, hkx1, hky1]
        exact hinner
      rw [hbody]
      exact hloop
    · rw [harr2 j, harr1 j, Int.toNat_of_nonneg hnk]
      generalize s.numOfKx_ * s.numOfKy_ = nk at *
      have e1 : (w0 + 1) * nk = w0 * nk + nk := by ring
      have e2 : (w0 + 1 + (k : Int)) * nk = w0 * nk + nk + k * nk := by ring
      have e3 : (w0 + ((k + 1 : Nat) : Int)) * nk = w0 * nk + nk + k * nk := by
        push_cast
        ring
      have hk : 0 ≤ (k : Int) * nk := mul_nonneg (Int.natCast_nonneg k) hnk
      rw [e1, e2, e3]
      generalize w0 * nk = base at *
      generalize (k : Int) * nk = rest at *
      by_cases hc : base + nk ≤ j ∧ j < base + nk + rest
      · have h2 : base ≤ j ∧ j < base + nk + rest := by omega
        rw [if_pos hc, if_pos h2]
      · rw [if_neg hc]
        by_cases hc1 : base + 0 ≤ j ∧ j < base + 0 + nk
        · have h2 : base ≤ j ∧ j < base + nk + rest := by omega
          rw [if_pos hc1, if_pos h2]
        · have h2 : ¬ (base ≤ j ∧ j < base + nk + rest) := by omega
          rw [if_neg hc1, if_neg h2]

theorem accumulatePhi_congr (ext : Ext K n) (s : Simulation K n) (arr arr1 : Int → K) :
    ∀ (count : Nat) (start : Int) (phi : List K),
      (∀ j, start ≤ j → j < start + count → arr j = arr1 j) →
      accumulatePhi ext s arr count start phi = accumulatePhi ext s arr1 count start phi := by
  intro count
  induction count with
  | zero => intro start phi _; rfl
  | succ k ih =>
    intro start phi h
    simp only [accumulatePhi]
    rw [h start (le_refl _) (by push_cast; omega)]
    apply ih
    intro j hj1 hj2
    exact h j (by omega) (by push_cast; omega)

theorem accumulatePhi_frame (ext : Ext K n) (s t : Simulation K n) (h : Reach ext s t)
    (arr : Int → K) :
    ∀ (count : Nat) (start : Int) (phi : List K),
      accumulatePhi ext t arr count start phi = accumulatePhi ext s arr count start phi := by
  obtain ⟨hkx, hky, _, _, _, _, hterm⟩ := Reach.frame ext s t h
  intro count
  induction count with
  | zero => intro start phi; rfl
  | succ k ih =>
    intro start phi
    simp only [accumulatePhi, hkx, hky, hterm]
    exact ih _ _

theorem accumulatePhi_length (ext : Ext K n) (s : Simulation K n) (arr : Int → K) :
    ∀ (count : Nat) (start : Int) (phi : List K),
      (accumulatePhi ext s arr count start phi).length = phi.length := by
  intro count
  induction count with
  | zero => intro start phi; rfl
  | succ k ih =>
    intro start phi
    simp only [accumulatePhi]
    rw [ih, writeAt_length]

/-- Closed form of the accumulation loop: entry `w` of `Phi_` grows by the weighted results
of the flat indices of the range that belong to the frequency index `w`. -/
theorem accumulatePhi_getD (ext : Ext K n) (s : Simulation K n) (arr : Int → K)
    (hnk : 0 ≤ s.numOfKx_ * s.numOfKy_) :
    ∀ (count : Nat) (start : Int) (phi : List K) (w : Nat),
      0 ≤ start → w < phi.length →
      (accumulatePhi ext s arr count start phi).getD w 0 =
        phi.getD w 0 + ∑ k ∈ Finset.range count,
          if (start + (k : Int)).tdiv (s.numOfKx_ * s.numOfKy_) = (w : Int)
          then phiTerm ext s w (arr (start + k)) else 0 := by
  intro count
  induction count with
  | zero => intro start phi w _ _; simp [accumulatePhi]
  | succ k ih =>
    intro start phi w h0 hw
    simp only [accumulatePhi]
    have hω : 0 ≤ start.tdiv (s.numOfKx_ * s.numOfKy_) := by
      rw [Int.tdiv_eq_ediv h0 hnk]
      exact Int.ediv_nonneg h0 hnk
    rw [ih (start + 1) _ w (by omega) (by rw [writeAt_length]; exact hw),
      Finset.sum_range_succ']
    simp only [Nat.cast_add, Nat.cast_one, Nat.cast_zero, add_zero]
    have hshift : ∀ x : Nat, start + 1 + (x : Int) = start + ((x : Int) + 1) := by
      intro x
      ring
    simp only [hshift]
    generalize start.tdiv (s.numOfKx_ * s.numOfKy_) = ω at hω ⊢
    obtain ⟨m, rfl⟩ := Int.eq_ofNat_of_zero_le hω
    rw [writeAt_ofNat, readAt_ofNat, List.getD_eq_getElem?_getD, List.getElem?_set]
    by_cases hm : m = w
    · subst hm
      simp only [hw, if_true, Option.getD_some, List.getD_eq_getElem?_getD]
      ring
    · have hne : ¬ ((m : Int) = (w : Int)) := by
        intro h
        exact hm (by exact_mod_cast h)
      simp only [hm, hne, if_false, List.getD_eq_getElem?_getD]
      ring

/-- Closed form of `integrateKxKyInternal` in the chunked branch. -/
theorem integrateKxKyInternal_chunk (ext : Ext K n) (s : Simulation K n) (start end_ : Int)
    (hnk : 0 < s.numOfKx_ * s.numOfKy_) (h0 : 0 ≤ start) (hle : start ≤ end_)
    (hend : end_ ≤ s.numOfOmega_ * (s.numOfKx_ * s.numOfKy_)) (hc : CacheValid ext s) :
    ∃ t, integrateKxKyInternal ext s start end_ false = ⟨.ok (), t⟩ ∧
      t.Phi_ = s.Phi_.map (accumulatePhi ext s (flatFlux ext s) (end_ - start).toNat start) := by
  have hcount : start + ((end_ - start).toNat : Int) = end_ := by
    rw [Int.toNat_of_nonneg (by omega)]
    omega
  obtain ⟨t1, arr1, hloop, hreach, harr⟩ := chunkLoop_spec ext s hnk (end_ - start).toNat start s
    (fun _ => 0) h0 (by rw [hcount]; exact hend) (Reach.refl ext s hc)
  refine ⟨{ t1 with
    Phi_ := t1.Phi_.map (accumulatePhi ext t1 arr1 (end_ - start).toNat start) }, ?_, ?_⟩
  · simp only [integrateKxKyInternal, Bool.false_eq_true, if_false, hloop]
  · simp only
    rw [(Reach.frame ext s t1 hreach).2.2.2.1]
    congr 1
    funext phi
    rw [accumulatePhi_frame ext s t1 hreach]
    apply accumulatePhi_congr
    intro j hj1 hj2
    rw [harr j, if_pos ⟨hj1, hj2⟩]

/-- Closed form of `integrateKxKyInternal` in the grid branch, as called by
`integrateKxKy`. -/
theorem integrateKxKyInternal_grid (ext : Ext K n) (s : Simulation K n)
    (hnk : 0 ≤ s.numOfKx_ * s.numOfKy_) (hω : 0 ≤ s.numOfOmega_) (hc : CacheValid ext s) :
    ∃ t, integrateKxKy ext s = ⟨.ok (), t⟩ ∧
      t.Phi_ = s.Phi_.map (accumulatePhi ext s (flatFlux ext s)
        (s.numOfOmega_ * s.numOfKx_ * s.numOfKy_).toNat 0) := by
  have htot : 0 ≤ s.numOfOmega_ * s.numOfKx_ * s.numOfKy_ := by
    rw [mul_assoc]
    exact mul_nonneg hω hnk
  obtain ⟨t1, arr1, hloop, hreach, harr⟩ := gridOmegaLoop_spec ext s hnk s.numOfOmega_.toNat 0 s
    (fun _ => 0) (le_refl _) (by rw [Int.toNat_of_nonneg hω]; omega) (Reach.refl ext s hc)
  refine ⟨{ t1 with
    Phi_ := t1.Phi_.map (accumulatePhi ext t1 arr1
      (s.numOfOmega_ * s.numOfKx_ * s.numOfKy_ - 0).toNat 0) }, ?_, ?_⟩
  · simp only [integrateKxKy, integrateKxKyInternal, if_true, hloop]
  · simp only [sub_zero]
    rw [(Reach.frame ext s t1 hreach).2.2.2.1]
    congr 1
    funext phi
    rw [accumulatePhi_frame ext s t1 hreach]
    apply accumulatePhi_congr
    intro j hj1 hj2
    rw [harr j, if_pos]
    rw [Int.toNat_of_nonneg hω]
    rw [Int.toNat_of_nonneg htot] at hj2
    constructor
    · omega
    · rw [zero_add, ← mul_assoc]
      omega

theorem mpiRange_eq_bound (totalNum rank size : Int) (h0 : 0 ≤ totalNum) (h1 : 1 ≤ size)
    (hr : rank < size) :
    mpiRange totalNum rank size =
      (mpiBound totalNum size rank, mpiBound totalNum size (rank + 1)) := by
  rw [mpiRange_eq totalNum rank size h0 h1 hr]
  unfold mpiBound
  by_cases hc : totalNum % size ≤ rank
  · rw [if_pos hc, min_eq_right hc, min_eq_right (by omega)]
    ext <;> simp <;> ring
  · rw [if_neg hc, min_eq_left (by omega), min_eq_left (by omega)]
    ext <;> simp <;> ring

theorem mpiBound_facts (totalNum size : Int) (h0 : 0 ≤ totalNum) (h1 : 1 ≤ size) :
    mpiBound totalNum size 0 = 0 ∧ mpiBound totalNum size size = totalNum ∧
    ∀ r : Int, 0 ≤ r → mpiBound totalNum size r ≤ mpiBound totalNum size (r + 1) := by
  have hq : 0 ≤ totalNum / size := Int.ediv_nonneg h0 (by omega)
  have hl0 : 0 ≤ totalNum % size := Int.emod_nonneg _ (by omega)
  have hl1 : totalNum % size < size := Int.emod_lt_of_pos _ (by omega)
  have hdiv : size * (totalNum / size) + totalNum % size = totalNum :=
    Int.ediv_add_emod totalNum size
  unfold mpiBound
  refine ⟨?_, ?_, ?_⟩
  · rw [min_eq_left hl0]; simp
  · rw [min_eq_right (le_of_lt hl1)]; linarith
  · intro r _
    have hmin : min r (totalNum % size) ≤ min (r + 1) (totalNum % size) :=
      min_le_min_right _ (by omega)
    nlinarith

/-- Two adjacent index ranges sum to the range that spans both. -/
theorem sum_range_consecutive {M : Type} [AddCommMonoid M] (f : Int → M) (a b c : Int)
    (hab : a ≤ b) (hbc : b ≤ c) :
    (∑ k ∈ Finset.range (b - a).toNat, f (a + k)) + ∑ k ∈ Finset.range (c - b).toNat, f (b + k) =
      ∑ k ∈ Finset.range (c - a).toNat, f (a + k) := by
  have hsplit : (c - a).toNat = (b - a).toNat + (c - b).toNat := by omega
  rw [hsplit, Finset.sum_range_add]
  congr 1
  apply Finset.sum_congr rfl
  intro k _
  congr 1
  push_cast
  rw [Int.toNat_of_nonneg (by omega)]
  ring

/-- The chunks of the ranks below `m` sum to the range up to the boundary of rank `m`. -/
theorem sum_chunks {M : Type} [AddCommMonoid M] (f : Int → M) (totalNum size : Int)
    (h0 : 0 ≤ totalNum) (h1 : 1 ≤ size) :
    ∀ m : Nat,
      (∑ r ∈ Finset.range m,
        ∑ k ∈ Finset.range
          (mpiBound totalNum size ((r : Int) + 1) - mpiBound totalNum size r).toNat,
          f (mpiBound totalNum size r + k)) =
      ∑ k ∈ Finset.range (mpiBound totalNum size m - 0).toNat, f (0 + k) := by
  obtain ⟨hb0, _, hmono⟩ := mpiBound_facts totalNum size h0 h1
  have hnonneg : ∀ m : Nat, 0 ≤ mpiBound totalNum size m := by
    intro m
    induction m with
    | zero => simp [hb0]
    | succ k ih =>
      have := hmono k (Int.natCast_nonneg k)
      push_cast
      omega
  intro m
  induction m with
  | zero => simp [hb0]
  | succ k ih =>
    rw [Finset.sum_range_succ, ih]
    have hk := hmono k (Int.natCast_nonneg k)
    have := sum_range_consecutive f 0 (mpiBound totalNum size k)
      (mpiBound totalNum size ((k : Int) + 1)) (hnonneg k) hk
    rw [this]
    push_cast
    rfl

/-- C2: started from a zeroed `Phi_` and a valid or invalid cache, with `numOfKx_` and
`numOfKy_` at least 2 and `size ≥ 1`, `integrateKxKy` and every `integrateKxKyMPI(r, size)`
return, and the sum over the ranks `r = 0 .. size-1` of the `Phi_` arrays of
`integrateKxKyMPI(r, size)` equals, entry by entry, the `Phi_` of one `integrateKxKy`
call. -/
theorem chunked_sum_eq_grid (ext : Ext K n) (s : Simulation K n) (size : Int)
    (hsize : 1 ≤ size) (hkx : 2 ≤ s.numOfKx_) (hky : 2 ≤ s.numOfKy_) (hω : 0 ≤ s.numOfOmega_)
    (hphi : s.Phi_ = some (List.replicate s.numOfOmega_.toNat 0)) (hc : CacheValid ext s) :
    (integrateKxKy ext s).returns ∧
    (∀ r : Int, 0 ≤ r → r < size → (integrateKxKyMPI ext s r size).returns) ∧
    ∀ w : Nat, (w : Int) < s.numOfOmega_ →
      (∑ r ∈ Finset.range size.toNat,
        ((integrateKxKyMPI ext s (r : Int) size).state.Phi_.getD []).getD w 0) =
      ((integrateKxKy ext s).state.Phi_.getD []).getD w 0 := by
  have hnk : 0 < s.numOfKx_ * s.numOfKy_ := by nlinarith
  have htot : 0 ≤ s.numOfOmega_ * s.numOfKx_ * s.numOfKy_ := by
    rw [mul_assoc]
    exact mul_nonneg hω (le_of_lt hnk)
  obtain ⟨hb0, hbs, hmono⟩ := mpiBound_facts _ size htot hsize
  have hnonneg : ∀ m : Nat, 0 ≤ mpiBound (s.numOfOmega_ * s.numOfKx_ * s.numOfKy_) size m := by
    intro m
    induction m with
    | zero => simp [hb0]
    | succ k ih =>
      have := hmono k (Int.natCast_nonneg k)
      push_cast
      omega
  have hupper : ∀ m : Nat, (m : Int) ≤ size →
      mpiBound (s.numOfOmega_ * s.numOfKx_ * s.numOfKy_) size m ≤
        s.numOfOmega_ * s.numOfKx_ * s.numOfKy_ := by
    intro m hm
    obtain ⟨d, hd⟩ : ∃ d : Nat, (m : Int) + d = size := ⟨(size - m).toNat, by omega⟩
    clear hm
    induction d generalizing m with
    | zero => simp at hd; rw [hd, hbs]
    | succ e ih =>
      have h1 := hmono m (Int.natCast_nonneg m)
      have h2 := ih (m + 1) (by push_cast at hd ⊢; omega)
      push_cast at h2
      omega
  -- the chunked runs
  have hchunk : ∀ r : Nat, (r : Int) < size →
      ∃ t, integrateKxKyMPI ext s (r : Int) size = ⟨.ok (), t⟩ ∧
        t.Phi_ = s.Phi_.map (accumulatePhi ext s (flatFlux ext s)
          (mpiBound (s.numOfOmega_ * s.numOfKx_ * s.numOfKy_) size ((r : Int) + 1) -
            mpiBound (s.numOfOmega_ * s.numOfKx_ * s.numOfKy_) size r).toNat
          (mpiBound (s.numOfOmega_ * s.numOfKx_ * s.numOfKy_) size r)) := by
    intro r hr
    have hrange := mpiRange_eq_bound (s.numOfOmega_ * s.numOfKx_ * s.numOfKy_) r size htot
      hsize hr
    have hup := hupper (r + 1) (by push_cast; omega)
    push_cast at hup
    obtain ⟨t, ht, hphit⟩ := integrateKxKyInternal_chunk ext s
      (mpiBound (s.numOfOmega_ * s.numOfKx_ * s.numOfKy_) size r)
      (mpiBound (s.numOfOmega_ * s.numOfKx_ * s.numOfKy_) size ((r : Int) + 1)) hnk
      (hnonneg r) (hmono r (Int.natCast_nonneg r)) (by rw [← mul_assoc]; exact hup) hc
    exact ⟨t, by simp only [integrateKxKyMPI, hrange]; exact ht, hphit⟩
  obtain ⟨tg, htg, hphig⟩ := integrateKxKyInternal_grid ext s (le_of_lt hnk) hω hc
  refine ⟨by rw [htg]; trivial, ?_, ?_⟩
  · intro r hr0 hr
    obtain ⟨m, rfl⟩ := Int.eq_ofNat_of_zero_le hr0
    obtain ⟨t, ht, _⟩ := hchunk m hr
    rw [ht]
    trivial
  · intro w hw
    have hwlen : w < (List.replicate s.numOfOmega_.toNat (0 : K)).length := by
      rw [List.length_replicate]
      omega
    have hzero : (List.replicate s.numOfOmega_.toNat (0 : K)).getD w 0 = 0 := by
      simp only [List.getD_eq_getElem?_getD, List.getElem?_replicate]
      split <;> rfl
    rw [htg, hphig, hphi]
    simp only [Option.map_some', Option.getD_some]
    rw [accumulatePhi_getD ext s _ (le_of_lt hnk) _ 0 _ w (le_refl _) hwlen, hzero, zero_add]
    have hrank : ∀ r ∈ Finset.range size.toNat,
        ((integrateKxKyMPI ext s (r : Int) size).state.Phi_.getD []).getD w 0 =
        ∑ k ∈ Finset.range
          (mpiBound (s.numOfOmega_ * s.numOfKx_ * s.numOfKy_) size ((r : Int) + 1) -
            mpiBound (s.numOfOmega_ * s.numOfKx_ * s.numOfKy_) size r).toNat,
          (fun j : Int => if j.tdiv (s.numOfKx_ * s.numOfKy_) = (w : Int)
            then phiTerm ext s w (flatFlux ext s j) else 0)
            (mpiBound (s.numOfOmega_ * s.numOfKx_ * s.numOfKy_) size r + k) := by
      intro r hr
      have hr1 : (r : Int) < size := by
        have := Finset.mem_range.mp hr
        omega
      obtain ⟨t, ht, hphit⟩ := hchunk r hr1
      rw [ht, hphit, hphi]
      simp only [Option.map_some', Option.getD_some]
      rw [accumulatePhi_getD ext s _ (le_of_lt hnk) _ _ _ w (hnonneg r) hwlen, hzero, zero_add]
    rw [Finset.sum_congr rfl hrank,
      sum_chunks (fun j : Int => if j.tdiv (s.numOfKx_ * s.numOfKy_) = (w : Int)
        then phiTerm ext s w (flatFlux ext s j) else 0) _ size htot hsize size.toNat,
      Int.toNat_of_nonneg (by omega : 0 ≤ size), hbs, sub_zero]

theorem sum_range_mul {M : Type} [AddCommMonoid M] (f : Nat → M) (a b : Nat) :
    (∑ k ∈ Finset.range (a * b), f k) =
      ∑ i ∈ Finset.range a, ∑ j ∈ Finset.range b, f (i * b + j) := by
  induction a with
  | zero => simp
  | succ a ih =>
    rw [Nat.succ_mul, Finset.sum_range_add, ih, Finset.sum_range_succ]

/-- Among the flat indices of all frequencies, those of frequency index `w` are the block
`w * nk .. w * nk + nk - 1`. -/
theorem sum_block {M : Type} [AddCommMonoid M] (g : Int → M) (nw nk w : Nat) (hw : w < nw) :
    (∑ k ∈ Finset.range (nw * nk), if ((k : Int)).tdiv (nk : Int) = (w : Int) then g k else 0) =
      ∑ m ∈ Finset.range nk, g ((w : Int) * (nk : Int) + (m : Int)) := by
  rw [sum_range_mul]
  have hinner : ∀ v ∈ Finset.range nw,
      (∑ m ∈ Finset.range nk,
        if (((v * nk + m : Nat) : Int)).tdiv (nk : Int) = (w : Int)
        then g ((v * nk + m : Nat) : Int) else 0) =
      if v = w then ∑ m ∈ Finset.range nk, g ((w : Int) * (nk : Int) + (m : Int)) else 0 := by
    intro v _
    have hdiv : ∀ m ∈ Finset.range nk,
        (((v * nk + m : Nat) : Int)).tdiv (nk : Int) = (v : Int) := by
      intro m hm
      have hm1 : (m : Int) < (nk : Int) := by exact_mod_cast Finset.mem_range.mp hm
      push_cast
      exact (flat_index_split v m nk (Int.natCast_nonneg v) (Int.natCast_nonneg m) hm1).1
    by_cases hv : v = w
    · subst hv
      rw [if_pos rfl]
      apply Finset.sum_congr rfl
      intro m hm
      rw [if_pos (hdiv m hm)]
      push_cast
      rfl
    · rw [if_neg hv]
      apply Finset.sum_eq_zero
      intro m hm
      rw [hdiv m hm, if_neg]
      intro h
      exact hv (by exact_mod_cast h)
  rw [Finset.sum_congr rfl hinner, Finset.sum_ite_eq' (Finset.range nw) w, if_pos
    (Finset.mem_range.mpr hw)]

/-- The flux kernel value of a flat index, in grid coordinates. -/
theorem flatFlux_grid (ext : Ext K n) (s : Simulation K n) (w i j : Nat)
    (hi : (i : Int) < s.numOfKx_) (hj : (j : Int) < s.numOfKy_) :
    flatFlux ext s ((w : Int) * (s.numOfKx_ * s.numOfKy_) + ((i : Int) * s.numOfKy_ + j)) =
      gridFlux ext s w (s.kxStart_ + dkx s * (i : K)) (s.kyStart_ + dky s * (j : K)) := by
  have hky : 0 < s.numOfKy_ := by omega
  have hres0 : 0 ≤ (i : Int) * s.numOfKy_ + j :=
    add_nonneg (mul_nonneg (Int.natCast_nonneg i) (le_of_lt hky)) (Int.natCast_nonneg j)
  have hres1 : (i : Int) * s.numOfKy_ + j < s.numOfKx_ * s.numOfKy_ := by
    have : ((i : Int) + 1) * s.numOfKy_ ≤ s.numOfKx_ * s.numOfKy_ :=
      mul_le_mul_of_nonneg_right (by omega) (le_of_lt hky)
    nlinarith
  obtain ⟨h1, h2⟩ := flat_index_split w _ _ (Int.natCast_nonneg w) hres0 hres1
  obtain ⟨h3, h4⟩ := flat_index_split i j s.numOfKy_ (Int.natCast_nonneg i)
    (Int.natCast_nonneg j) hj
  simp only [flatFlux, h1, h2, h3, h4, gridFlux, kxAt, kyAt, Int.cast_natCast]

/-- Closed form of the grid strategy: `integrateKxKy` returns and adds to `Phi_[w]` the sum
over all grid points `(i, j)` of the weighted flux kernel at the grid point. -/
theorem integrateKxKy_getD (ext : Ext K n) (s : Simulation K n) (phi : List K)
    (hkx : 0 < s.numOfKx_) (hky : 0 < s.numOfKy_) (hω : 0 ≤ s.numOfOmega_)
    (hphi : s.Phi_ = some phi) (hlen : (phi.length : Int) = s.numOfOmega_)
    (hc : CacheValid ext s) (w : Nat) (hw : (w : Int) < s.numOfOmega_) :
    (integrateKxKy ext s).returns ∧
    ((integrateKxKy ext s).state.Phi_.getD []).getD w 0 =
      phi.getD w 0 + ∑ i ∈ Finset.range s.numOfKx_.toNat, ∑ j ∈ Finset.range s.numOfKy_.toNat,
        phiTerm ext s w
          (gridFlux ext s w (s.kxStart_ + dkx s * (i : K)) (s.kyStart_ + dky s * (j : K))) := by
  have hnk : 0 < s.numOfKx_ * s.numOfKy_ := mul_pos hkx hky
  obtain ⟨t, ht, hphit⟩ := integrateKxKyInternal_grid ext s (le_of_lt hnk) hω hc
  refine ⟨by rw [ht]; trivial, ?_⟩
  rw [ht, hphit, hphi]
  simp only [Option.map_some', Option.getD_some]
  rw [accumulatePhi_getD ext s _ (le_of_lt hnk) _ 0 _ w (le_refl _) (by omega)]
  congr 1
  obtain ⟨NW, hNW⟩ := Int.eq_ofNat_of_zero_le hω
  obtain ⟨NX, hNX⟩ := Int.eq_ofNat_of_zero_le (le_of_lt hkx)
  obtain ⟨NY, hNY⟩ := Int.eq_ofNat_of_zero_le (le_of_lt hky)
  have htotal : (s.numOfOmega_ * s.numOfKx_ * s.numOfKy_).toNat = NW * (NX * NY) := by
    rw [hNW, hNX, hNY, mul_assoc]
    exact_mod_cast Int.toNat_natCast (NW * (NX * NY))
  have hnkN : s.numOfKx_ * s.numOfKy_ = ((NX * NY : Nat) : Int) := by
    rw [hNX, hNY]
    push_cast
    rfl
  rw [htotal]
  simp only [zero_add]
  rw [hnkN, sum_block (fun k => phiTerm ext s w (flatFlux ext s k)) NW (NX * NY) w
    (by rw [hNW] at hw; exact_mod_cast hw), sum_range_mul]
  have hX : s.numOfKx_.toNat = NX := by rw [hNX]; exact Int.toNat_natCast NX
  have hY : s.numOfKy_.toNat = NY := by rw [hNY]; exact Int.toNat_natCast NY
  rw [hX, hY]
  apply Finset.sum_congr rfl
  intro i hi
  apply Finset.sum_congr rfl
  intro j hj
  have hi1 : (i : Int) < s.numOfKx_ := by
    rw [hNX]; exact_mod_cast Finset.mem_range.mp hi
  have hj1 : (j : Int) < s.numOfKy_ := by
    rw [hNY]; exact_mod_cast Finset.mem_range.mp hj
  rw [← flatFlux_grid ext s w i j hi1 hj1, hnkN, hNY]
  push_cast
  rfl

/-- A sum of an even function over the symmetric grid `-e, -e + d, .., e` with `2 N + 1`
points, plus its value at `0`, is twice its sum over the half grid `0, d, .., e`. -/
theorem sum_even_reflect (g : K → K) (heven : ∀ x, g (-x) = g x) (d e : K) (N1 : Nat)
    (hd : d * (N1 : K) = e) :
    (∑ i ∈ Finset.range (2 * N1 + 1), g (-e + d * (i : K))) + g 0 =
      2 * ∑ i ∈ Finset.range (N1 + 1), g (0 + d * (i : K)) := by
  have hsplit : 2 * N1 + 1 = N1 + (N1 + 1) := by omega
  rw [hsplit, Finset.sum_range_add]
  have hupper : ∀ i ∈ Finset.range (N1 + 1),
      g (-e + d * ((N1 + i : Nat) : K)) = g (0 + d * (i : K)) := by
    intro i _
    congr 1
    push_cast
    rw [← hd]
    ring
  rw [Finset.sum_congr rfl hupper]
  have hlower : ∀ i ∈ Finset.range N1,
      g (-e + d * (i : K)) = (fun j : Nat => g (0 + d * ((j + 1 : Nat) : K))) (N1 - 1 - i) := by
    intro i hi
    have hi1 : i < N1 := Finset.mem_range.mp hi
    have hcast : ((N1 - 1 - i + 1 : Nat) : K) = (N1 : K) - (i : K) := by
      have : N1 - 1 - i + 1 = N1 - i := by omega
      rw [this, Nat.cast_sub (le_of_lt hi1)]
    simp only []
    rw [hcast, ← heven]
    congr 1
    rw [← hd]
    ring
  rw [Finset.sum_congr rfl hlower,
    Finset.sum_range_reflect (fun j : Nat => g (0 + d * ((j + 1 : Nat) : K))) N1,
    Finset.sum_range_succ' (fun i => g (0 + d * (i : K)))]
  simp only [Nat.cast_zero, mul_zero, add_zero]
  ring

/-- The state left by a successful `setKxIntegralSym` with a non-zero bound. -/
theorem setKxIntegralSym_state (ext : Ext K n) (s : Simulation K n) (N : Int) (e : K)
    (hN : 2 ≤ N) (he : e ≠ 0)
    (hlat : ¬ (s.dim_ ≠ DIMENSION.NO_ ∧ s.reciprocalLattice_.bx.1 = 0)) :
    setKxIntegralSym ext s N e = ⟨.ok (), { s with
      numOfKx_ := N, kxEnd_ := e, kxStart_ := 0, prefactor_ := s.prefactor_ * 2
      options_ := { s.options_ with kxIntegralPreset := true } }⟩ := by
  have hN1 : ¬ N < 2 := by omega
  simp [setKxIntegralSym, hN1, hlat, he]

/-- The state left by a successful `setKxIntegral` with a non-zero bound. -/
theorem setKxIntegral_state (ext : Ext K n) (s : Simulation K n) (N : Int) (e : K)
    (hN : 2 ≤ N) (he : e ≠ 0)
    (hlat : ¬ (s.dim_ ≠ DIMENSION.NO_ ∧ s.reciprocalLattice_.bx.1 = 0)) :
    setKxIntegral ext s N e = ⟨.ok (), { s with
      numOfKx_ := N, kxEnd_ := e, kxStart_ := -e
      options_ := { s.options_ with kxIntegralPreset := true } }⟩ := by
  have hN1 : ¬ N < 2 := by omega
  simp [setKxIntegral, hN1, hlat, he]


/-- The state left by a successful `setKyIntegralSym` with a non-zero bound. -/
theorem setKyIntegralSym_state (ext : Ext K n) (s : Simulation K n) (N : Int) (e : K)
    (hN : 2 ≤ N) (he : e ≠ 0)
    (hlat : ¬ (s.dim_ = DIMENSION.TWO_ ∧ s.reciprocalLattice_.by_.2 = 0)) :
    setKyIntegralSym ext s N e = ⟨.ok (), { s with
      numOfKy_ := N, kyEnd_ := e, kyStart_ := 0, prefactor_ := s.prefactor_ * 2
      options_ := { s.options_ with kyIntegralPreset := true } }⟩ := by
  have hN1 : ¬ N < 2 := by omega
  simp [setKyIntegralSym, hN1, hlat, he]

/-- The state left by a successful `setKyIntegral` with a non-zero bound. -/
theorem setKyIntegral_state (ext : Ext K n) (s : Simulation K n) (N : Int) (e : K)
    (hN : 2 ≤ N) (he : e ≠ 0)
    (hlat : ¬ (s.dim_ = DIMENSION.TWO_ ∧ s.reciprocalLattice_.by_.2 = 0)) :
    setKyIntegral ext s N e = ⟨.ok (), { s with
      numOfKy_ := N, kyEnd_ := e, kyStart_ := -e
      options_ := { s.options_ with kyIntegralPreset := true } }⟩ := by
  have hN1 : ¬ N < 2 := by omega
  simp [setKyIntegral, hN1, hlat, he]

/-- The grid sum after `setKxIntegralSym(N, e)` against the grid sum after
`setKxIntegral(2 N - 1, e)`, which has the same spacing: they differ by the column
`kx = 0`, counted once more. -/
theorem kxSym_grid (ext : Ext K n) (s : Simulation K n) (N : Int) (e : K) (phi : List K)
    (hN : 2 ≤ N) (he : e ≠ 0)
    (hlat : ¬ (s.dim_ ≠ DIMENSION.NO_ ∧ s.reciprocalLattice_.bx.1 = 0))
    (hky : 0 < s.numOfKy_) (hω : 0 ≤ s.numOfOmega_) (hphi : s.Phi_ = some phi)
    (hlen : (phi.length : Int) = s.numOfOmega_) (hc : CacheValid ext s)
    (heven : ∀ (w : Int) (x y : K),
      gridFlux ext (setKxIntegral ext s (2 * N - 1) e).state w (-x) y =
        gridFlux ext (setKxIntegral ext s (2 * N - 1) e).state w x y)
    (w : Nat) (hw : (w : Int) < s.numOfOmega_) :
    ((integrateKxKy ext (setKxIntegralSym ext s N e).state).state.Phi_.getD []).getD w 0 =
      ((integrateKxKy ext (setKxIntegral ext s (2 * N - 1) e).state).state.Phi_.getD []).getD w 0
      + ∑ j ∈ Finset.range s.numOfKy_.toNat,
          phiTerm ext (setKxIntegral ext s (2 * N - 1) e).state w
            (gridFlux ext (setKxIntegral ext s (2 * N - 1) e).state w 0
              (s.kyStart_ + dky s * (j : K))) := by
  obtain ⟨N1, hN1⟩ : ∃ N1 : Nat, N = ((N1 + 1 : Nat) : Int) := ⟨(N - 1).toNat, by
    push_cast
    rw [Int.toNat_of_nonneg (by omega)]
    ring⟩
  have hN1pos : 1 ≤ N1 := by
    rw [hN1] at hN
    push_cast at hN
    omega
  have hN1K : (N1 : K) ≠ 0 := by
    have : (0 : K) < (N1 : K) := by exact_mod_cast hN1pos
    exact ne_of_gt this
  rw [setKxIntegralSym_state ext s N e hN he hlat,
    setKxIntegral_state ext s (2 * N - 1) e (by omega) he hlat] at *
  simp only at *
  generalize hS : ({ s with
      numOfKx_ := N, kxEnd_ := e, kxStart_ := 0, prefactor_ := s.prefactor_ * 2
      options_ := { s.options_ with kxIntegralPreset := true } } : Simulation K n) = sS
  generalize hF : ({ s with
      numOfKx_ := 2 * N - 1, kxEnd_ := e, kxStart_ := -e
      options_ := { s.options_ with kxIntegralPreset := true } } : Simulation K n) = sF at *
  have hcS : CacheValid ext sS := by subst hS; exact hc
  have hcF : CacheValid ext sF := by subst hF; exact hc
  have hSx : sS.numOfKx_ = N := by subst hS; rfl
  have hFx : sF.numOfKx_ = 2 * N - 1 := by subst hF; rfl
  have hSy : sS.numOfKy_ = s.numOfKy_ := by subst hS; rfl
  have hFy : sF.numOfKy_ = s.numOfKy_ := by subst hF; rfl
  have hSω : sS.numOfOmega_ = s.numOfOmega_ := by subst hS; rfl
  have hFω : sF.numOfOmega_ = s.numOfOmega_ := by subst hF; rfl
  have hSphi : sS.Phi_ = some phi := by subst hS; exact hphi
  have hFphi : sF.Phi_ = some phi := by subst hF; exact hphi
  have hflux : ∀ x y, gridFlux ext sS w x y = gridFlux ext sF w x y := by
    intro x y; subst hS; subst hF; rfl
  have hdS : dkx sS = e / (N1 : K) := by
    subst hS
    simp only [dkx, hN1]
    push_cast
    ring_nf
  have hdF : dkx sF = e / (N1 : K) := by
    subst hF
    simp only [dkx, hN1]
    push_cast
    have : ((2 : K) * ((N1 : K) + 1) - 1 - 1) = 2 * (N1 : K) := by ring
    rw [this]
    field_simp
    ring
  have hterm : ∀ r, phiTerm ext sS w r = 2 * phiTerm ext sF w r := by
    intro r
    have h1 : phiTerm ext sS w r = s.prefactor_ * 2 * r * dkx sS / scalex ext sS w * dky sS /
        scaley ext sS w * (readAt sS.omegaList_ w 0 / ext.c_0) ^ 2 *
        |ext.sin (sS.reciprocalLattice_.angle * ext.pi / 180)| := by subst hS; rfl
    have h2 : phiTerm ext sF w r = s.prefactor_ * r * dkx sF / scalex ext sS w * dky sS /
        scaley ext sS w * (readAt sS.omegaList_ w 0 / ext.c_0) ^ 2 *
        |ext.sin (sS.reciprocalLattice_.angle * ext.pi / 180)| := by subst hS; subst hF; rfl
    rw [h1, h2, hdS, hdF]
    ring
  have hSstart : sS.kxStart_ = 0 := by subst hS; rfl
  have hFstart : sF.kxStart_ = -e := by subst hF; rfl
  have hSky : ∀ j : Nat, sS.kyStart_ + dky sS * (j : K) = s.kyStart_ + dky s * (j : K) := by
    intro j; subst hS; rfl
  have hFky : ∀ j : Nat, sF.kyStart_ + dky sF * (j : K) = s.kyStart_ + dky s * (j : K) := by
    intro j; subst hF; rfl
  obtain ⟨_, hSval⟩ := integrateKxKy_getD ext sS phi (by rw [hSx]; omega) (by rw [hSy]; exact hky)
    (by rw [hSω]; exact hω) hSphi (by rw [hSω]; exact hlen) hcS w (by rw [hSω]; exact hw)
  obtain ⟨_, hFval⟩ := integrateKxKy_getD ext sF phi (by rw [hFx]; omega) (by rw [hFy]; exact hky)
    (by rw [hFω]; exact hω) hFphi (by rw [hFω]; exact hlen) hcF w (by rw [hFω]; exact hw)
  have hSn : sS.numOfKx_.toNat = N1 + 1 := by rw [hSx, hN1]; exact Int.toNat_natCast _
  have hFn : sF.numOfKx_.toNat = 2 * N1 + 1 := by
    rw [hFx, hN1]
    have : (2 * ((N1 + 1 : Nat) : Int) - 1) = ((2 * N1 + 1 : Nat) : Int) := by
      push_cast
      ring
    rw [this]
    exact Int.toNat_natCast _
  rw [hSval, hFval, hSn, hFn, hSy, hFy, hSstart, hFstart, hdS, hdF]
  simp only [hterm, hflux, hSky, hFky]
  have hG := sum_even_reflect
    (fun x => ∑ j ∈ Finset.range s.numOfKy_.toNat,
      phiTerm ext sF w (gridFlux ext sF w x (s.kyStart_ + dky s * (j : K))))
    (fun x => by simp only [heven]) (e / (N1 : K)) e N1 (by field_simp)
  simp only [] at hG
  rw [add_assoc, hG, Finset.mul_sum]
  congr 1
  apply Finset.sum_congr rfl
  intro i _
  rw [Finset.mul_sum]

/-- The grid sum after `setKyIntegralSym(N, e)` against the grid sum after
`setKyIntegral(2 N - 1, e)`, which has the same spacing: they differ by the row
`ky = 0`, counted once more. -/
theorem kySym_grid (ext : Ext K n) (s : Simulation K n) (N : Int) (e : K) (phi : List K)
    (hN : 2 ≤ N) (he : e ≠ 0)
    (hlat : ¬ (s.dim_ = DIMENSION.TWO_ ∧ s.reciprocalLattice_.by_.2 = 0))
    (hkx : 0 < s.numOfKx_) (hω : 0 ≤ s.numOfOmega_) (hphi : s.Phi_ = some phi)
    (hlen : (phi.length : Int) = s.numOfOmega_) (hc : CacheValid ext s)
    (heven : ∀ (w : Int) (x y : K),
      gridFlux ext (setKyIntegral ext s (2 * N - 1) e).state w x (-y) =
        gridFlux ext (setKyIntegral ext s (2 * N - 1) e).state w x y)
    (w : Nat) (hw : (w : Int) < s.numOfOmega_) :
    ((integrateKxKy ext (setKyIntegralSym ext s N e).state).state.Phi_.getD []).getD w 0 =
      ((integrateKxKy ext (setKyIntegral ext s (2 * N - 1) e).state).state.Phi_.getD []).getD w 0
      + ∑ i ∈ Finset.range s.numOfKx_.toNat,
          phiTerm ext (setKyIntegral ext s (2 * N - 1) e).state w
            (gridFlux ext (setKyIntegral ext s (2 * N - 1) e).state w
              (s.kxStart_ + dkx s * (i : K)) 0) := by
  obtain ⟨N1, hN1⟩ : ∃ N1 : Nat, N = ((N1 + 1 : Nat) : Int) := ⟨(N - 1).toNat, by
    push_cast
    rw [Int.toNat_of_nonneg (by omega)]
    ring⟩
  have hN1pos : 1 ≤ N1 := by
    rw [hN1] at hN
    push_cast at hN
    omega
  have hN1K : (N1 : K) ≠ 0 := by
    have : (0 : K) < (N1 : K) := by exact_mod_cast hN1pos
    exact ne_of_gt this
  rw [setKyIntegralSym_state ext s N e hN he hlat,
    setKyIntegral_state ext s (2 * N - 1) e (by omega) he hlat] at *
  simp only at *
  generalize hS : ({ s with
      numOfKy_ := N, kyEnd_ := e, kyStart_ := 0, prefactor_ := s.prefactor_ * 2
      options_ := { s.options_ with kyIntegralPreset := true } } : Simulation K n) = sS
  generalize hF : ({ s with
      numOfKy_ := 2 * N - 1, kyEnd_ := e, kyStart_ := -e
      options_ := { s.options_ with kyIntegralPreset := true } } : Simulation K n) = sF at *
  have hcS : CacheValid ext sS := by subst hS; exact hc
  have hcF : CacheValid ext sF := by subst hF; exact hc
  have hSy : sS.numOfKy_ = N := by subst hS; rfl
  have hFy : sF.numOfKy_ = 2 * N - 1 := by subst hF; rfl
  have hSx : sS.numOfKx_ = s.numOfKx_ := by subst hS; rfl
  have hFx : sF.numOfKx_ = s.numOfKx_ := by subst hF; rfl
  have hSω : sS.numOfOmega_ = s.numOfOmega_ := by subst hS; rfl
  have hFω : sF.numOfOmega_ = s.numOfOmega_ := by subst hF; rfl
  have hSphi : sS.Phi_ = some phi := by subst hS; exact hphi
  have hFphi : sF.Phi_ = some phi := by subst hF; exact hphi
  have hflux : ∀ x y, gridFlux ext sS w x y = gridFlux ext sF w x y := by
    intro x y; subst hS; subst hF; rfl
  have hdS : dky sS = e / (N1 : K) := by
    subst hS
    simp only [dky, hN1]
    push_cast
    ring_nf
  have hdF : dky sF = e / (N1 : K) := by
    subst hF
    simp only [dky, hN1]
    push_cast
    have : ((2 : K) * ((N1 : K) + 1) - 1 - 1) = 2 * (N1 : K) := by ring
    rw [this]
    field_simp
    ring
  have hterm : ∀ r, phiTerm ext sS w r = 2 * phiTerm ext sF w r := by
    intro r
    have h1 : phiTerm ext sS w r = s.prefactor_ * 2 * r * dkx sS / scalex ext sS w * dky sS /
        scaley ext sS w * (readAt sS.omegaList_ w 0 / ext.c_0) ^ 2 *
        |ext.sin (sS.reciprocalLattice_.angle * ext.pi / 180)| := by subst hS; rfl
    have h2 : phiTerm ext sF w r = s.prefactor_ * r * dkx sS / scalex ext sS w * dky sF /
        scaley ext sS w * (readAt sS.omegaList_ w 0 / ext.c_0) ^ 2 *
        |ext.sin (sS.reciprocalLattice_.angle * ext.pi / 180)| := by subst hS; subst hF; rfl
    rw [h1, h2, hdS, hdF]
    ring
  have hSstart : sS.kyStart_ = 0 := by subst hS; rfl
  have hFstart : sF.kyStart_ = -e := by subst hF; rfl
  have hSky : ∀ i : Nat, sS.kxStart_ + dkx sS * (i : K) = s.kxStart_ + dkx s * (i : K) := by
    intro i; subst hS; rfl
  have hFky : ∀ i : Nat, sF.kxStart_ + dkx sF * (i : K) = s.kxStart_ + dkx s * (i : K) := by
    intro i; subst hF; rfl
  obtain ⟨_, hSval⟩ := integrateKxKy_getD ext sS phi (by rw [hSx]; exact hkx) (by rw [hSy]; omega)
    (by rw [hSω]; exact hω) hSphi (by rw [hSω]; exact hlen) hcS w (by rw [hSω]; exact hw)
  obtain ⟨_, hFval⟩ := integrateKxKy_getD ext sF phi (by rw [hFx]; exact hkx) (by rw [hFy]; omega)
    (by rw [hFω]; exact hω) hFphi (by rw [hFω]; exact hlen) hcF w (by rw [hFω]; exact hw)
  have hSn : sS.numOfKy_.toNat = N1 + 1 := by rw [hSy, hN1]; exact Int.toNat_natCast _
  have hFn : sF.numOfKy_.toNat = 2 * N1 + 1 := by
    rw [hFy, hN1]
    have : (2 * ((N1 + 1 : Nat) : Int) - 1) = ((2 * N1 + 1 : Nat) : Int) := by
      push_cast
      ring
    rw [this]
    exact Int.toNat_natCast _
  rw [hSval, hFval, hSn, hFn, hSx, hFx, hSstart, hFstart, hdS, hdF]
  simp only [hterm, hflux, hSky, hFky]
  rw [add_assoc, ← Finset.sum_add_distrib]
  congr 1
  apply Finset.sum_congr rfl
  intro i _
  have hG := sum_even_reflect
    (fun y => phiTerm ext sF w (gridFlux ext sF w (s.kxStart_ + dkx s * (i : K)) y))
    (fun y => by simp only [heven]) (e / (N1 : K)) e N1 (by field_simp)
  simp only [] at hG
  rw [hG, Finset.mul_sum]

/-! ## Chunked against grid accumulation, symmetric against full range -/

/-- Witness of `chunked_sum_eq_grid`: the example grid (one frequency, three by two
points) split over two ranks. -/
theorem chunked_sum_eq_grid_witness :
    (integrateKxKy (demoExt 1) (demoGrid 1)).returns ∧
    (∑ r ∈ Finset.range (2 : Int).toNat,
      ((integrateKxKyMPI (demoExt 1) (demoGrid 1) (r : Int) 2).state.Phi_.getD []).getD 0 0) =
    ((integrateKxKy (demoExt 1) (demoGrid 1)).state.Phi_.getD []).getD 0 0 :=
  have h := chunked_sum_eq_grid (demoExt 1) (demoGrid 1) 2 (by decide) (by decide) (by decide)
    (by decide) (by decide!) (Or.inl (by decide))
  ⟨h.1, h.2.2 0 (by decide)⟩

theorem setKxIntegralSym_returns (ext : Ext K n) (s : Simulation K n) (N : Int) (e : K)
    (h : (setKxIntegralSym ext s N e).returns) :
    ¬ (s.dim_ ≠ DIMENSION.NO_ ∧ s.reciprocalLattice_.bx.1 = 0) := by
  intro hlat
  unfold setKxIntegralSym at h
  by_cases hN : N < 2
  · simp [hN, Outcome.returns] at h
  · simp [hN, hlat, Outcome.returns] at h

theorem setKyIntegralSym_returns (ext : Ext K n) (s : Simulation K n) (N : Int) (e : K)
    (h : (setKyIntegralSym ext s N e).returns) :
    ¬ (s.dim_ = DIMENSION.TWO_ ∧ s.reciprocalLattice_.by_.2 = 0) := by
  intro hlat
  unfold setKyIntegralSym at h
  by_cases hN : N < 2
  · simp [hN, Outcome.returns] at h
  · simp [hN, hlat, Outcome.returns] at h

/-- C8, amended: with exact arithmetic, a valid or invalid cache and an integrand that is
even in the grid coordinate `kx` (the flux kernel at the sheared and scaled grid point),
for `N ≥ 2` and `end ≠ 0` the `Phi_` accumulated by the grid strategy after a successful
`setKxIntegralSym(N, end)` equals the `Phi_` accumulated after `setKxIntegral(2N - 1, end)`,
the full range with the same spacing `end / (N - 1)`, plus one more copy of the
contribution of the grid column `kx = 0`; likewise for `ky` with `setKyIntegralSym(N, end)`,
`setKyIntegral(2N - 1, end)` and the grid row `ky = 0`. -/
theorem sym_grid_vs_full_grid (ext : Ext K n) (s : Simulation K n) (N : Int) (e : K)
    (phi : List K) (hN : 2 ≤ N) (he : e ≠ 0)
    (hω : 0 ≤ s.numOfOmega_) (hphi : s.Phi_ = some phi)
    (hlen : (phi.length : Int) = s.numOfOmega_) (hc : CacheValid ext s) :
    (2 ≤ s.numOfKy_ → (setKxIntegralSym ext s N e).returns →
      (∀ (w : Int) (x y : K),
        gridFlux ext (setKxIntegral ext s (2 * N - 1) e).state w (-x) y =
          gridFlux ext (setKxIntegral ext s (2 * N - 1) e).state w x y) →
      ∀ w : Nat, (w : Int) < s.numOfOmega_ →
        ((integrateKxKy ext (setKxIntegralSym ext s N e).state).state.Phi_.getD []).getD w 0 =
          ((integrateKxKy ext (setKxIntegral ext s (2 * N - 1) e).state).state.Phi_.getD
            []).getD w 0
          + ∑ j ∈ Finset.range s.numOfKy_.toNat,
              phiTerm ext (setKxIntegral ext s (2 * N - 1) e).state w
                (gridFlux ext (setKxIntegral ext s (2 * N - 1) e).state w 0
                  (s.kyStart_ + dky s * (j : K)))) ∧
    (2 ≤ s.numOfKx_ → (setKyIntegralSym ext s N e).returns →
      (∀ (w : Int) (x y : K),
        gridFlux ext (setKyIntegral ext s (2 * N - 1) e).state w x (-y) =
          gridFlux ext (setKyIntegral ext s (2 * N - 1) e).state w x y) →
      ∀ w : Nat, (w : Int) < s.numOfOmega_ →
        ((integrateKxKy ext (setKyIntegralSym ext s N e).state).state.Phi_.getD []).getD w 0 =
          ((integrateKxKy ext (setKyIntegral ext s (2 * N - 1) e).state).state.Phi_.getD
            []).getD w 0
          + ∑ i ∈ Finset.range s.numOfKx_.toNat,
              phiTerm ext (setKyIntegral ext s (2 * N - 1) e).state w
                (gridFlux ext (setKyIntegral ext s (2 * N - 1) e).state w
                  (s.kxStart_ + dkx s * (i : K)) 0)) :=
  ⟨fun hky hret heven w hw =>
      kxSym_grid ext s N e phi hN he (setKxIntegralSym_returns ext s N e hret) (by omega) hω
        hphi hlen hc heven w hw,
   fun hkx hret heven w hw =>
      kySym_grid ext s N e phi hN he (setKyIntegralSym_returns ext s N e hret) (by omega) hω
        hphi hlen hc heven w hw⟩

/-- On the planar example the integrand of the grid sum is even in `kx` and in `ky`,
whatever the integration bounds. -/
theorem demo_gridFlux_even (s : Simulation ℚ 1) (hdim : s.dim_ = DIMENSION.NO_)
    (hangle : s.reciprocalLattice_.angle = 90) (w : Int) (x y : ℚ) :
    gridFlux (demoExt 1) s w (-x) y = gridFlux (demoExt 1) s w x y ∧
    gridFlux (demoExt 1) s w x (-y) = gridFlux (demoExt 1) s w x y := by
  simp only [gridFlux, fluxAt, phiAtKxKyValue, scalex, scaley, hdim, hangle, demoExt]
  norm_num

/-- Witness of `sym_grid_vs_full_grid`: two points on `[0, 1]` against three points on
`[-1, 1]`, in `kx` on the planar example and in `ky` on the example grid. -/
theorem sym_grid_vs_full_grid_witness :
    ((integrateKxKy (demoExt 1) (setKxIntegralSym (demoExt 1) (demoSim 1) 2 1).state
        ).state.Phi_.getD []).getD 0 0 = 16 + 4 ∧
    ((integrateKxKy (demoExt 1) (setKyIntegralSym (demoExt 1) (demoGrid 1) 2 1).state
        ).state.Phi_.getD []).getD 0 0 = 21 / 2 + 5 / 2 := by
  have hx := (sym_grid_vs_full_grid (demoExt 1) (demoSim 1) 2 1 [0] (by decide) (by decide)
    (by decide) rfl (by decide) (Or.inl (by decide))).1 (by decide) (by decide)
    (fun w x y => (demo_gridFlux_even _ rfl rfl w x y).1) 0 (by decide)
  have hy := (sym_grid_vs_full_grid (demoExt 1) (demoGrid 1) 2 1 [0] (by decide) (by decide)
    (by decide) rfl (by decide) (Or.inl (by decide))).2 (by decide) (by decide)
    (fun w x y => (demo_gridFlux_even _ rfl rfl w x y).2) 0 (by decide)
  refine ⟨hx.trans ?_, hy.trans ?_⟩
  · decide!
  · decide!

/-- C8 as stated fails: on the planar example, whose flux kernel `kx² + ky² + 1` is even
in `kx` and in `ky`, two points give `Phi_ = [20]` after `setKxIntegralSym(2, 1)` and
`Phi_ = [24]` after `setKxIntegral(2, 1)`; in `ky`, on the example grid, `[13]` after
`setKyIntegralSym(2, 1)` and `[16]` after `setKyIntegral(2, 1)`. -/
theorem sym_grid_vs_full_grid_counterexample :
    (∀ (w : Int) (kx ky : ℚ),
      fluxAt (demoExt 1) (demoSim 1) w (-kx) ky = fluxAt (demoExt 1) (demoSim 1) w kx ky ∧
      fluxAt (demoExt 1) (demoGrid 1) w kx (-ky) = fluxAt (demoExt 1) (demoGrid 1) w kx ky) ∧
    (integrateKxKy (demoExt 1) (setKxIntegralSym (demoExt 1) (demoSim 1) 2 1).state
      ).state.Phi_ = some [20] ∧
    (integrateKxKy (demoExt 1) (setKxIntegral (demoExt 1) (demoSim 1) 2 1).state
      ).state.Phi_ = some [24] ∧
    (integrateKxKy (demoExt 1) (setKyIntegralSym (demoExt 1) (demoGrid 1) 2 1).state
      ).state.Phi_ = some [13] ∧
    (integrateKxKy (demoExt 1) (setKyIntegral (demoExt 1) (demoGrid 1) 2 1).state
      ).state.Phi_ = some [16] := by
  refine ⟨fun w kx ky => ?_, by decide!, by decide!, by decide!, by decide!⟩
  simp only [fluxAt, phiAtKxKyValue, demoExt]
  constructor <;> ring

/-! ## The k-parallel mode -/

/-- C11: `getPhiAtKParallel` and `integrateKParallel` raise an invalid-state error exactly
when the flag of the k-parallel mode is off; they then leave the object, with the cached
frequency index, the cached matrices and `Phi_`, as it was; `setKParallelIntegral` turns
the flag on, and after it neither call raises that error. -/
theorem kParallel_invalid_state (ext : Ext K n) (s : Simulation K n) (omegaIdx : Int)
    (KParallel end_ : K) :
    ((getPhiAtKParallel ext s omegaIdx KParallel).raises Exn.InternalException ↔
      s.options_.IntegrateKParallel = false) ∧
    ((integrateKParallel ext s).raises Exn.InternalException ↔
      s.options_.IntegrateKParallel = false) ∧
    ((getPhiAtKParallel ext s omegaIdx KParallel).raises Exn.InternalException →
      (getPhiAtKParallel ext s omegaIdx KParallel).state = s) ∧
    ((integrateKParallel ext s).raises Exn.InternalException →
      (integrateKParallel ext s).state = s) ∧
    (setKParallelIntegral s end_).options_.IntegrateKParallel = true ∧
    ¬ (getPhiAtKParallel ext (setKParallelIntegral s end_) omegaIdx KParallel).raises
        Exn.InternalException ∧
    ¬ (integrateKParallel ext (setKParallelIntegral s end_)).raises Exn.InternalException := by
  have hget : ∀ t : Simulation K n,
      ((getPhiAtKParallel ext t omegaIdx KParallel).raises Exn.InternalException ↔
        t.options_.IntegrateKParallel = false) ∧
      ((getPhiAtKParallel ext t omegaIdx KParallel).raises Exn.InternalException →
        (getPhiAtKParallel ext t omegaIdx KParallel).state = t) := by
    intro t
    unfold getPhiAtKParallel
    by_cases hf : t.options_.IntegrateKParallel = false
    · rw [if_pos hf]
      exact ⟨⟨fun _ => hf, fun _ => rfl⟩, fun _ => rfl⟩
    · rw [if_neg hf]
      by_cases hr : omegaIdx ≥ t.numOfOmega_
      · rw [if_pos hr]
        simp [Outcome.raises, hf]
      · rw [if_neg hr]
        simp [Outcome.raises, hf]
  have hint : ∀ t : Simulation K n,
      ((integrateKParallel ext t).raises Exn.InternalException ↔
        t.options_.IntegrateKParallel = false) ∧
      ((integrateKParallel ext t).raises Exn.InternalException →
        (integrateKParallel ext t).state = t) := by
    intro t
    unfold integrateKParallel
    by_cases hf : t.options_.IntegrateKParallel = false
    · rw [if_pos hf]
      exact ⟨⟨fun _ => hf, fun _ => rfl⟩, fun _ => rfl⟩
    · rw [if_neg hf]
      simp [Outcome.raises, hf]
  have hon : (setKParallelIntegral s end_).options_.IntegrateKParallel = true := rfl
  refine ⟨(hget s).1, (hint s).1, (hget s).2, (hint s).2, hon, ?_, ?_⟩
  · rw [(hget _).1, hon]
    simp
  · rw [(hint _).1, hon]
    simp

/-- Witness of `kParallel_invalid_state`: on the example stack, whose k-parallel flag is
off, both calls raise the invalid-state error and change nothing. -/
theorem kParallel_invalid_state_witness :
    (getPhiAtKParallel (demoExt 1) (demoStack 1 2) 0 1).raises Exn.InternalException ∧
    (integrateKParallel (demoExt 1) (demoStack 1 2)).raises Exn.InternalException ∧
    (getPhiAtKParallel (demoExt 1) (demoStack 1 2) 0 1).state = demoStack 1 2 ∧
    (integrateKParallel (demoExt 1) (demoStack 1 2)).state = demoStack 1 2 :=
  ⟨by decide, by decide,
    (kParallel_invalid_state (demoExt 1) (demoStack 1 2) 0 1 1).2.2.1 (by decide),
    (kParallel_invalid_state (demoExt 1) (demoStack 1 2) 0 1 1).2.2.2.1 (by decide)⟩

/-! ## `addMaterial` and `addLayer`: failure leaves the registries alone -/

/-- A failed `load` leaves the loader as it was. -/
theorem load_failure_state (pre : String → String)
    (disk : String → Option (TextFile K)) (self : FileLoader K) (fileName : String)
    (h : ¬ (FileLoader.load pre disk self fileName).returns) :
    (FileLoader.load pre disk self fileName).state = self := by
  unfold FileLoader.load at h ⊢
  cases hd : disk fileName with
  | none => rfl
  | some file =>
    rw [hd] at h
    simp only at h ⊢
    cases hc : countRows pre file.lines (0, EPSTYPE.SCALAR_) with
    | error e => rfl
    | ok p =>
      rw [hc] at h
      obtain ⟨count, type⟩ := p
      simp only at h ⊢
      by_cases hp : self.preSet_ = true
      · by_cases hn : self.numOfOmega_ ≠ count
        · simp [hp, hn]
        · exfalso
          apply h
          simp [hp, hn, Outcome.returns]
      · exfalso
        apply h
        simp [hp, Outcome.returns]

/-- C12: `addLayer` fails exactly for an unknown material name or a registered layer name,
`addMaterial` exactly for a registered material name or a failing file load; a failed call
leaves the object, with the material registry, the layer registry and the layer stack, as
it was; a successful `addLayer` puts the new layer on top of the stack, registers it under
its name and leaves the material registry as it was. -/
theorem addLayer_addMaterial_atomic (ext : Ext K n) (disk : String → Option (TextFile K))
    (s : Simulation K n) (name : String) (thick : K) (materialName infile : String) :
    (¬ (addLayer s name thick materialName).returns ↔
      (s.materialInstanceMap_.lookup materialName = none ∨ (findLayer s name).isSome = true)) ∧
    (¬ (addLayer s name thick materialName).returns →
      (addLayer s name thick materialName).state = s) ∧
    (¬ (addMaterial ext disk s name infile).returns ↔
      ((s.materialInstanceMap_.lookup name).isSome = true ∨
        ¬ (FileLoader.load ext.preprocessString disk s.fileLoader_ infile).returns)) ∧
    (¬ (addMaterial ext disk s name infile).returns →
      (addMaterial ext disk s name infile).state = s) ∧
    ((addLayer s name thick materialName).returns →
      ∃ material, s.materialInstanceMap_.lookup materialName = some material ∧
        (addLayer s name thick materialName).state.structure_ =
          s.structure_ ++ [Layer.instanceNew name (materialName, material) thick] ∧
        findLayer (addLayer s name thick materialName).state name =
          some (Layer.instanceNew name (materialName, material) thick) ∧
        (addLayer s name thick materialName).state.materialInstanceMap_ =
          s.materialInstanceMap_) := by
  have hlayer : (¬ (addLayer s name thick materialName).returns ↔
        (s.materialInstanceMap_.lookup materialName = none ∨
          (findLayer s name).isSome = true)) ∧
      (¬ (addLayer s name thick materialName).returns →
        (addLayer s name thick materialName).state = s) ∧
      ((addLayer s name thick materialName).returns →
        ∃ material, s.materialInstanceMap_.lookup materialName = some material ∧
          (addLayer s name thick materialName).state.structure_ =
            s.structure_ ++ [Layer.instanceNew name (materialName, material) thick] ∧
          findLayer (addLayer s name thick materialName).state name =
            some (Layer.instanceNew name (materialName, material) thick) ∧
          (addLayer s name thick materialName).state.materialInstanceMap_ =
            s.materialInstanceMap_) := by
    cases hm : s.materialInstanceMap_.lookup materialName with
    | none =>
      have hval : addLayer s name thick materialName = ⟨.error Exn.IllegalNameException, s⟩ := by
        simp [addLayer, hm]
      rw [hval]
      simp [Outcome.returns]
    | some material =>
      by_cases hl : (findLayer s name).isSome = true
      · have hval : addLayer s name thick materialName =
            ⟨.error Exn.NameInUseException, s⟩ := by
          simp [addLayer, hm, hl]
        rw [hval]
        simp [Outcome.returns, hl]
      · have hval : addLayer s name thick materialName =
            ⟨.ok (), { s with structure_ := (Structure.addLayer s.structure_
              (Layer.instanceNew name (materialName, material) thick)) }⟩ := by
          simp [addLayer, hm, hl]
        rw [hval]
        refine ⟨by simp [Outcome.returns, hl], by simp [Outcome.returns], fun _ => ?_⟩
        refine ⟨material, rfl, rfl, ?_, rfl⟩
        have hnone : s.structure_.find? (fun l => l.name == name) = none := by
          simpa [findLayer] using hl
        simp only [findLayer, Structure.addLayer, List.find?_append, hnone]
        simp [Layer.instanceNew]
  have hmat : (¬ (addMaterial ext disk s name infile).returns ↔
        ((s.materialInstanceMap_.lookup name).isSome = true ∨
          ¬ (FileLoader.load ext.preprocessString disk s.fileLoader_ infile).returns)) ∧
      (¬ (addMaterial ext disk s name infile).returns →
        (addMaterial ext disk s name infile).state = s) := by
    by_cases hn : (s.materialInstanceMap_.lookup name).isSome = true
    · have hval : addMaterial ext disk s name infile = ⟨.error Exn.NameInUseException, s⟩ := by
        simp [addMaterial, hn]
      rw [hval]
      simp [Outcome.returns, hn]
    · have hst := load_failure_state ext.preprocessString disk s.fileLoader_ infile
      rcases hload : FileLoader.load ext.preprocessString disk s.fileLoader_ infile with
        ⟨r, loader⟩
      cases r with
      | ok u =>
        have hval : addMaterial ext disk s name infile =
            ⟨.ok (), { s with
              fileLoader_ := loader
              materialInstanceMap_ := (s.materialInstanceMap_ ++
                [(name, Material.instanceNew name loader.omegaList_ loader.epsilonList_
                  loader.numOfOmega_)]) }⟩ := by
          simp [addMaterial, hn, hload]
        rw [hval]
        simp [Outcome.returns, hn]
      | error e =>
        have hl : loader = s.fileLoader_ := by
          have h1 := hst (by rw [hload]; simp [Outcome.returns])
          rw [hload] at h1
          exact h1
        have hval : addMaterial ext disk s name infile = ⟨.error e, s⟩ := by
          simp [addMaterial, hn, hload, hl]
        rw [hval]
        simp [Outcome.returns]
  exact ⟨hlayer.1, hlayer.2.1, hmat.1, hmat.2, hlayer.2.2⟩

/-- Witness of `addLayer_addMaterial_atomic`: on the example stack, whose three layer names
and three material names are taken, adding a layer over an unknown material, a layer under
a taken name and a material under a taken name fail and change nothing; adding a layer
`Top` of vacuum succeeds. -/
theorem addLayer_addMaterial_atomic_witness :
    (addLayer (demoStack 1 2) "Top" 1 "Air").state = demoStack 1 2 ∧
    (addMaterial (demoExt 1) demoDisk (demoStack 1 2) "GaAs" "two_rows.txt").state =
      demoStack 1 2 ∧
    (∃ material, (demoStack 1 2).materialInstanceMap_.lookup "Vacuum" = some material ∧
      (addLayer (demoStack 1 2) "Top" 1 "Vacuum").state.structure_ =
        (demoStack 1 2).structure_ ++ [Layer.instanceNew "Top" ("Vacuum", material) 1] ∧
      findLayer (addLayer (demoStack 1 2) "Top" 1 "Vacuum").state "Top" =
        some (Layer.instanceNew "Top" ("Vacuum", material) 1) ∧
      (addLayer (demoStack 1 2) "Top" 1 "Vacuum").state.materialInstanceMap_ =
        (demoStack 1 2).materialInstanceMap_) :=
  ⟨(addLayer_addMaterial_atomic (demoExt 1) demoDisk (demoStack 1 2) "Top" 1 "Air"
      "two_rows.txt").2.1 (by decide),
   (addLayer_addMaterial_atomic (demoExt 1) demoDisk (demoStack 1 2) "GaAs" 1 "Air"
      "two_rows.txt").2.2.2.1 (by decide),
   (addLayer_addMaterial_atomic (demoExt 1) demoDisk (demoStack 1 2) "Top" 1 "Vacuum"
      "two_rows.txt").2.2.2.2 (by decide)⟩

/-! ## Unknown layer names -/

/-- C13 (the code at an unknown layer name): for a name that is not registered,
`deleteLayer` raises the already-exists exception `NameInUseException` and not the
not-found exception `IllegalNameException` that `setLayerThickness`, `setSourceLayer` and
`setProbeLayer` raise for the same name; the object is left as it was. -/
theorem deleteLayer_unknown_name {F : Type} {m : Nat} (s : Simulation F m) (name : String)
    (thick : F) (h : findLayer s name = none) :
    (deleteLayer s name).raises Exn.NameInUseException ∧
    ¬ (deleteLayer s name).raises Exn.IllegalNameException ∧
    (deleteLayer s name).state = s ∧
    (setLayerThickness s name thick).raises Exn.IllegalNameException ∧
    (setSourceLayer s name).raises Exn.IllegalNameException ∧
    (setProbeLayer s name).raises Exn.IllegalNameException := by
  simp [deleteLayer, setLayerThickness, setSourceLayer, setProbeLayer, h, Outcome.raises]

/-- Witness of `deleteLayer_unknown_name`: the name `Missing` on the example stack. -/
theorem deleteLayer_unknown_name_witness :
    findLayer (demoStack 1 2) "Missing" = none ∧
    (deleteLayer (demoStack 1 2) "Missing").raises Exn.NameInUseException ∧
    ¬ (deleteLayer (demoStack 1 2) "Missing").raises Exn.IllegalNameException ∧
    (setLayerThickness (demoStack 1 2) "Missing" 1).raises Exn.IllegalNameException :=
  ⟨rfl, (deleteLayer_unknown_name (demoStack 1 2) "Missing" 1 rfl).1,
    (deleteLayer_unknown_name (demoStack 1 2) "Missing" 1 rfl).2.1,
    (deleteLayer_unknown_name (demoStack 1 2) "Missing" 1 rfl).2.2.2.1⟩

/-! ## The truncation option -/

/-- C14 (the code at an unsupported truncation name): for every string other than
`Circular` and `Parallelogramic`, `optSetLatticeTruncation` returns normally, raising
nothing, and leaves the object as it was; for the two names it sets the option and raises
nothing. -/
theorem optSetLatticeTruncation_never_throws {F : Type} {m : Nat} (s : Simulation F m)
    (truncation : String) :
    (optSetLatticeTruncation s truncation).returns ∧
    (truncation ≠ "Circular" → truncation ≠ "Parallelogramic" →
      (optSetLatticeTruncation s truncation).state = s) ∧
    (optSetLatticeTruncation s "Circular").state.options_.truncation_ =
      TRUNCATION.CIRCULAR_ ∧
    (optSetLatticeTruncation s "Parallelogramic").state.options_.truncation_ =
      TRUNCATION.PARALLELOGRAMIC_ := by
  refine ⟨?_, ?_, rfl, rfl⟩
  · unfold optSetLatticeTruncation
    split_ifs <;> trivial
  · intro h1 h2
    unfold optSetLatticeTruncation
    rw [if_neg h1, if_neg h2]

/-- Witness of `optSetLatticeTruncation_never_throws`: the name `Square` is accepted
silently and the truncation option of the example stack stays circular. -/
theorem optSetLatticeTruncation_never_throws_witness :
    (optSetLatticeTruncation (demoStack 1 2) "Square").returns ∧
    (optSetLatticeTruncation (demoStack 1 2) "Square").state = demoStack 1 2 :=
  ⟨(optSetLatticeTruncation_never_throws (demoStack 1 2) "Square").1,
    (optSetLatticeTruncation_never_throws (demoStack 1 2) "Square").2.1 (by decide)
      (by decide)⟩

/-! ## `FileLoader::load`: the permittivity type of a file -/

/-- The type that the first pass of `load` ends with is the type of the last row, or the
initial type when there is no row. -/
theorem countRows_type (pre : String → String) :
    ∀ (lines : List String) (acc : Int × EPSTYPE) (c : Int) (t : EPSTYPE),
      countRows pre lines acc = .ok (c, t) →
      (lines = [] → t = acc.2) ∧
      (∀ l, lines.getLast? = some l → checkType pre l = .ok t) := by
  intro lines
  induction lines with
  | nil =>
    intro acc c t h
    simp only [countRows, Except.ok.injEq] at h
    refine ⟨fun _ => by rw [h], fun l hl => by simp at hl⟩
  | cons line rest ih =>
    intro acc c t h
    simp only [countRows] at h
    cases hc : checkType pre line with
    | error e => rw [hc] at h; cases h
    | ok t1 =>
      rw [hc] at h
      obtain ⟨h1, h2⟩ := ih (acc.1 + 1, t1) c t h
      refine ⟨fun hnil => (by cases hnil), fun l hl => ?_⟩
      cases rest with
      | nil =>
        simp only [List.getLast?_singleton, Option.some.injEq] at hl
        subst hl
        rw [hc, h1 rfl]
      | cons r rs =>
        rw [List.getLast?_cons_cons] at hl
        exact h2 l hl

/-- C15, amended: for an existing file whose number of rows fits the loader (a first load,
or as many rows as loaded before), `load` returns exactly when every row has 2, 6 or 10
white-space characters after preprocessing, and raises an unknown-type error otherwise;
the rows need not agree with each other, and the permittivity type stored is that of the
last row, scalar for a file without rows. -/
theorem load_accepts_rowwise (pre : String → String) (disk : String → Option (TextFile K))
    (self : FileLoader K) (fileName : String) (file : TextFile K)
    (hfile : disk fileName = some file)
    (hfit : self.preSet_ = true → self.numOfOmega_ = file.lines.length) :
    ((FileLoader.load pre disk self fileName).returns ↔
      ∀ line ∈ file.lines, ∃ t, checkType pre line = .ok t) ∧
    (¬ (FileLoader.load pre disk self fileName).returns →
      (FileLoader.load pre disk self fileName).raises Exn.UnknownTypeException) ∧
    ((FileLoader.load pre disk self fileName).returns →
      (file.lines = [] →
        (FileLoader.load pre disk self fileName).state.epsilonList_.type_ = EPSTYPE.SCALAR_) ∧
      (∀ l, file.lines.getLast? = some l →
        checkType pre l =
          .ok (FileLoader.load pre disk self fileName).state.epsilonList_.type_)) := by
  by_cases hall : ∀ line ∈ file.lines, ∃ t, checkType pre line = .ok t
  · obtain ⟨t, ht⟩ := countRows_ok pre file.lines (0, EPSTYPE.SCALAR_) hall
    simp only [zero_add] at ht
    obtain ⟨ht1, ht2⟩ := countRows_type pre file.lines (0, EPSTYPE.SCALAR_) _ t ht
    have hload : (FileLoader.load pre disk self fileName).returns ∧
        (FileLoader.load pre disk self fileName).state.epsilonList_.type_ = t := by
      by_cases hp : self.preSet_ = true
      · have hn := hfit hp
        simp [FileLoader.load, hfile, ht, hp, hn, Outcome.returns]
      · simp [FileLoader.load, hfile, ht, hp, Outcome.returns]
    refine ⟨⟨fun _ => hall, fun _ => hload.1⟩, fun h => absurd hload.1 h, fun _ => ?_⟩
    rw [hload.2]
    exact ⟨ht1, ht2⟩
  · have hex : ∃ line ∈ file.lines, ∀ t, checkType pre line ≠ .ok t := by
      push_neg at hall
      exact hall
    have hcr := countRows_error pre file.lines (0, EPSTYPE.SCALAR_) hex
    have hload : FileLoader.load pre disk self fileName =
        ⟨.error Exn.UnknownTypeException, self⟩ := by
      simp [FileLoader.load, hfile, hcr]
    rw [hload]
    refine ⟨⟨fun h => ?_, fun h => absurd h hall⟩, fun _ => ?_, fun h => ?_⟩
    · simp [Outcome.returns] at h
    · simp [Outcome.raises]
    · simp [Outcome.returns] at h

/-- Witness of `load_accepts_rowwise`: a first load of the file with two scalar rows
returns and stores the scalar type. -/
theorem load_accepts_rowwise_witness :
    (FileLoader.load id demoDisk FileLoader.instanceNew "two_rows.txt").returns ∧
    checkType id "4 5 6" =
      .ok (FileLoader.load id demoDisk (FileLoader.instanceNew : FileLoader ℚ)
        "two_rows.txt").state.epsilonList_.type_ := by
  have h := load_accepts_rowwise id demoDisk (FileLoader.instanceNew : FileLoader ℚ)
    "two_rows.txt" { lines := ["1 2 3", "4 5 6"], numbers := [1, 2, 3, 4, 5, 6] } rfl
    (fun hp => by cases hp)
  have hret : (FileLoader.load id demoDisk (FileLoader.instanceNew : FileLoader ℚ)
      "two_rows.txt").returns := by decide
  exact ⟨hret, (h.2.2 hret).2 "4 5 6" rfl⟩

/-- C15 as stated fails: a first load of a file whose first row has two values after the
frequency and whose second row has six returns normally and stores the diagonal type. -/
theorem load_accepts_rowwise_counterexample :
    checkType id "1 2 3" = .ok EPSTYPE.SCALAR_ ∧
    checkType id "4 5 6 7 8 9 10" = .ok EPSTYPE.DIAGONAL_ ∧
    (FileLoader.load id demoMixedDisk (FileLoader.instanceNew : FileLoader ℚ)
      "mixed_rows.txt").returns ∧
    (FileLoader.load id demoMixedDisk (FileLoader.instanceNew : FileLoader ℚ)
      "mixed_rows.txt").state.epsilonList_.type_ = EPSTYPE.DIAGONAL_ :=
  ⟨rfl, rfl, by decide, by decide⟩

/-! ## `initSimulation`: the thickness and source vectors -/

/-- The layer loop of `initSimulation` writes the thickness and source vectors only. -/
theorem initLayers_frame (ext : Ext K n) :
    ∀ (layers : List (Layer K)) (i : Int) (s : Simulation K n),
      (initLayers ext layers i s).state =
        { s with
          thicknessListVec_ := (initLayers ext layers i s).state.thicknessListVec_
          sourceList_ := (initLayers ext layers i s).state.sourceList_ } := by
  intro layers
  induction layers with
  | nil => intro i s; rfl
  | cons layer rest ih =>
    intro i s
    simp only [initLayers]
    split_ifs
    · rfl
    · rw [ih]

/-- When the layer loop of `initSimulation` returns, the entries `k .. k + layers.length - 1`
of the two vectors hold the scaled thickness and the source flag of the layers, and the
other entries are as before. -/
theorem initLayers_vectors (ext : Ext K n) :
    ∀ (layers : List (Layer K)) (k : Nat) (s : Simulation K n),
      k + layers.length ≤ s.sourceList_.length →
      k + layers.length ≤ s.thicknessListVec_.length →
      (initLayers ext layers (k : Int) s).returns →
      (initLayers ext layers (k : Int) s).state.thicknessListVec_.length =
        s.thicknessListVec_.length ∧
      (initLayers ext layers (k : Int) s).state.sourceList_.length = s.sourceList_.length ∧
      (∀ j : Nat, (initLayers ext layers (k : Int) s).state.thicknessListVec_[j]? =
        if k ≤ j ∧ j < k + layers.length then
          (layers[j - k]?).map (fun l => l.thickness * ext.MICRON)
        else s.thicknessListVec_[j]?) ∧
      (∀ j : Nat, (initLayers ext layers (k : Int) s).state.sourceList_[j]? =
        if k ≤ j ∧ j < k + layers.length then (layers[j - k]?).map (fun l => l.isSource)
        else s.sourceList_[j]?) := by
  intro layers
  induction layers with
  | nil =>
    intro k s _ _ _
    refine ⟨rfl, rfl, fun j => ?_, fun j => ?_⟩
    · have hc : ¬ (k ≤ j ∧ j < k + ([] : List (Layer K)).length) := by
        simp only [List.length_nil]; omega
      rw [if_neg hc]; rfl
    · have hc : ¬ (k ≤ j ∧ j < k + ([] : List (Layer K)).length) := by
        simp only [List.length_nil]; omega
      rw [if_neg hc]; rfl
  | cons layer rest ih =>
    intro k s hs ht hret
    simp only [List.length_cons] at hs ht
    simp only [initLayers] at hret ⊢
    split_ifs at hret ⊢ with hthrow
    · simp [Outcome.returns] at hret
    · have hcast : ((k : Int) + 1) = ((k + 1 : Nat) : Int) := by push_cast; rfl
      rw [hcast] at hret ⊢
      obtain ⟨h1, h2, h3, h4⟩ := ih (k + 1)
        { s with
          thicknessListVec_ := writeAt s.thicknessListVec_ k (layer.thickness * ext.MICRON)
          sourceList_ := writeAt s.sourceList_ k layer.isSource }
        (by simp only [writeAt_length]; omega) (by simp only [writeAt_length]; omega) hret
      simp only [writeAt_length] at h1 h2
      refine ⟨h1, h2, fun j => ?_, fun j => ?_⟩
      · rw [h3 j]
        simp only [writeAt_ofNat, List.length_cons]
        by_cases hjk : j = k
        · subst hjk
          have hc1 : ¬ (j + 1 ≤ j ∧ j < j + 1 + rest.length) := by omega
          have hc2 : j ≤ j ∧ j < j + (rest.length + 1) := by omega
          rw [if_neg hc1, if_pos hc2]
          have hlt : j < s.thicknessListVec_.length := by omega
          simp [List.getElem?_set, hlt]
        · by_cases hc : k + 1 ≤ j ∧ j < k + 1 + rest.length
          · have hc2 : k ≤ j ∧ j < k + (rest.length + 1) := by omega
            rw [if_pos hc, if_pos hc2]
            have : j - k = (j - (k + 1)) + 1 := by omega
            rw [this, List.getElem?_cons_succ]
          · have hc2 : ¬ (k ≤ j ∧ j < k + (rest.length + 1)) := by omega
            rw [if_neg hc, if_neg hc2]
            simp [List.getElem?_set, Ne.symm hjk]
      · rw [h4 j]
        simp only [writeAt_ofNat, List.length_cons]
        by_cases hjk : j = k
        · subst hjk
          have hc1 : ¬ (j + 1 ≤ j ∧ j < j + 1 + rest.length) := by omega
          have hc2 : j ≤ j ∧ j < j + (rest.length + 1) := by omega
          rw [if_neg hc1, if_pos hc2]
          have hlt : j < s.sourceList_.length := by omega
          simp [List.getElem?_set, hlt]
        · by_cases hc : k + 1 ≤ j ∧ j < k + 1 + rest.length
          · have hc2 : k ≤ j ∧ j < k + (rest.length + 1) := by omega
            rw [if_pos hc, if_pos hc2]
            have : j - k = (j - (k + 1)) + 1 := by omega
            rw [this, List.getElem?_cons_succ]
          · have hc2 : ¬ (k ≤ j ∧ j < k + (rest.length + 1)) := by omega
            rw [if_neg hc, if_neg hc2]
            simp [List.getElem?_set, Ne.symm hjk]

/-- The state after a successful `initSimulation`: the cache is invalid, `Phi_` holds one
zero per frequency, the frequency count is that of the frequency list, and the thickness
and source vectors are those of the layer loop, with the first and the last thickness set
to zero. -/
theorem initSimulation_returns_state (ext : Ext K n) (s : Simulation K n)
    (hret : (initSimulation ext s).returns) :
    (initSimulation ext s).state.curOmegaIndex_ = -1 ∧
    (initSimulation ext s).state.Phi_ =
      some (List.replicate (initSimulation ext s).state.numOfOmega_.toNat 0) ∧
    0 ≤ (initSimulation ext s).state.numOfOmega_ ∧
    ∃ th : List K,
      th.length = s.structure_.length ∧
      (∀ (j : Nat) (l : Layer K), s.structure_[j]? = some l →
        th[j]? = some (l.thickness * ext.MICRON)) ∧
      (initSimulation ext s).state.thicknessListVec_ =
        writeAt (writeAt th 0 0) ((s.structure_.length : Int) - 1) 0 ∧
      (initSimulation ext s).state.sourceList_.length = s.structure_.length ∧
      (∀ (j : Nat) (l : Layer K), s.structure_[j]? = some l →
        (initSimulation ext s).state.sourceList_[j]? = some l.isSource) := by
  unfold initSimulation at hret ⊢
  simp only [] at hret ⊢
  generalize hs1 : ({ resetSimulation s with
      Gx_mat_ := _, Gy_mat_ := _, numOfOmega_ := _, omegaList_ := _, EMatrices_ := _,
      grandImaginaryMatrices_ := _, eps_zz_Inv_Matrices_ := _, thicknessListVec_ := _,
      sourceList_ := _ } : Simulation K n) = s1 at hret ⊢
  have hstruct : s1.structure_ = s.structure_ := by subst hs1; rfl
  have hrs : (resetSimulation s).structure_ = s.structure_ := rfl
  simp only [hrs] at hret ⊢
  have hcur : s1.curOmegaIndex_ = -1 := by subst hs1; rfl
  have hnum : 0 ≤ s1.numOfOmega_ := by
    subst hs1
    exact Int.natCast_nonneg _
  have hsl : s1.sourceList_.length = s.structure_.length := by subst hs1; simp [resetSimulation]
  have htl : s1.thicknessListVec_.length = s.structure_.length := by
    subst hs1; simp [resetSimulation]
  have hframe := initLayers_frame ext s.structure_ 0 s1
  have hvec := initLayers_vectors ext s.structure_ 0 s1 (by rw [hsl]; omega) (by rw [htl]; omega)
  simp only [Nat.cast_zero] at hvec
  rcases ho : initLayers ext s.structure_ 0 s1 with ⟨r, st⟩
  rw [ho] at hret hframe hvec
  cases r with
  | error e => simp [Outcome.returns] at hret
  | ok u =>
    obtain ⟨h1, h2, h3, h4⟩ := hvec trivial
    simp only at hret hframe h1 h2 h3 h4 ⊢
    have hstcur : st.curOmegaIndex_ = -1 := by rw [hframe]; exact hcur
    have hstnum : 0 ≤ st.numOfOmega_ := by rw [hframe]; exact hnum
    have hres : ∃ th : List K,
        th.length = s.structure_.length ∧
        (∀ (j : Nat) (l : Layer K), s.structure_[j]? = some l →
          th[j]? = some (l.thickness * ext.MICRON)) ∧
        writeAt (writeAt st.thicknessListVec_ 0 0) ((s.structure_.length : Int) - 1) 0 =
          writeAt (writeAt th 0 0) ((s.structure_.length : Int) - 1) 0 ∧
        st.sourceList_.length = s.structure_.length ∧
        (∀ (j : Nat) (l : Layer K), s.structure_[j]? = some l →
          st.sourceList_[j]? = some l.isSource) := by
      refine ⟨st.thicknessListVec_, by rw [h1, htl], fun j l hj => ?_, rfl, by rw [h2, hsl],
        fun j l hj => ?_⟩
      · have hlt : j < s.structure_.length := by
          rcases Nat.lt_or_ge j s.structure_.length with h | h
          · exact h
          · rw [List.getElem?_eq_none h] at hj; cases hj
        rw [h3 j, if_pos ⟨Nat.zero_le _, by omega⟩]
        simp [hj]
      · have hlt : j < s.structure_.length := by
          rcases Nat.lt_or_ge j s.structure_.length with h | h
          · exact h
          · rw [List.getElem?_eq_none h] at hj; cases hj
        rw [h4 j, if_pos ⟨Nat.zero_le _, by omega⟩]
        simp [hj]
    split_ifs at hret ⊢ with hc1 hc2
    · simp [Outcome.returns] at hret
    · simp [Outcome.returns] at hret
    · exact ⟨hstcur, rfl, hstnum, hres⟩

/-- C16: after a successful `initSimulation` on a structure of `N ≥ 1` layers the thickness
vector has length `N`, its first and last entries are `0`, every interior entry is the
thickness of its layer times `MICRON`, and the source vector has length `N` and holds the
source flag of every layer. -/
theorem initSimulation_vectors (ext : Ext K n) (s : Simulation K n)
    (hret : (initSimulation ext s).returns) (hN : 1 ≤ s.structure_.length) :
    (initSimulation ext s).state.thicknessListVec_.length = s.structure_.length ∧
    (initSimulation ext s).state.thicknessListVec_[0]? = some 0 ∧
    (initSimulation ext s).state.thicknessListVec_[s.structure_.length - 1]? = some 0 ∧
    (∀ (i : Nat) (l : Layer K), 0 < i → i < s.structure_.length - 1 →
      s.structure_[i]? = some l →
      (initSimulation ext s).state.thicknessListVec_[i]? = some (l.thickness * ext.MICRON)) ∧
    (initSimulation ext s).state.sourceList_.length = s.structure_.length ∧
    (∀ (i : Nat) (l : Layer K), s.structure_[i]? = some l →
      (initSimulation ext s).state.sourceList_[i]? = some l.isSource) := by
  obtain ⟨_, _, _, th, hlen, hth, hvec, hsl, hsrc⟩ := initSimulation_returns_state ext s hret
  have hlast : ((s.structure_.length : Int) - 1) = ((s.structure_.length - 1 : Nat) : Int) := by
    omega
  have h0 : ((0 : Nat) : Int) = 0 := rfl
  rw [hvec, hlast, ← h0, writeAt_ofNat, writeAt_ofNat]
  refine ⟨by simp [hlen], ?_, ?_, fun i l hi0 hi1 hl => ?_, hsl, hsrc⟩
  · simp only [List.getElem?_set, List.length_set]
    split_ifs <;> first | rfl | omega
  · simp only [List.getElem?_set, List.length_set]
    split_ifs <;> first | rfl | omega
  · have hne1 : ¬ (s.structure_.length - 1 = i) := by omega
    have hne0 : ¬ (0 = i) := by omega
    simp only [List.getElem?_set, hne1, hne0, if_false]
    exact hth i l hl

/-- Witness of `initSimulation_vectors`: on the example stack with the probe on top, whose
middle layer has thickness `1`, the thickness vector is `[0, 1, 0]`. -/
theorem initSimulation_vectors_witness :
    (initSimulation (demoExt 1) (demoStack 1 2)).returns ∧
    (initSimulation (demoExt 1) (demoStack 1 2)).state.thicknessListVec_.length = 3 ∧
    (initSimulation (demoExt 1) (demoStack 1 2)).state.thicknessListVec_[0]? = some 0 ∧
    (initSimulation (demoExt 1) (demoStack 1 2)).state.thicknessListVec_[2]? = some 0 ∧
    (initSimulation (demoExt 1) (demoStack 1 2)).state.thicknessListVec_[1]? = some (1 * 1) ∧
    (initSimulation (demoExt 1) (demoStack 1 2)).state.sourceList_.length = 3 :=
  have h := initSimulation_vectors (demoExt 1) (demoStack 1 2) (by decide) (by decide)
  ⟨by decide, h.1, h.2.1, h.2.2.1, h.2.2.2.1 1 _ (by decide) (by decide) rfl, h.2.2.2.2.1⟩

/-! ## Source layers -/

/-- A call through a registered layer pointer keeps the length of the stack. -/
theorem updateLayer_length {F : Type} (f : Layer F → Layer F) (name : String) :
    ∀ layers : List (Layer F), (updateLayer f name layers).length = layers.length := by
  intro layers
  induction layers with
  | nil => rfl
  | cons l rest ih =>
    simp only [updateLayer]
    split_ifs
    · rfl
    · simp [ih]

/-- A call through a registered layer pointer leaves every layer as it was or applies the
member function to it. -/
theorem updateLayer_getElem? {F : Type} (f : Layer F → Layer F) (name : String) :
    ∀ (layers : List (Layer F)) (i : Nat) (l : Layer F), layers[i]? = some l →
      (updateLayer f name layers)[i]? = some l ∨
      (updateLayer f name layers)[i]? = some (f l) := by
  intro layers
  induction layers with
  | nil => intro i l h; simp at h
  | cons l0 rest ih =>
    intro i l h
    simp only [updateLayer]
    split_ifs
    · cases i with
      | zero =>
        simp only [List.getElem?_cons_zero, Option.some.injEq] at h
        subst h
        right
        simp
      | succ j => left; simpa using h
    · cases i with
      | zero => left; simpa using h
      | succ j =>
        simp only [List.getElem?_cons_succ] at h ⊢
        exact ih j l h

/-- A call through a registered layer pointer applies the member function to the layer of
that name. -/
theorem updateLayer_found {F : Type} (f : Layer F → Layer F) (name : String) :
    ∀ layers : List (Layer F), (layers.find? (fun l => l.name == name)).isSome = true →
      ∃ (i : Nat) (l : Layer F), layers[i]? = some l ∧ l.name = name ∧
        (updateLayer f name layers)[i]? = some (f l) := by
  intro layers
  induction layers with
  | nil => intro h; simp at h
  | cons l0 rest ih =>
    intro h
    by_cases hn : (l0.name == name) = true
    · refine ⟨0, l0, by simp, by simpa using hn, ?_⟩
      simp [updateLayer, hn]
    · have hrest : (rest.find? (fun l => l.name == name)).isSome = true := by
        simpa [List.find?_cons, hn] using h
      obtain ⟨i, l, h1, h2, h3⟩ := ih hrest
      refine ⟨i + 1, l, by simpa using h1, h2, ?_⟩
      simp [updateLayer, hn, h3]

/-- The probe check is the only way for `initSimulation` to raise a range error: it
raises none when every source layer is at or below the probe layer, however many source
layers there are. -/
theorem initSimulation_range_free (ext : Ext K n) (s : Simulation K n)
    (hall : ∀ (j : Nat) (l : Layer K), s.structure_[j]? = some l → l.isSource = true →
      (j : Int) ≤ s.targetLayer_) :
    ¬ (initSimulation ext s).raises Exn.RangeException := by
  unfold initSimulation
  simp only []
  generalize hs1 : ({ resetSimulation s with
      Gx_mat_ := _, Gy_mat_ := _, numOfOmega_ := _, omegaList_ := _, EMatrices_ := _,
      grandImaginaryMatrices_ := _, eps_zz_Inv_Matrices_ := _, thicknessListVec_ := _,
      sourceList_ := _ } : Simulation K n) = s1
  have hstruct : s1.structure_ = s.structure_ := by subst hs1; rfl
  have hrs : (resetSimulation s).structure_ = s.structure_ := rfl
  simp only [hrs]
  have htarget : s1.targetLayer_ = s.targetLayer_ := by subst hs1; rfl
  have hsl : s1.sourceList_.length = s.structure_.length := by subst hs1; simp [resetSimulation]
  obtain ⟨_, _, _, _, _, _, _, h8⟩ := initLayers_spec ext s1.structure_ 0 s1 (by omega)
    (by rw [hsl, hstruct]; omega)
  rw [hstruct, htarget] at h8
  simp only [zero_add] at h8
  have hr := h8 hall
  rcases ho : initLayers ext s.structure_ 0 s1 with ⟨r, st⟩
  rw [ho] at hr
  cases r with
  | error e => simp [Outcome.returns] at hr
  | ok u =>
    simp only [Outcome.raises]
    split_ifs <;> simp

/-- A call through a registered layer pointer replaces the first layer of that name, the
one the lookup finds, and leaves the list otherwise as it was. -/
theorem updateLayer_set {F : Type} (f : Layer F → Layer F) (name : String) :
    ∀ layers : List (Layer F), (layers.find? (fun l => l.name == name)).isSome = true →
      ∃ (i : Nat) (l : Layer F), layers[i]? = some l ∧
        layers.find? (fun l => l.name == name) = some l ∧
        updateLayer f name layers = layers.set i (f l) := by
  intro layers
  induction layers with
  | nil => intro h; simp at h
  | cons l0 rest ih =>
    intro h
    by_cases hn : (l0.name == name) = true
    · exact ⟨0, l0, by simp, by simp [List.find?_cons, hn], by simp [updateLayer, hn]⟩
    · have hrest : (rest.find? (fun l => l.name == name)).isSome = true := by
        simpa [List.find?_cons, hn] using h
      obtain ⟨i, l, h1, h2, h3⟩ := ih hrest
      refine ⟨i + 1, l, by simpa using h1, ?_, ?_⟩
      · simpa [List.find?_cons, hn] using h2
      · simp [updateLayer, hn, h3]

/-- The lookup of a layer name after a call through a registered layer pointer, for a
member function that keeps the name of the layer: the layer found under the name of the
call is the old one after the call, every other name finds the layer it found before. -/
theorem find?_updateLayer {F : Type} (f : Layer F → Layer F) (name q : String)
    (hf : ∀ l : Layer F, (f l).name = l.name) :
    ∀ layers : List (Layer F),
      (updateLayer f name layers).find? (fun l => l.name == q) =
        if q = name then (layers.find? (fun l => l.name == q)).map f
        else layers.find? (fun l => l.name == q) := by
  intro layers
  induction layers with
  | nil => simp [updateLayer]
  | cons l0 rest ih =>
    by_cases hn : l0.name = name
    · have hb : (l0.name == name) = true := by simpa using hn
      simp only [updateLayer, hb, if_true]
      by_cases hq : q = name
      · subst hq
        have h1 : ((f l0).name == q) = true := by rw [hf]; exact hb
        simp [List.find?_cons, h1, hb]
      · have h1 : ((f l0).name == q) = false := by
          rw [hf, hn]
          simpa using fun h => hq h.symm
        have h2 : (l0.name == q) = false := by
          rw [hn]
          simpa using fun h => hq h.symm
        simp [List.find?_cons, h1, h2, hq]
    · have hb : (l0.name == name) = false := by simpa using hn
      simp only [updateLayer, hb]
      by_cases h0 : l0.name = q
      · have h1 : (l0.name == q) = true := by simpa using h0
        have hq : ¬ q = name := fun h => hn (h0.trans h)
        simp [List.find?_cons, h1, hq]
      · have h1 : (l0.name == q) = false := by simpa using h0
        simp only [Bool.false_eq_true, if_false, List.find?_cons, h1]
        exact ih

/-- C17, amended: `setSourceLayer` on a registered name is never rejected; it marks the
layer registered under that name as source, changes nothing else of that layer, and
leaves every other layer and the rest of the object as they were, so a layer marked
before stays marked; after `setSourceLayer(a)` followed by `setSourceLayer(b)` the layers
registered under `a` and under `b` are both marked; and the following `initSimulation`
raises no range error as long as no marked layer lies above the probe layer. -/
theorem setSourceLayer_accumulates (ext : Ext K n) (s : Simulation K n) (name : String)
    (h : (findLayer s name).isSome = true) :
    (setSourceLayer s name).returns ∧
    (setSourceLayer s name).state.structure_.length = s.structure_.length ∧
    (∀ (i : Nat) (l : Layer K), s.structure_[i]? = some l →
      (setSourceLayer s name).state.structure_[i]? = some l ∨
      (setSourceLayer s name).state.structure_[i]? = some l.setIsSource) ∧
    (∃ (i : Nat) (l : Layer K), s.structure_[i]? = some l ∧ l.name = name ∧
      (setSourceLayer s name).state.structure_[i]? = some l.setIsSource) ∧
    ((∀ (j : Nat) (l : Layer K), (setSourceLayer s name).state.structure_[j]? = some l →
        l.isSource = true → (j : Int) ≤ s.targetLayer_) →
      ¬ (initSimulation ext (setSourceLayer s name).state).raises Exn.RangeException) ∧
    (∃ (i : Nat) (l : Layer K), s.structure_[i]? = some l ∧ findLayer s name = some l ∧
      (setSourceLayer s name).state =
        { s with structure_ := s.structure_.set i { l with isSource := true } } ∧
      (∀ j : Nat, j ≠ i →
        (setSourceLayer s name).state.structure_[j]? = s.structure_[j]?)) ∧
    (∀ (j : Nat) (l : Layer K), s.structure_[j]? = some l → l.isSource = true →
      ∃ l1 : Layer K, (setSourceLayer s name).state.structure_[j]? = some l1 ∧
        l1.isSource = true) ∧
    (∀ other : String, (findLayer s other).isSome = true →
      (setSourceLayer (setSourceLayer s name).state other).returns ∧
      ∃ la lb : Layer K,
        findLayer (setSourceLayer (setSourceLayer s name).state other).state name = some la ∧
        la.isSource = true ∧
        findLayer (setSourceLayer (setSourceLayer s name).state other).state other = some lb ∧
        lb.isSource = true) := by
  have hval : ∀ (t : Simulation K n) (q : String), (findLayer t q).isSome = true →
      setSourceLayer t q =
        ⟨.ok (), { t with
          structure_ := updateLayer (fun l => l.setIsSource) q t.structure_ }⟩ := by
    intro t q hq
    have hne : findLayer t q ≠ none := by
      intro h0
      rw [h0] at hq
      cases hq
    simp [setSourceLayer, hne]
  have hfind : ∀ (t : Simulation K n) (q r : String),
      findLayer { t with
          structure_ := updateLayer (fun l => l.setIsSource) q t.structure_ } r =
        if r = q then (findLayer t r).map (fun l => l.setIsSource) else findLayer t r :=
    fun t q r => find?_updateLayer (fun l => l.setIsSource) q r (fun _ => rfl) t.structure_
  obtain ⟨i, l, hi, hfl, hset⟩ := updateLayer_set (fun l : Layer K => l.setIsSource) name
    s.structure_ h
  rw [hval s name h]
  refine ⟨trivial, updateLayer_length _ _ _, updateLayer_getElem? _ _ _,
    updateLayer_found _ _ _ h, fun hall => initSimulation_range_free ext _ hall, ?_, ?_, ?_⟩
  · refine ⟨i, l, hi, hfl, ?_, fun j hj => ?_⟩
    · show ({ s with structure_ := updateLayer (fun l => l.setIsSource) name s.structure_ } :
        Simulation K n) = _
      rw [hset]
      rfl
    · show (updateLayer (fun l => l.setIsSource) name s.structure_)[j]? = _
      rw [hset, List.getElem?_set_ne (Ne.symm hj)]
  · intro j lj hj hsrc
    rcases updateLayer_getElem? (fun l : Layer K => l.setIsSource) name s.structure_ j lj hj
      with h1 | h1
    · exact ⟨lj, h1, hsrc⟩
    · exact ⟨lj.setIsSource, h1, rfl⟩
  · intro other ho
    obtain ⟨la, hla⟩ := Option.isSome_iff_exists.mp h
    obtain ⟨lb, hlb⟩ := Option.isSome_iff_exists.mp ho
    obtain ⟨t1, ht1⟩ : ∃ t1 : Simulation K n, t1 = { s with
        structure_ := updateLayer (fun l => l.setIsSource) name s.structure_ } := ⟨_, rfl⟩
    rw [← ht1]
    have hf1n : findLayer t1 name = some la.setIsSource := by
      rw [ht1, hfind s name name, if_pos rfl, hla]
      rfl
    have hf1o : findLayer t1 other = some (if other = name then lb.setIsSource else lb) := by
      rw [ht1, hfind s name other, hlb]
      split_ifs <;> rfl
    have ho1 : (findLayer t1 other).isSome = true := by
      rw [hf1o]
      rfl
    rw [hval t1 other ho1]
    refine ⟨trivial, ?_⟩
    have hf2n : findLayer ({ t1 with
        structure_ := updateLayer (fun l => l.setIsSource) other t1.structure_ } :
        Simulation K n) name =
        some (if name = other then la.setIsSource.setIsSource else la.setIsSource) := by
      rw [hfind t1 other name, hf1n]
      split_ifs <;> rfl
    have hf2o : findLayer ({ t1 with
        structure_ := updateLayer (fun l => l.setIsSource) other t1.structure_ } :
        Simulation K n) other =
        some (if other = name then lb.setIsSource else lb).setIsSource := by
      rw [hfind t1 other other, if_pos rfl, hf1o]
      rfl
    refine ⟨_, _, hf2n, ?_, hf2o, rfl⟩
    split_ifs <;> rfl

/-- Witness of `setSourceLayer_accumulates`: marking the bottom layer of the example
stack, whose middle layer is marked already, returns. -/
theorem setSourceLayer_accumulates_witness :
    (findLayer (demoStack 1 2) "PECLayer").isSome = true ∧
    (setSourceLayer (demoStack 1 2) "PECLayer").returns :=
  ⟨by decide, (setSourceLayer_accumulates (demoExt 1) (demoStack 1 2) "PECLayer"
    (by decide)).1⟩

/-- C17 as stated fails: on the planar example built through the public interface,
`setSourceLayer` on the bottom layer and then on the middle layer and the following
`initSimulation` all return, and both layers are marked as source. -/
theorem setSourceLayer_accumulates_counterexample :
    demoTwoSources.returns ∧
    demoTwoSources.state.structure_.map (fun l => (l.name, l.isSource)) =
      [("PECLayer", true), ("GaAsLayer", true), ("VacuumLayer", false)] ∧
    demoTwoSources.state.sourceList_ = [true, true, false] := by
  decide

/-! ## `buildRCWAMatrices`: a layer without patterns -/

/-- A non-zero complex number times its reciprocal `1 / z` is `1`. -/
theorem dcomplex_mul_cdiv (z : dcomplex K) (hz : z ≠ 0) : z * dcomplex.cdiv 1 z = 1 := by
  have hd : z.re * z.re + z.im * z.im ≠ 0 := by
    intro h0
    obtain ⟨h1, h2⟩ := (mul_self_add_mul_self_eq_zero).mp h0
    exact hz (dcomplex.ext h1 h2)
  apply dcomplex.ext
  · show z.re * ((1 * z.re + 0 * z.im) / (z.re * z.re + z.im * z.im)) -
        z.im * ((0 * z.re - 1 * z.im) / (z.re * z.re + z.im * z.im)) = 1
    field_simp
  · show z.re * ((0 * z.re - 1 * z.im) / (z.re * z.re + z.im * z.im)) +
        z.im * ((1 * z.re + 0 * z.im) / (z.re * z.re + z.im * z.im)) = 0
    field_simp
    ring

/-- An inversion routine that inverts every invertible matrix returns `(1 / z) I` for
`z I` with `z ≠ 0`. -/
theorem inv_scalar_matrix (inv : RCWAcMatrix K n → RCWAcMatrix K n)
    (hinv : ∀ M : RCWAcMatrix K n, IsUnit M → M * inv M = 1) (z : dcomplex K) (hz : z ≠ 0) :
    inv (z • (1 : RCWAcMatrix K n)) = dcomplex.cdiv 1 z • (1 : RCWAcMatrix K n) := by
  have hprod : (z • (1 : RCWAcMatrix K n)) * (dcomplex.cdiv 1 z • (1 : RCWAcMatrix K n)) = 1 := by
    rw [Matrix.smul_mul, Matrix.one_mul, smul_smul, dcomplex_mul_cdiv z hz, one_smul]
  have hcomm : (dcomplex.cdiv 1 z • (1 : RCWAcMatrix K n)) * (z • (1 : RCWAcMatrix K n)) = 1 :=
    Matrix.mul_eq_one_comm.mp hprod
  have hunit : IsUnit (z • (1 : RCWAcMatrix K n)) :=
    ⟨⟨_, _, hprod, hcomm⟩, rfl⟩
  have h1 := hinv _ hunit
  calc inv (z • (1 : RCWAcMatrix K n))
      = (dcomplex.cdiv 1 z • (1 : RCWAcMatrix K n)) * (z • (1 : RCWAcMatrix K n)) *
          inv (z • (1 : RCWAcMatrix K n)) := by rw [hcomm, Matrix.one_mul]
    _ = dcomplex.cdiv 1 z • (1 : RCWAcMatrix K n) := by
        rw [Matrix.mul_assoc, h1, Matrix.mul_one]

/-- C18: for a layer without patterns and every frequency index, the layer loop of
`buildRCWAMatrices` produces `eps_xx = bg_xx I`, `eps_yy = bg_yy I`, `im_eps_xx = Im(bg_xx) I`,
`im_eps_yy = Im(bg_yy) I`, `im_eps_zz = Im(bg_zz) I` and, when `bg_zz ≠ 0` and the inversion
routine inverts every invertible matrix, `eps_zz_Inv = (1 / bg_zz) I`, stored in
`eps_zz_Inv_Matrices_`; if the layer is not flagged anisotropic, the four off-diagonal
matrices are zero.  Here `bg` is the canonical background tensor at the frequency index. -/
theorem buildRCWAMatrices_no_pattern (ext : Ext K n) (s : Simulation K n) (i : Nat)
    (layer : Layer K) (hl : s.structure_[i]? = some layer) (hp : layer.patterns = []) :
    ∃ r : FourierMatrices K n × RCWAcMatrix K n,
      (buildLayers ext s)[i]? = some r ∧
      r.1.eps_xx = (⟨epsBGTensor ext s.materialInstanceMap_ s.curOmegaIndex_ layer 0,
        epsBGTensor ext s.materialInstanceMap_ s.curOmegaIndex_ layer 1⟩ : dcomplex K) •
          (1 : RCWAcMatrix K n) ∧
      r.1.eps_yy = (⟨epsBGTensor ext s.materialInstanceMap_ s.curOmegaIndex_ layer 6,
        epsBGTensor ext s.materialInstanceMap_ s.curOmegaIndex_ layer 7⟩ : dcomplex K) •
          (1 : RCWAcMatrix K n) ∧
      r.1.im_eps_xx =
        dcomplex.ofReal (epsBGTensor ext s.materialInstanceMap_ s.curOmegaIndex_ layer 1) •
          (1 : RCWAcMatrix K n) ∧
      r.1.im_eps_yy =
        dcomplex.ofReal (epsBGTensor ext s.materialInstanceMap_ s.curOmegaIndex_ layer 7) •
          (1 : RCWAcMatrix K n) ∧
      r.1.im_eps_zz =
        dcomplex.ofReal (epsBGTensor ext s.materialInstanceMap_ s.curOmegaIndex_ layer 9) •
          (1 : RCWAcMatrix K n) ∧
      ((∀ M : RCWAcMatrix K n, IsUnit M → M * ext.inv M = 1) →
        (⟨epsBGTensor ext s.materialInstanceMap_ s.curOmegaIndex_ layer 8,
          epsBGTensor ext s.materialInstanceMap_ s.curOmegaIndex_ layer 9⟩ : dcomplex K) ≠ 0 →
        r.2 = dcomplex.cdiv 1
          (⟨epsBGTensor ext s.materialInstanceMap_ s.curOmegaIndex_ layer 8,
            epsBGTensor ext s.materialInstanceMap_ s.curOmegaIndex_ layer 9⟩ : dcomplex K) •
              (1 : RCWAcMatrix K n) ∧
        (i < s.eps_zz_Inv_Matrices_.length →
          (buildRCWAMatrices ext s).eps_zz_Inv_Matrices_[i]? = some (some r.2))) ∧
      (layer.hasTensor = false →
        r.1.eps_xy = 0 ∧ r.1.eps_yx = 0 ∧ r.1.im_eps_xy = 0 ∧ r.1.im_eps_yx = 0) := by
  have hlen : i < s.structure_.length := by
    rcases Nat.lt_or_ge i s.structure_.length with h | h
    · exact h
    · rw [List.getElem?_eq_none h] at hl; cases hl
  refine ⟨buildLayer ext s.materialInstanceMap_ s.Gx_mat_ s.Gy_mat_
    (rcwaArea ext s.dim_ s.lattice_) s.curOmegaIndex_ layer, ?_, ?_⟩
  · simp [buildLayers, hl]
  · have hzero : applyPatterns ext s.materialInstanceMap_ s.Gx_mat_ s.Gy_mat_
        (rcwaArea ext s.dim_ s.lattice_) s.curOmegaIndex_ layer
        (epsBGTensor ext s.materialInstanceMap_ s.curOmegaIndex_ layer) layer.patterns 0
        FourierMatrices.zeros = FourierMatrices.zeros := by
      rw [hp]; rfl
    refine ⟨?_, ?_, ?_, ?_, ?_, ?_, ?_⟩
    · simp only [buildLayer, hzero]
      split_ifs <;> simp [FourierMatrices.zeros]
    · simp only [buildLayer, hzero]
      split_ifs <;> simp [FourierMatrices.zeros]
    · simp only [buildLayer, hzero]
      split_ifs <;> simp [FourierMatrices.zeros]
    · simp only [buildLayer, hzero]
      split_ifs <;> simp [FourierMatrices.zeros]
    · simp only [buildLayer, hzero]
      split_ifs <;> simp [FourierMatrices.zeros]
    · intro hinv hz
      have hr2 : (buildLayer ext s.materialInstanceMap_ s.Gx_mat_ s.Gy_mat_
          (rcwaArea ext s.dim_ s.lattice_) s.curOmegaIndex_ layer).2 =
          ext.inv ((⟨epsBGTensor ext s.materialInstanceMap_ s.curOmegaIndex_ layer 8,
            epsBGTensor ext s.materialInstanceMap_ s.curOmegaIndex_ layer 9⟩ : dcomplex K) •
              (1 : RCWAcMatrix K n)) := by
        simp only [buildLayer, hzero]
        simp [FourierMatrices.zeros]
      refine ⟨by rw [hr2, inv_scalar_matrix ext.inv hinv _ hz], fun hi => ?_⟩
      show (storeFrom _ 0 s.eps_zz_Inv_Matrices_)[i]? = _
      rw [storeFrom_getElem?]
      have hc : 0 ≤ i ∧ i < 0 + ((buildLayers ext s).map (fun p => some p.2)).length ∧
          i < s.eps_zz_Inv_Matrices_.length := by
        refine ⟨Nat.zero_le _, ?_, hi⟩
        simp [buildLayers, hlen]
      rw [if_pos hc]
      simp [buildLayers, hl]
    · intro hflag
      have hflag2 : layer.hasTensor = false := hflag
      simp only [buildLayer, hzero, hflag2]
      simp [FourierMatrices.zeros]

/-- Witness of `buildRCWAMatrices_no_pattern`: the bottom layer of the example stack, of
permittivity `1`, with the ring inverse as inversion routine, gives `eps_xx = 1 I` and
`eps_zz_Inv = (1 / 1) I`. -/
theorem buildRCWAMatrices_no_pattern_witness :
    ∃ r : FourierMatrices ℚ 1 × RCWAcMatrix ℚ 1,
      (buildLayers { demoExt 1 with inv := Ring.inverse }
        { demoStack 1 2 with curOmegaIndex_ := 0 })[0]? = some r ∧
      r.1.eps_xx = (⟨1, 0⟩ : dcomplex ℚ) • (1 : RCWAcMatrix ℚ 1) ∧
      r.2 = dcomplex.cdiv 1 (⟨1, 0⟩ : dcomplex ℚ) • (1 : RCWAcMatrix ℚ 1) := by
  obtain ⟨r, h1, h2, _, _, _, _, h7, _⟩ := buildRCWAMatrices_no_pattern
    { demoExt 1 with inv := Ring.inverse } { demoStack 1 2 with curOmegaIndex_ := 0 } 0 _ rfl rfl
  exact ⟨r, h1, h2, (h7 (fun M hM => Ring.mul_inverse_cancel M hM) (by decide)).1⟩

/-! ## The flux spectrum after `initSimulation` and one `integrateKxKy` -/

/-- C19: after a successful `initSimulation` and one `integrateKxKy` with at least two
points in `kx` and in `ky`, `Phi_[w]` is, for every frequency index `w`, the sum over the
grid points `(i, j)` of `prefactor * F(w, kx_ij, ky_ij) * (dkx / scalex(w)) *
(dky / scaley(w)) * (ω_w / c_0)² * |sin(angle π / 180)|`, where `F` is the flux kernel as a
function of the frequency index and the wavevector, `dkx` and `dky` are the grid steps, and
`scalex(w)` (`scaley(w)`) is `1` for a non-periodic simulation or a preset `kx` (`ky`)
bound, `scaley(w)` is `1` in one dimension, and both are `ω_w / c_0` otherwise. -/
theorem integrateKxKy_after_init (ext : Ext K n) (s : Simulation K n)
    (hinit : (initSimulation ext s).returns)
    (hkx : 2 ≤ (initSimulation ext s).state.numOfKx_)
    (hky : 2 ≤ (initSimulation ext s).state.numOfKy_)
    (w : Nat) (hw : (w : Int) < (initSimulation ext s).state.numOfOmega_) :
    (integrateKxKy ext (initSimulation ext s).state).returns ∧
    ((integrateKxKy ext (initSimulation ext s).state).state.Phi_.getD []).getD w 0 =
      ∑ i ∈ Finset.range (initSimulation ext s).state.numOfKx_.toNat,
        ∑ j ∈ Finset.range (initSimulation ext s).state.numOfKy_.toNat,
          (initSimulation ext s).state.prefactor_ *
            fluxAt ext (initSimulation ext s).state w
              (kxAt ext (initSimulation ext s).state w i)
              (kyAt ext (initSimulation ext s).state w i j) *
            (dkx (initSimulation ext s).state / scalex ext (initSimulation ext s).state w) *
            (dky (initSimulation ext s).state / scaley ext (initSimulation ext s).state w) *
            (readAt (initSimulation ext s).state.omegaList_ w 0 / ext.c_0) ^ 2 *
            |ext.sin ((initSimulation ext s).state.reciprocalLattice_.angle * ext.pi / 180)| ∧
    dkx (initSimulation ext s).state =
      ((initSimulation ext s).state.kxEnd_ - (initSimulation ext s).state.kxStart_) /
        (((initSimulation ext s).state.numOfKx_ : K) - 1) ∧
    dky (initSimulation ext s).state =
      ((initSimulation ext s).state.kyEnd_ - (initSimulation ext s).state.kyStart_) /
        (((initSimulation ext s).state.numOfKy_ : K) - 1) ∧
    scalex ext (initSimulation ext s).state w =
      (if (initSimulation ext s).state.dim_ = DIMENSION.NO_ ∨
          (initSimulation ext s).state.options_.kxIntegralPreset = true then 1
       else readAt (initSimulation ext s).state.omegaList_ w 0 / ext.c_0) ∧
    scaley ext (initSimulation ext s).state w =
      (if (initSimulation ext s).state.dim_ = DIMENSION.NO_ ∨
          (initSimulation ext s).state.dim_ = DIMENSION.ONE_ ∨
          (initSimulation ext s).state.options_.kyIntegralPreset = true then 1
       else readAt (initSimulation ext s).state.omegaList_ w 0 / ext.c_0) := by
  obtain ⟨hcur, hphi, hnum, _⟩ := initSimulation_returns_state ext s hinit
  generalize (initSimulation ext s).state = t at hkx hky hw hcur hphi hnum ⊢
  have hc : CacheValid ext t := Or.inl (by rw [hcur]; decide)
  obtain ⟨hret, hval⟩ := integrateKxKy_getD ext t (List.replicate t.numOfOmega_.toNat 0)
    (by omega) (by omega) hnum hphi (by simp; omega) hc w hw
  refine ⟨hret, ?_, ?_, ?_, ?_, ?_⟩
  · rw [hval]
    have hz : (List.replicate t.numOfOmega_.toNat (0 : K)).getD w 0 = 0 := by
      rw [List.getD_eq_getElem?_getD, List.getElem?_replicate]
      split_ifs <;> rfl
    rw [hz, zero_add]
    apply Finset.sum_congr rfl
    intro i _
    apply Finset.sum_congr rfl
    intro j _
    simp only [phiTerm, gridFlux, kxAt, kyAt, Int.cast_natCast]
    ring
  · simp [dkx]
  · simp [dky]
  · unfold scalex
    cases hd : t.dim_ <;> cases hpre : t.options_.kxIntegralPreset <;> simp
  · unfold scaley
    cases hd : t.dim_ <;> cases hpre : t.options_.kyIntegralPreset <;> simp

/-- Witness of `integrateKxKy_after_init`: the example stack with three `kx` points and two
`ky` points. -/
theorem integrateKxKy_after_init_witness :
    (initSimulation (demoExt 1) demoStackGrid).returns ∧
    (integrateKxKy (demoExt 1) (initSimulation (demoExt 1) demoStackGrid).state).returns :=
  ⟨by decide, (integrateKxKy_after_init (demoExt 1) demoStackGrid (by decide) (by decide)
    (by decide) 0 (by decide)).1⟩

/-! ## Fewer than two integration points -/

/-- C20, amended: for `points < 2` each of the four setters raises the value error
`ValueException`, not a range error, and leaves the object, with the whole integration
configuration, as it was. -/
theorem setKIntegral_few_points (ext : Ext K n) (s : Simulation K n) (points : Int) (end_ : K)
    (h : points < 2) :
    ((setKxIntegral ext s points end_).raises Exn.ValueException ∧
      (setKxIntegral ext s points end_).state = s) ∧
    ((setKxIntegralSym ext s points end_).raises Exn.ValueException ∧
      (setKxIntegralSym ext s points end_).state = s) ∧
    ((setKyIntegral ext s points end_).raises Exn.ValueException ∧
      (setKyIntegral ext s points end_).state = s) ∧
    ((setKyIntegralSym ext s points end_).raises Exn.ValueException ∧
      (setKyIntegralSym ext s points end_).state = s) := by
  simp [setKxIntegral, setKxIntegralSym, setKyIntegral, setKyIntegralSym, h, Outcome.raises]

/-- Witness of `setKIntegral_few_points`: one point on the planar example. -/
theorem setKIntegral_few_points_witness :
    (setKxIntegral (demoExt 1) (demoSim 1) 1 1).raises Exn.ValueException ∧
    (setKxIntegral (demoExt 1) (demoSim 1) 1 1).state = demoSim 1 :=
  (setKIntegral_few_points (demoExt 1) (demoSim 1) 1 1 (by decide)).1

/-- C20 as stated fails: with one point on the planar example none of the four setters
raises a range error. -/
theorem setKIntegral_few_points_counterexample :
    ¬ (setKxIntegral (demoExt 1) (demoSim 1) 1 1).raises Exn.RangeException ∧
    ¬ (setKxIntegralSym (demoExt 1) (demoSim 1) 1 1).raises Exn.RangeException ∧
    ¬ (setKyIntegral (demoExt 1) (demoSim 1) 1 1).raises Exn.RangeException ∧
    ¬ (setKyIntegralSym (demoExt 1) (demoSim 1) 1 1).raises Exn.RangeException := by
  decide

/-! ## Integration bounds and `initSimulation` without a lattice -/

/-- When no source layer lies above the probe layer, `initSimulation` raises a value error
for an unset lattice vector. -/
theorem initSimulation_lattice_check (ext : Ext K n) (s : Simulation K n)
    (hall : ∀ (j : Nat) (l : Layer K), s.structure_[j]? = some l → l.isSource = true →
      (j : Int) ≤ s.targetLayer_)
    (hlat : (s.dim_ ≠ DIMENSION.NO_ ∧ s.reciprocalLattice_.bx.1 = 0) ∨
      (s.dim_ = DIMENSION.TWO_ ∧ s.reciprocalLattice_.by_.2 = 0)) :
    (initSimulation ext s).raises Exn.ValueException := by
  unfold initSimulation
  simp only []
  generalize hs1 : ({ resetSimulation s with
      Gx_mat_ := _, Gy_mat_ := _, numOfOmega_ := _, omegaList_ := _, EMatrices_ := _,
      grandImaginaryMatrices_ := _, eps_zz_Inv_Matrices_ := _, thicknessListVec_ := _,
      sourceList_ := _ } : Simulation K n) = s1
  have hstruct : s1.structure_ = s.structure_ := by subst hs1; rfl
  have hrs : (resetSimulation s).structure_ = s.structure_ := rfl
  simp only [hrs]
  have htarget : s1.targetLayer_ = s.targetLayer_ := by subst hs1; rfl
  have hdim : s1.dim_ = s.dim_ := by subst hs1; rfl
  have hrec : s1.reciprocalLattice_ = s.reciprocalLattice_ := by subst hs1; rfl
  have hsl : s1.sourceList_.length = s.structure_.length := by subst hs1; simp [resetSimulation]
  obtain ⟨_, _, _, _, _, _, _, h8⟩ := initLayers_spec ext s1.structure_ 0 s1 (by omega)
    (by rw [hsl, hstruct]; omega)
  rw [hstruct, htarget] at h8
  simp only [zero_add] at h8
  have hr := h8 hall
  have hframe := initLayers_frame ext s.structure_ 0 s1
  rcases ho : initLayers ext s.structure_ 0 s1 with ⟨r, st⟩
  rw [ho] at hr hframe
  cases r with
  | error e => simp [Outcome.returns] at hr
  | ok u =>
    simp only at hframe
    have hd : st.dim_ = s.dim_ := by rw [hframe]; exact hdim
    have hl : st.reciprocalLattice_ = s.reciprocalLattice_ := by rw [hframe]; exact hrec
    simp only [hd, hl]
    rcases hlat with h1 | h2
    · rw [if_pos h1]
      simp [Outcome.raises]
    · split_ifs <;> simp [Outcome.raises]

/-- C21, amended: with `points ≥ 2` and every `end`, `setKxIntegral` and `setKxIntegralSym`
raise a value error on a periodic simulation whose reciprocal vector `bx` is unset, and
`setKyIntegral` and `setKyIntegralSym` on a two-dimensional simulation whose reciprocal
vector `by` is unset; `initSimulation` on a structure with at least one layer raises the
same error in both situations when no source layer lies above the probe layer. -/
theorem lattice_not_set (ext : Ext K n) (s : Simulation K n) (points : Int) (end_ : K)
    (hp : 2 ≤ points) :
    (s.dim_ ≠ DIMENSION.NO_ → s.reciprocalLattice_.bx.1 = 0 →
      (setKxIntegral ext s points end_).raises Exn.ValueException ∧
      (setKxIntegralSym ext s points end_).raises Exn.ValueException) ∧
    (s.dim_ = DIMENSION.TWO_ → s.reciprocalLattice_.by_.2 = 0 →
      (setKyIntegral ext s points end_).raises Exn.ValueException ∧
      (setKyIntegralSym ext s points end_).raises Exn.ValueException) ∧
    ((s.dim_ ≠ DIMENSION.NO_ ∧ s.reciprocalLattice_.bx.1 = 0) ∨
        (s.dim_ = DIMENSION.TWO_ ∧ s.reciprocalLattice_.by_.2 = 0) →
      1 ≤ s.structure_.length →
      (∀ (j : Nat) (l : Layer K), s.structure_[j]? = some l → l.isSource = true →
        (j : Int) ≤ s.targetLayer_) →
      (initSimulation ext s).raises Exn.ValueException) := by
  have hnp : ¬ points < 2 := by omega
  refine ⟨fun hd hb => ?_, fun hd hb => ?_, fun hlat _ hall => ?_⟩
  · simp [setKxIntegral, setKxIntegralSym, hnp, hd, hb, Outcome.raises]
  · simp [setKyIntegral, setKyIntegralSym, hnp, hd, hb, Outcome.raises]
  · exact initSimulation_lattice_check ext s hall hlat

/-- Witness of `lattice_not_set`: the example stack as a grating simulation without
lattice, with the probe on top. -/
theorem lattice_not_set_witness :
    (setKxIntegral (demoExt 1) { demoStack 1 2 with dim_ := DIMENSION.ONE_ } 2 1).raises
      Exn.ValueException ∧
    (initSimulation (demoExt 1) { demoStack 1 2 with dim_ := DIMENSION.ONE_ }).raises
      Exn.ValueException := by
  have h := lattice_not_set (demoExt 1) { demoStack 1 2 with dim_ := DIMENSION.ONE_ } 2 1
    (by decide)
  refine ⟨(h.1 (by decide) rfl).1, h.2.2 (Or.inl ⟨by decide, rfl⟩) (by decide) ?_⟩
  intro j l hj _
  have hlt : j < 3 := by
    rcases Nat.lt_or_ge j 3 with h3 | h3
    · exact h3
    · have hnone : (demoStack 1 2).structure_[j]? = none := List.getElem?_eq_none h3
      have hj2 : (demoStack 1 2).structure_[j]? = some l := hj
      rw [hnone] at hj2
      cases hj2
  show (j : Int) ≤ 2
  omega

/-- C21 as stated fails: on the grating example without lattice whose source layer lies
above the probe layer, `initSimulation` raises the range error of the probe check, not a
value error. -/
theorem lattice_not_set_counterexample :
    demoNoLattice.dim_ = DIMENSION.ONE_ ∧ demoNoLattice.reciprocalLattice_.bx.1 = 0 ∧
    (initSimulation (demoExt 1) demoNoLattice).raises Exn.RangeException ∧
    ¬ (initSimulation (demoExt 1) demoNoLattice).raises Exn.ValueException := by
  decide

/-! ## The thread count -/

/-- C22: for `thread ≤ 0`, `setThread` raises a range error and leaves the object, with
the stored thread count, as it was; for `thread ≥ 1` and OpenMP compiled in, it returns
and stores `min(thread, omp_get_max_threads())`, which exceeds neither the requested
count nor the hardware maximum and is at least `1` when the hardware maximum is. -/
theorem setThread_count {F : Type} {m : Nat} (maxThreads : Int) (s : Simulation F m)
    (thread : Int) :
    (thread ≤ 0 → ∀ openMP : Bool,
      (setThread openMP maxThreads s thread).raises Exn.RangeException ∧
      (setThread openMP maxThreads s thread).state = s) ∧
    (1 ≤ thread →
      (setThread true maxThreads s thread).returns ∧
      (setThread true maxThreads s thread).state.numOfThread_ = min thread maxThreads ∧
      (setThread true maxThreads s thread).state.numOfThread_ ≤ thread ∧
      (setThread true maxThreads s thread).state.numOfThread_ ≤ maxThreads ∧
      (1 ≤ maxThreads → 1 ≤ (setThread true maxThreads s thread).state.numOfThread_)) := by
  refine ⟨fun h openMP => ?_, fun h => ?_⟩
  · simp [setThread, h, Outcome.raises]
  · have hn : ¬ thread ≤ 0 := by omega
    have hval : setThread true maxThreads s thread =
        ⟨.ok (), { s with numOfThread_ := min thread maxThreads }⟩ := by
      simp [setThread, hn]
    rw [hval]
    refine ⟨trivial, rfl, min_le_left _ _, min_le_right _ _, fun hm => le_min h hm⟩

/-- Witness of `setThread_count`: with eight hardware threads, `setThread(0)` is rejected
and `setThread(12)` stores `8`. -/
theorem setThread_count_witness :
    (setThread true 8 (demoSim 1) 0).raises Exn.RangeException ∧
    (setThread true 8 (demoSim 1) 12).state.numOfThread_ = min 12 8 ∧
    1 ≤ (setThread true 8 (demoSim 1) 12).state.numOfThread_ :=
  ⟨((setThread_count 8 (demoSim 1) 0).1 (by decide) true).1,
    ((setThread_count 8 (demoSim 1) 12).2 (by decide)).2.1,
    ((setThread_count 8 (demoSim 1) 12).2 (by decide)).2.2.2.2 (by decide)⟩

/-! ## The off-diagonal imaginary parts of the background -/

/-- The coefficient `(a - conj(b)) / 2.0 / IMAG_I` as the code computes it is
`(a - conj(b)) / (2i)`, with real part `(Im a + Im b) / 2` and imaginary part
`-(Re a - Re b) / 2`. -/
theorem offdiag_coefficient (a b : dcomplex K) :
    dcomplex.cdiv (dcomplex.divReal (a - ⟨b.re, -b.im⟩) 2) dcomplex.IMAG_I =
      dcomplex.cdiv (a - dcomplex.conj b) ⟨0, 2⟩ ∧
    dcomplex.cdiv (a - dcomplex.conj b) ⟨0, 2⟩ =
      ⟨(a.im + b.im) / 2, -((a.re - b.re) / 2)⟩ := by
  constructor
  · apply dcomplex.ext
    · show ((a.re - b.re) / 2 * 0 + (a.im - -b.im) / 2 * 1) / (0 * 0 + 1 * 1) =
        ((a.re - b.re) * 0 + (a.im - -b.im) * 2) / (0 * 0 + 2 * 2)
      field_simp
      ring
    · show ((a.im - -b.im) / 2 * 0 - (a.re - b.re) / 2 * 1) / (0 * 0 + 1 * 1) =
        ((a.im - -b.im) * 0 - (a.re - b.re) * 2) / (0 * 0 + 2 * 2)
      field_simp
      ring
  · apply dcomplex.ext
    · show ((a.re - b.re) * 0 + (a.im - -b.im) * 2) / (0 * 0 + 2 * 2) = (a.im + b.im) / 2
      field_simp
      ring
    · show ((a.im - -b.im) * 0 - (a.re - b.re) * 2) / (0 * 0 + 2 * 2) = -((a.re - b.re) / 2)
      field_simp
      ring

/-- The coefficient of the code, on components. -/
theorem offdiag_code (a1 a2 b1 b2 : K) :
    dcomplex.cdiv (dcomplex.divReal ((⟨a1, a2⟩ : dcomplex K) - ⟨b1, -b2⟩) 2) dcomplex.IMAG_I =
      dcomplex.cdiv ((⟨a1, a2⟩ : dcomplex K) - dcomplex.conj ⟨b1, b2⟩) ⟨0, 2⟩ :=
  (offdiag_coefficient ⟨a1, a2⟩ ⟨b1, b2⟩).1

/-- C23: in a layer flagged anisotropic, with `a` and `b` the components `eps_xy` and
`eps_yx` of the canonical background tensor, the background adds
`((a - conj(b)) / (2i)) I` to `im_eps_xy` and `((b - conj(a)) / (2i)) I` to `im_eps_yx`;
the two coefficients are complex conjugates of each other, and for `a = b` each is the
real number `Im(a)`. -/
theorem background_offdiag_imaginary (ext : Ext K n) (registry : List (String × Material K))
    (Gx_mat Gy_mat : RCWArMatrix K) (area : K) (omegaIndex : Int) (layer : Layer K)
    (hflag : layer.hasTensor = true) :
    (buildLayer ext registry Gx_mat Gy_mat area omegaIndex layer).1.im_eps_xy =
      (applyPatterns ext registry Gx_mat Gy_mat area omegaIndex layer
        (epsBGTensor ext registry omegaIndex layer) layer.patterns 0
        FourierMatrices.zeros).im_eps_xy +
      dcomplex.cdiv
        ((⟨epsBGTensor ext registry omegaIndex layer 2,
            epsBGTensor ext registry omegaIndex layer 3⟩ : dcomplex K) -
          dcomplex.conj ⟨epsBGTensor ext registry omegaIndex layer 4,
            epsBGTensor ext registry omegaIndex layer 5⟩) ⟨0, 2⟩ • (1 : RCWAcMatrix K n) ∧
    (buildLayer ext registry Gx_mat Gy_mat area omegaIndex layer).1.im_eps_yx =
      (applyPatterns ext registry Gx_mat Gy_mat area omegaIndex layer
        (epsBGTensor ext registry omegaIndex layer) layer.patterns 0
        FourierMatrices.zeros).im_eps_yx +
      dcomplex.cdiv
        ((⟨epsBGTensor ext registry omegaIndex layer 4,
            epsBGTensor ext registry omegaIndex layer 5⟩ : dcomplex K) -
          dcomplex.conj ⟨epsBGTensor ext registry omegaIndex layer 2,
            epsBGTensor ext registry omegaIndex layer 3⟩) ⟨0, 2⟩ • (1 : RCWAcMatrix K n) ∧
    (∀ a b : dcomplex K,
      dcomplex.cdiv (b - dcomplex.conj a) ⟨0, 2⟩ =
        dcomplex.conj (dcomplex.cdiv (a - dcomplex.conj b) ⟨0, 2⟩) ∧
      (a = b → dcomplex.cdiv (a - dcomplex.conj b) ⟨0, 2⟩ = dcomplex.ofReal a.im ∧
        dcomplex.cdiv (b - dcomplex.conj a) ⟨0, 2⟩ = dcomplex.ofReal a.im)) := by
  have hflag2 : layer.hasTensor = true := hflag
  refine ⟨?_, ?_, fun a b => ⟨?_, fun hab => ?_⟩⟩
  · rw [← offdiag_code]
    simp only [buildLayer, hflag2, if_true]
  · rw [← offdiag_code]
    simp only [buildLayer, hflag2, if_true]
  · rw [(offdiag_coefficient a b).2, (offdiag_coefficient b a).2]
    apply dcomplex.ext
    · show (b.im + a.im) / 2 = (a.im + b.im) / 2
      ring
    · show -((b.re - a.re) / 2) = - -((a.re - b.re) / 2)
      ring
  · subst hab
    rw [(offdiag_coefficient a a).2]
    have h : (⟨(a.im + a.im) / 2, -((a.re - a.re) / 2)⟩ : dcomplex K) = dcomplex.ofReal a.im := by
      apply dcomplex.ext
      · show (a.im + a.im) / 2 = a.im
        ring
      · show -((a.re - a.re) / 2) = 0
        ring
    exact ⟨h, h⟩

/-- Witness of `background_offdiag_imaginary`: the anisotropic example layer, whose
background tensor has all components `1`, gets `im_eps_xy = (1 / 1) I`. -/
theorem background_offdiag_imaginary_witness :
    (buildLayer (demoExt 1) (demoAniso EPSTYPE.TENSOR_ EPSTYPE.TENSOR_ true).materialInstanceMap_
      [] [] 1 0
      { name := "L", backGround := "A", thickness := 1, isSource := false, hasTensor_ := true,
        patterns := [], materials := [] }).1.im_eps_xy =
    (0 : RCWAcMatrix ℚ 1) +
      dcomplex.cdiv ((⟨1, 1⟩ : dcomplex ℚ) - dcomplex.conj ⟨1, 1⟩) ⟨0, 2⟩ •
        (1 : RCWAcMatrix ℚ 1) :=
  (background_offdiag_imaginary (demoExt 1)
    (demoAniso EPSTYPE.TENSOR_ EPSTYPE.TENSOR_ true).materialInstanceMap_ [] [] 1 0
    { name := "L", backGround := "A", thickness := 1, isSource := false, hasTensor_ := true,
      patterns := [], materials := [] } rfl).1

/-! ## The embedding tensor of a pattern -/

/-- One iteration of the pattern loop is the shape dispatch on the embedding tensor of the
pattern and the sample and type of the material at the position of the pattern. -/
theorem applyPattern_eq_dispatch (ext : Ext K n) (registry : List (String × Material K))
    (Gx_mat Gy_mat : RCWArMatrix K) (area : K) (omegaIndex : Int) (layer : Layer K)
    (t : EpsilonVal K) (acc : FourierMatrices K n) (k : Nat) (pattern : Pattern K) :
    applyPattern ext registry Gx_mat Gy_mat area omegaIndex layer t acc k pattern =
      dispatchShape ext Gx_mat Gy_mat area layer.hasTensor acc pattern
        (epsParentTensor ext registry omegaIndex layer t pattern)
        ((derefMaterial registry (layer.materials.getD k "")).getEpsilonAtIndex omegaIndex)
        (derefMaterial registry (layer.materials.getD k "")).type_ := by
  unfold applyPattern dispatchShape
  cases pattern.type_ <;> rfl

/-- The pattern loop hands the pattern at list position `j` to the iteration with
`count = start + j`. -/
theorem applyPatterns_eq_foldl (ext : Ext K n) (registry : List (String × Material K))
    (Gx_mat Gy_mat : RCWArMatrix K) (area : K) (omegaIndex : Int) (layer : Layer K)
    (t : EpsilonVal K) (patterns : List (Pattern K)) :
    ∀ (count : Nat) (acc : FourierMatrices K n),
      applyPatterns ext registry Gx_mat Gy_mat area omegaIndex layer t patterns count acc =
        (patterns.foldl
          (fun (st : Nat × FourierMatrices K n) p =>
            (st.1 + 1,
              applyPattern ext registry Gx_mat Gy_mat area omegaIndex layer t st.2 st.1 p))
          (count, acc)).2 := by
  induction patterns with
  | nil => intro count acc; rfl
  | cons p rest ih =>
    intro count acc
    rw [applyPatterns, ih]
    rfl

/-- C24: in the pattern loop of `buildRCWAMatrices` for a layer at a frequency index, the
iteration for the pattern at position `k` calls the shape factoriser with an embedding
tensor that is the canonical tensor of the background material of the layer at that
frequency when `parent = -1`, and the canonical tensor of the inclusion material at
position `parent` of the layer when `parent ≥ 0`; the tensor is the same for every value
of the Fourier matrices accumulated so far; the inclusion material passed is the `k`-th
material of the layer; and the loop runs these iterations over the ordered pattern list,
counting positions from `0`. -/
theorem pattern_embedding_tensor (ext : Ext K n) (registry : List (String × Material K))
    (Gx_mat Gy_mat : RCWArMatrix K) (area : K) (omegaIndex : Int) (layer : Layer K)
    (k : Nat) (pattern : Pattern K) :
    (pattern.parent = -1 → ∀ acc : FourierMatrices K n,
      applyPattern ext registry Gx_mat Gy_mat area omegaIndex layer
          (epsBGTensor ext registry omegaIndex layer) acc k pattern =
        dispatchShape ext Gx_mat Gy_mat area layer.hasTensor acc pattern
          (ext.toTensor ((derefMaterial registry layer.backGround).getEpsilonAtIndex omegaIndex)
            (derefMaterial registry layer.backGround).type_)
          ((derefMaterial registry (layer.materials.getD k "")).getEpsilonAtIndex omegaIndex)
          (derefMaterial registry (layer.materials.getD k "")).type_) ∧
    (∀ j : Nat, pattern.parent = (j : Int) → ∀ acc : FourierMatrices K n,
      applyPattern ext registry Gx_mat Gy_mat area omegaIndex layer
          (epsBGTensor ext registry omegaIndex layer) acc k pattern =
        dispatchShape ext Gx_mat Gy_mat area layer.hasTensor acc pattern
          (ext.toTensor
            ((derefMaterial registry (layer.materials.getD j "")).getEpsilonAtIndex omegaIndex)
            (derefMaterial registry (layer.materials.getD j "")).type_)
          ((derefMaterial registry (layer.materials.getD k "")).getEpsilonAtIndex omegaIndex)
          (derefMaterial registry (layer.materials.getD k "")).type_) ∧
    (buildLayer ext registry Gx_mat Gy_mat area omegaIndex layer).1.eps_xx =
      (layer.patterns.foldl
        (fun (st : Nat × FourierMatrices K n) p =>
          (st.1 + 1,
            applyPattern ext registry Gx_mat Gy_mat area omegaIndex layer
              (epsBGTensor ext registry omegaIndex layer) st.2 st.1 p))
        (0, FourierMatrices.zeros)).2.eps_xx +
      (⟨epsBGTensor ext registry omegaIndex layer 0,
        epsBGTensor ext registry omegaIndex layer 1⟩ : dcomplex K) • (1 : RCWAcMatrix K n) := by
  refine ⟨fun hp acc => ?_, fun j hj acc => ?_, ?_⟩
  · rw [applyPattern_eq_dispatch]
    simp only [epsParentTensor, hp, if_true]
    rfl
  · rw [applyPattern_eq_dispatch]
    have hne : ¬ pattern.parent = -1 := by omega
    have hp : epsParentTensor ext registry omegaIndex layer
        (epsBGTensor ext registry omegaIndex layer) pattern =
        ext.toTensor
          ((derefMaterial registry (layer.materials.getD j "")).getEpsilonAtIndex omegaIndex)
          (derefMaterial registry (layer.materials.getD j "")).type_ := by
      unfold epsParentTensor
      rw [if_neg hne, hj, readAt_ofNat]
    rw [hp]
  · rw [← applyPatterns_eq_foldl]
    by_cases hflag : layer.hasTensor = true
    · simp only [buildLayer, hflag, if_true]
    · simp only [buildLayer, hflag, if_false]
      rfl

/-- Witness of `pattern_embedding_tensor`: the circle of the anisotropic example layer,
embedded in the background. -/
theorem pattern_embedding_tensor_witness :
    applyPattern (demoExt 1) demoAnisoC.materialInstanceMap_ [] [] 1 0
        demoCircleLayer
        (epsBGTensor (demoExt 1) demoAnisoC.materialInstanceMap_ 0
          demoCircleLayer)
        FourierMatrices.zeros 0
        { type_ := PATTERN.CIRCLE_, arg1_ := (0, 1), arg2_ := (0, 0), angle_ := 0, parent := -1,
          edgeList_ := [] } =
      dispatchShape (demoExt 1) [] [] 1 demoCircleLayer.hasTensor
        FourierMatrices.zeros
        { type_ := PATTERN.CIRCLE_, arg1_ := (0, 1), arg2_ := (0, 0), angle_ := 0, parent := -1,
          edgeList_ := [] }
        ((demoExt 1).toTensor
          ((derefMaterial demoAnisoC.materialInstanceMap_
            demoCircleLayer.backGround).getEpsilonAtIndex 0)
          (derefMaterial demoAnisoC.materialInstanceMap_
            demoCircleLayer.backGround).type_)
        ((derefMaterial demoAnisoC.materialInstanceMap_
          (demoCircleLayer.materials.getD 0 "")).getEpsilonAtIndex 0)
        (derefMaterial demoAnisoC.materialInstanceMap_
          (demoCircleLayer.materials.getD 0 "")).type_ :=
  (pattern_embedding_tensor (demoExt 1) demoAnisoC.materialInstanceMap_ [] [] 1 0
    demoCircleLayer 0
    { type_ := PATTERN.CIRCLE_, arg1_ := (0, 1), arg2_ := (0, 0), angle_ := 0, parent := -1,
      edgeList_ := [] }).1 rfl FourierMatrices.zeros

/-! ## Cache rebuilds of the chunked strategy -/

/-- Counting the distinct values of a sequence whose first value is its least, apart from
a value `c` at or below the first: the first value counts unless it is `c`, and the rest
is counted apart from the first value. -/
theorem card_image_erase_succ (f : Nat → Int) (k : Nat) (c : Int) (hc : c ≤ f 0)
    (hmono : ∀ j, f 0 ≤ f j) :
    (((Finset.range (k + 1)).image f).erase c).card =
      (if c ≠ f 0 then 1 else 0) +
        (((Finset.range k).image (fun j => f (j + 1))).erase (f 0)).card := by
  have hA : (Finset.range (k + 1)).image f =
      insert (f 0) ((Finset.range k).image (fun j => f (j + 1))) := by
    ext x
    simp only [Finset.mem_image, Finset.mem_range, Finset.mem_insert]
    constructor
    · rintro ⟨j, hj, rfl⟩
      cases j with
      | zero => exact Or.inl rfl
      | succ j => exact Or.inr ⟨j, by omega, rfl⟩
    · rintro (rfl | ⟨j, hj, rfl⟩)
      · exact ⟨0, by omega, rfl⟩
      · exact ⟨j + 1, by omega, rfl⟩
  rw [hA]
  by_cases h : c = f 0
  · subst h
    simp
  · have hlt : c < f 0 := lt_of_le_of_ne hc h
    have hnot : c ∉ insert (f 0) ((Finset.range k).image (fun j => f (j + 1))) := by
      simp only [Finset.mem_insert, Finset.mem_image, Finset.mem_range, not_or, not_exists,
        not_and]
      refine ⟨h, fun j _ hj => ?_⟩
      have := hmono (j + 1)
      omega
    rw [Finset.erase_eq_of_not_mem hnot, if_pos h]
    by_cases hm : f 0 ∈ (Finset.range k).image (fun j => f (j + 1))
    · rw [Finset.insert_eq_of_mem hm, ← Finset.card_erase_add_one hm]
      omega
    · rw [Finset.card_insert_of_not_mem hm, Finset.erase_eq_of_not_mem hm]
      omega

/-- The evaluator on a state whose cached index is the requested one: no rebuild, the flux
kernel on the cache at hand, one more evaluation counted. -/
theorem getPhiAtKxKy_withCache (ext : Ext K n) (s : Simulation K n) (w : Int)
    (E G : List (RCWAcDynMatrix K)) (Z : List (Option (RCWAcMatrix K n))) (b f : Nat)
    (kx ky : K) (hw : ¬ w ≥ s.numOfOmega_) :
    getPhiAtKxKy ext (withCache s w E G Z b f) w kx ky =
      ⟨.ok (phiAtKxKyValue ext (withCache s w E G Z b f) w kx ky),
        withCache s w E G Z b (f + 1)⟩ := by
  have hw2 : ¬ w ≥ (withCache s w E G Z b f).numOfOmega_ := hw
  unfold getPhiAtKxKy
  rw [if_neg hw2]
  simp only []
  rw [refreshCache_eq_self ext (withCache s w E G Z b f) w rfl]
  rfl

/-- One iteration of the chunked loop on a reachable state: the cache is refreshed to the
frequency index of the flat index, rebuilding it when the cached index differs, the flux
kernel is evaluated on that cache, and the value is stored at the flat index. -/
theorem chunkBody_step (ext : Ext K n) (s t : Simulation K n) (arr : Int → K) (i : Int)
    (hnk : 0 < s.numOfKx_ * s.numOfKy_) (hi0 : 0 ≤ i)
    (hi1 : i < s.numOfOmega_ * (s.numOfKx_ * s.numOfKy_)) (h : Reach ext s t) :
    ∃ (b f : Nat),
      refreshCache ext t (i.tdiv (s.numOfKx_ * s.numOfKy_)) =
        withCache s (i.tdiv (s.numOfKx_ * s.numOfKy_))
          (cacheAt ext s (i.tdiv (s.numOfKx_ * s.numOfKy_))).EMatrices_
          (cacheAt ext s (i.tdiv (s.numOfKx_ * s.numOfKy_))).grandImaginaryMatrices_
          (cacheAt ext s (i.tdiv (s.numOfKx_ * s.numOfKy_))).eps_zz_Inv_Matrices_ b f ∧
      b = t.buildCount_ +
        (if t.curOmegaIndex_ ≠ i.tdiv (s.numOfKx_ * s.numOfKy_) then 1 else 0) ∧
      f = t.fluxCount_ ∧
      chunkBody ext i (t, arr) =
        ⟨.ok (), (withCache s (i.tdiv (s.numOfKx_ * s.numOfKy_))
          (cacheAt ext s (i.tdiv (s.numOfKx_ * s.numOfKy_))).EMatrices_
          (cacheAt ext s (i.tdiv (s.numOfKx_ * s.numOfKy_))).grandImaginaryMatrices_
          (cacheAt ext s (i.tdiv (s.numOfKx_ * s.numOfKy_))).eps_zz_Inv_Matrices_ b (f + 1),
          Function.update arr i (flatFlux ext s i))⟩ := by
  obtain ⟨hkx, hky, _, _, _, _, _⟩ := Reach.frame ext s t h
  obtain ⟨hw0, hw1⟩ := tdiv_bounds i _ _ hi0 hnk hi1
  obtain ⟨b, f, hr, hf, _⟩ := Reach.refresh ext s t (i.tdiv (s.numOfKx_ * s.numOfKy_)) hw0 h
  have hb : b = t.buildCount_ +
      (if t.curOmegaIndex_ ≠ i.tdiv (s.numOfKx_ * s.numOfKy_) then 1 else 0) := by
    have h5 := (refreshCache_frame ext t (i.tdiv (s.numOfKx_ * s.numOfKy_))).2.2.2.2
    rw [hr] at h5
    exact h5
  refine ⟨b, f, hr, hb, hf, ?_⟩
  have hge : ¬ i.tdiv (s.numOfKx_ * s.numOfKy_) ≥ s.numOfOmega_ := by omega
  simp only [chunkBody, hkx, hky, hr]
  rw [getPhiAtKxKy_withCache ext s _ _ _ _ b f _ _ hge]
  rfl

/-- The chunked loop on a reachable state whose cached index is at most the frequency
index of the first flat index: it rebuilds the cache once for every distinct frequency
index of the chunk other than the cached one, and evaluates the flux kernel once per flat
index. -/
theorem chunkLoop_builds (ext : Ext K n) (s : Simulation K n)
    (hnk : 0 < s.numOfKx_ * s.numOfKy_) :
    ∀ (count : Nat) (start : Int) (t : Simulation K n) (arr : Int → K),
      0 ≤ start → start + count ≤ s.numOfOmega_ * (s.numOfKx_ * s.numOfKy_) →
      Reach ext s t → t.curOmegaIndex_ ≤ start.tdiv (s.numOfKx_ * s.numOfKy_) →
      (forLoop (chunkBody ext) count start (t, arr)).state.1.buildCount_ =
        t.buildCount_ +
          (((Finset.range count).image
            (fun k : Nat => (start + (k : Int)).tdiv (s.numOfKx_ * s.numOfKy_))).erase
              t.curOmegaIndex_).card ∧
      (forLoop (chunkBody ext) count start (t, arr)).state.1.fluxCount_ =
        t.fluxCount_ + count := by
  intro count
  induction count with
  | zero =>
    intro start t arr _ _ _ _
    simp [forLoop]
  | succ k ih =>
    intro start t arr h0 hle h hcur
    have hlt : start < s.numOfOmega_ * (s.numOfKx_ * s.numOfKy_) := by
      push_cast at hle
      omega
    obtain ⟨b, f, hr, hb, hf, hbody⟩ := chunkBody_step ext s t arr start hnk h0 hlt h
    obtain ⟨hw0, _⟩ := tdiv_bounds start _ _ h0 hnk hlt
    have hreach : Reach ext s (withCache s (start.tdiv (s.numOfKx_ * s.numOfKy_))
        (cacheAt ext s (start.tdiv (s.numOfKx_ * s.numOfKy_))).EMatrices_
        (cacheAt ext s (start.tdiv (s.numOfKx_ * s.numOfKy_))).grandImaginaryMatrices_
        (cacheAt ext s (start.tdiv (s.numOfKx_ * s.numOfKy_))).eps_zz_Inv_Matrices_
        b (f + 1)) := by
      obtain ⟨_, _, hr2, _, hreach2⟩ :=
        Reach.refresh ext s t (start.tdiv (s.numOfKx_ * s.numOfKy_)) hw0 h
      have := Reach.bump ext s _ hreach2
      rw [hr] at this
      exact this
    have hdivmono : ∀ j : Nat, start.tdiv (s.numOfKx_ * s.numOfKy_) ≤
        (start + (j : Int)).tdiv (s.numOfKx_ * s.numOfKy_) := by
      intro j
      rw [Int.tdiv_eq_ediv h0 (le_of_lt hnk), Int.tdiv_eq_ediv (by omega) (le_of_lt hnk)]
      exact Int.ediv_le_ediv hnk (by omega)
    obtain ⟨ih1, ih2⟩ := ih (start + 1) _ (Function.update arr start (flatFlux ext s start))
      (by omega) (by push_cast at hle; omega) hreach
      (by
        show start.tdiv (s.numOfKx_ * s.numOfKy_) ≤ (start + 1).tdiv (s.numOfKx_ * s.numOfKy_)
        have := hdivmono 1
        simpa using this)
    have hloop : forLoop (chunkBody ext) (k + 1) start (t, arr) =
        forLoop (chunkBody ext) k (start + 1)
          (withCache s (start.tdiv (s.numOfKx_ * s.numOfKy_))
            (cacheAt ext s (start.tdiv (s.numOfKx_ * s.numOfKy_))).EMatrices_
            (cacheAt ext s (start.tdiv (s.numOfKx_ * s.numOfKy_))).grandImaginaryMatrices_
            (cacheAt ext s (start.tdiv (s.numOfKx_ * s.numOfKy_))).eps_zz_Inv_Matrices_
            b (f + 1), Function.update arr start (flatFlux ext s start)) := by
      rw [forLoop, hbody]
    rw [hloop, ih1, ih2]
    constructor
    · have hcard := card_image_erase_succ
        (fun j : Nat => (start + (j : Int)).tdiv (s.numOfKx_ * s.numOfKy_)) k
        t.curOmegaIndex_ (by simpa using hcur) (fun j => by simpa using hdivmono j)
      simp only [Nat.cast_zero, add_zero, Nat.cast_add, Nat.cast_one] at hcard
      rw [hcard]
      have himg : (Finset.range k).image
          (fun j : Nat => (start + 1 + (j : Int)).tdiv (s.numOfKx_ * s.numOfKy_)) =
          (Finset.range k).image
            (fun j : Nat => (start + ((j : Int) + 1)).tdiv (s.numOfKx_ * s.numOfKy_)) := by
        apply Finset.image_congr
        intro j _
        show (start + 1 + (j : Int)).tdiv _ = (start + ((j : Int) + 1)).tdiv _
        congr 1
        ring
      show b + _ = _
      rw [himg, hb]
      show _ + (((Finset.range k).image _).erase
        (start.tdiv (s.numOfKx_ * s.numOfKy_))).card = _
      omega
    · show f + 1 + k = t.fluxCount_ + (k + 1)
      omega

/-- A counted loop whose first `a` iterations return continues with the remaining
iterations from the state they leave. -/
theorem forLoop_split {σ : Type} (body : Int → σ → Outcome σ Unit) (b : Nat) :
    ∀ (a : Nat) (i : Int) (st st1 : σ), forLoop body a i st = ⟨.ok (), st1⟩ →
      forLoop body (a + b) i st = forLoop body b (i + (a : Int)) st1 := by
  intro a
  induction a with
  | zero =>
    intro i st st1 h
    have hst : st = st1 := by
      simp only [forLoop] at h
      exact (Outcome.mk.injEq _ _ _ _ ▸ h).2
    simp [hst]
  | succ a ih =>
    intro i st st1 h
    have hadd : a + 1 + b = (a + b) + 1 := by omega
    rw [hadd]
    simp only [forLoop] at h ⊢
    rcases hb : body i st with ⟨r, st2⟩
    rw [hb] at h
    cases r with
    | error e =>
      simp only [Outcome.mk.injEq] at h
      exact absurd h.1 (by simp)
    | ok u =>
      simp only at h ⊢
      rw [ih (i + 1) st2 st1 h]
      congr 1
      push_cast
      ring

/-- The flat indices `start, .., end - 1` as the image of the loop counter. -/
theorem image_Ico_eq (g : Int → Int) (start end_ : Int) :
    (Finset.Ico start end_).image g =
      (Finset.range (end_ - start).toNat).image (fun k : Nat => g (start + (k : Int))) := by
  ext x
  simp only [Finset.mem_image, Finset.mem_Ico, Finset.mem_range]
  constructor
  · rintro ⟨i, ⟨h1, h2⟩, rfl⟩
    refine ⟨(i - start).toNat, by omega, ?_⟩
    congr 1
    omega
  · rintro ⟨k, hk, rfl⟩
    exact ⟨start + k, ⟨by omega, by omega⟩, rfl⟩

/-- C25: for a chunk `[start, end)` of flat indices, `0 ≤ start ≤ end ≤ numOfOmega_ *
numOfKx_ * numOfKy_`, processed by the chunked loop from the invalid cache
(`curOmegaIndex_ = -1`): the loop returns; the number of calls of `buildRCWAMatrices` is
the number of distinct frequency indices `i / (numOfKx_ * numOfKy_)` of the flat indices
`i` of the chunk; and for every flat index `i` of the chunk, the iteration for `i` starts
from the state left by the iterations before it, brings the cache to the matrices of the
frequency index `i / (numOfKx_ * numOfKy_)`, and stores in `resultArray[i]` the flux
kernel evaluated on that cache at the grid point with `kx` index
`(i % (numOfKx_ * numOfKy_)) / numOfKy_` and `ky` index `i % numOfKy_`. -/
theorem chunk_cache_rebuilds (ext : Ext K n) (s : Simulation K n) (start end_ : Int)
    (hkx : 0 < s.numOfKx_) (hky : 0 < s.numOfKy_) (h0 : 0 ≤ start) (hle : start ≤ end_)
    (hend : end_ ≤ s.numOfOmega_ * (s.numOfKx_ * s.numOfKy_))
    (hcur : s.curOmegaIndex_ = -1) :
    (forLoop (chunkBody ext) (end_ - start).toNat start (s, fun _ => 0)).returns ∧
    (forLoop (chunkBody ext) (end_ - start).toNat start (s, fun _ => 0)).state.1.buildCount_ =
      s.buildCount_ +
        ((Finset.Ico start end_).image
          (fun i : Int => i.tdiv (s.numOfKx_ * s.numOfKy_))).card ∧
    ∀ i : Int, start ≤ i → i < end_ →
      (forLoop (chunkBody ext) (end_ - start).toNat start (s, fun _ => 0)).state.2 i =
        fluxAt ext s (i.tdiv (s.numOfKx_ * s.numOfKy_))
          (kxAt ext s (i.tdiv (s.numOfKx_ * s.numOfKy_))
            ((i.tmod (s.numOfKx_ * s.numOfKy_)).tdiv s.numOfKy_))
          (kyAt ext s (i.tdiv (s.numOfKx_ * s.numOfKy_))
            ((i.tmod (s.numOfKx_ * s.numOfKy_)).tdiv s.numOfKy_) (i.tmod s.numOfKy_)) ∧
      ∃ (ti : Simulation K n) (arri : Int → K) (b f : Nat),
        forLoop (chunkBody ext) (i - start).toNat start (s, fun _ => 0) =
          ⟨.ok (), (ti, arri)⟩ ∧
        refreshCache ext ti (i.tdiv (s.numOfKx_ * s.numOfKy_)) =
          withCache s (i.tdiv (s.numOfKx_ * s.numOfKy_))
            (cacheAt ext s (i.tdiv (s.numOfKx_ * s.numOfKy_))).EMatrices_
            (cacheAt ext s (i.tdiv (s.numOfKx_ * s.numOfKy_))).grandImaginaryMatrices_
            (cacheAt ext s (i.tdiv (s.numOfKx_ * s.numOfKy_))).eps_zz_Inv_Matrices_ b f ∧
        chunkBody ext i (ti, arri) =
          ⟨.ok (), (withCache s (i.tdiv (s.numOfKx_ * s.numOfKy_))
            (cacheAt ext s (i.tdiv (s.numOfKx_ * s.numOfKy_))).EMatrices_
            (cacheAt ext s (i.tdiv (s.numOfKx_ * s.numOfKy_))).grandImaginaryMatrices_
            (cacheAt ext s (i.tdiv (s.numOfKx_ * s.numOfKy_))).eps_zz_Inv_Matrices_ b (f + 1),
            Function.update arri i
              (phiAtKxKyValue ext
                (withCache s (i.tdiv (s.numOfKx_ * s.numOfKy_))
                  (cacheAt ext s (i.tdiv (s.numOfKx_ * s.numOfKy_))).EMatrices_
                  (cacheAt ext s (i.tdiv (s.numOfKx_ * s.numOfKy_))).grandImaginaryMatrices_
                  (cacheAt ext s (i.tdiv (s.numOfKx_ * s.numOfKy_))).eps_zz_Inv_Matrices_ b f)
                (i.tdiv (s.numOfKx_ * s.numOfKy_))
                (kxAt ext s (i.tdiv (s.numOfKx_ * s.numOfKy_))
                  ((i.tmod (s.numOfKx_ * s.numOfKy_)).tdiv s.numOfKy_))
                (kyAt ext s (i.tdiv (s.numOfKx_ * s.numOfKy_))
                  ((i.tmod (s.numOfKx_ * s.numOfKy_)).tdiv s.numOfKy_)
                  (i.tmod s.numOfKy_))))⟩ ∧
        forLoop (chunkBody ext) (end_ - start).toNat start (s, fun _ => 0) =
          forLoop (chunkBody ext) (end_ - (i + 1)).toNat (i + 1)
            (chunkBody ext i (ti, arri)).state := by
  have hnk : 0 < s.numOfKx_ * s.numOfKy_ := mul_pos hkx hky
  have hc : CacheValid ext s := Or.inl (by rw [hcur]; decide)
  have hcount : start + ((end_ - start).toNat : Int) = end_ := by omega
  have hdivnn : ∀ i : Int, 0 ≤ i → 0 ≤ i.tdiv (s.numOfKx_ * s.numOfKy_) := by
    intro i hi
    rw [Int.tdiv_eq_ediv hi (le_of_lt hnk)]
    exact Int.ediv_nonneg hi (le_of_lt hnk)
  have hmod : ∀ i : Int, 0 ≤ i →
      (i.tmod (s.numOfKx_ * s.numOfKy_)).tmod s.numOfKy_ = i.tmod s.numOfKy_ := by
    intro i hi
    rw [Int.tmod_eq_emod hi (le_of_lt hnk), Int.tmod_eq_emod hi (le_of_lt hky),
      Int.tmod_eq_emod (Int.emod_nonneg _ (ne_of_gt hnk)) (le_of_lt hky)]
    exact Int.emod_emod_of_dvd i (Dvd.intro_left _ rfl)
  obtain ⟨t1, arr1, hloop, _, harr⟩ := chunkLoop_spec ext s hnk (end_ - start).toNat start s
    (fun _ => 0) h0 (by rw [hcount]; exact hend) (Reach.refl ext s hc)
  obtain ⟨hb, _⟩ := chunkLoop_builds ext s hnk (end_ - start).toNat start s (fun _ => 0) h0
    (by rw [hcount]; exact hend) (Reach.refl ext s hc)
    (by
      rw [hcur]
      have := hdivnn start h0
      omega)
  refine ⟨by rw [hloop]; trivial, ?_, fun i hi1 hi2 => ⟨?_, ?_⟩⟩
  · rw [hb, image_Ico_eq, hcur, Finset.erase_eq_of_not_mem]
    simp only [Finset.mem_image, Finset.mem_range, not_exists, not_and]
    intro k hk hcon
    have := hdivnn (start + (k : Int)) (by omega)
    omega
  · rw [hloop]
    show arr1 i = _
    rw [harr i, if_pos ⟨hi1, by omega⟩]
    unfold flatFlux
    simp only []
    rw [hmod i (by omega)]
  · have hci : start + ((i - start).toNat : Int) = i := by omega
    obtain ⟨ti, arri, hloopi, hreachi, _⟩ := chunkLoop_spec ext s hnk (i - start).toNat start s
      (fun _ => 0) h0 (by rw [hci]; omega) (Reach.refl ext s hc)
    obtain ⟨b, f, hr, _, _, hbody⟩ := chunkBody_step ext s ti arri i hnk (by omega)
      (by omega) hreachi
    refine ⟨ti, arri, b, f, hloopi, hr, ?_, ?_⟩
    · rw [hbody]
      unfold flatFlux
      simp only []
      rw [hmod i (by omega)]
      rfl
    · have hsplit : (end_ - start).toNat = (i - start).toNat + ((end_ - (i + 1)).toNat + 1) := by
        omega
      rw [hsplit, forLoop_split (chunkBody ext) _ _ _ _ _ hloopi, hci, forLoop, hbody]

/-- Witness of `chunk_cache_rebuilds`: the planar example on a grid of three `kx` points
and two `ky` points, the chunk of the flat indices `1, .., 4`. -/
theorem chunk_cache_rebuilds_witness :
    (forLoop (chunkBody (demoExt 1)) (5 - 1 : Int).toNat 1
      (demoGrid 1, fun _ => 0)).returns ∧
    (forLoop (chunkBody (demoExt 1)) (5 - 1 : Int).toNat 1
      (demoGrid 1, fun _ => 0)).state.1.buildCount_ =
      (demoGrid 1).buildCount_ +
        ((Finset.Ico (1 : Int) 5).image
          (fun i : Int => i.tdiv ((demoGrid 1).numOfKx_ * (demoGrid 1).numOfKy_))).card :=
  ⟨(chunk_cache_rebuilds (demoExt 1) (demoGrid 1) 1 5 (by decide) (by decide) (by decide)
    (by decide) (by decide) (by decide)).1,
   (chunk_cache_rebuilds (demoExt 1) (demoGrid 1) 1 5 (by decide) (by decide) (by decide)
    (by decide) (by decide) (by decide)).2.1⟩

/-! ## The layer that owns a height -/

theorem getD_nonneg (t : List K) (hnn : ∀ x ∈ t, (0 : K) ≤ x) (j : Nat) : 0 ≤ t.getD j 0 := by
  rw [List.getD_eq_getElem?_getD]
  cases hm : t[j]? with
  | none => simp
  | some x => exact hnn x (List.getElem?_mem hm)

theorem cumThickness_mono (t : List K) (hnn : ∀ x ∈ t, (0 : K) ≤ x) (i j : Nat) (h : i ≤ j) :
    cumThickness t i ≤ cumThickness t j := by
  unfold cumThickness
  apply Finset.sum_le_sum_of_subset_of_nonneg
  · exact Finset.range_mono h
  · intro m _ _
    exact getD_nonneg t hnn (m + 1)

/-- The layer search loop, started at layer `a` with `count` iterations left: either it
runs to its end, leaving `layerIdx = 0` and the offset advanced by the thicknesses of all
layers visited, with `z` not above the initial offset or above the final one; or it breaks
at the first layer `a + j` whose interval holds `z`. -/
theorem locateLoop_spec (t : List K) (z : K) :
    ∀ (count a : Nat) (offset : K),
      ((locateLoop t z count (a : Int) offset).1 = 0 ∧
        (locateLoop t z count (a : Int) offset).2 =
          offset + ∑ m ∈ Finset.range count, t.getD (m + a) 0 ∧
        (z ≤ offset ∨ (locateLoop t z count (a : Int) offset).2 < z)) ∨
      (∃ j : Nat, j < count ∧
        (locateLoop t z count (a : Int) offset).1 = ((j + a : Nat) : Int) ∧
        (locateLoop t z count (a : Int) offset).2 =
          offset + ∑ m ∈ Finset.range j, t.getD (m + a) 0 ∧
        (locateLoop t z count (a : Int) offset).2 < z ∧
        z ≤ (locateLoop t z count (a : Int) offset).2 + t.getD (j + a) 0) := by
  intro count
  induction count with
  | zero =>
    intro a offset
    left
    refine ⟨rfl, by simp [locateLoop], ?_⟩
    rcases le_or_lt z offset with h | h
    · exact Or.inl h
    · exact Or.inr h
  | succ k ih =>
    intro a offset
    by_cases hc : z > offset ∧ z ≤ offset + t.getD a 0
    · have hstep : locateLoop t z (k + 1) (a : Int) offset = ((a : Int), offset) := by
        simp only [locateLoop, readAt_ofNat]
        rw [if_pos hc]
      rw [hstep]
      right
      refine ⟨0, by omega, by simp, by simp, hc.1, ?_⟩
      simpa using hc.2
    · have hstep : locateLoop t z (k + 1) (a : Int) offset =
          locateLoop t z k ((a + 1 : Nat) : Int) (offset + t.getD a 0) := by
        simp only [locateLoop, readAt_ofNat]
        rw [if_neg hc]
        push_cast
        rfl
      rw [hstep]
      have hsum : ∀ q : Nat, ∑ m ∈ Finset.range (q + 1), t.getD (m + a) 0 =
          t.getD a 0 + ∑ m ∈ Finset.range q, t.getD (m + (a + 1)) 0 := by
        intro q
        rw [Finset.sum_range_succ', add_comm]
        congr 1
        · simp
        · apply Finset.sum_congr rfl
          intro m _
          congr 1
          omega
      rcases ih (a + 1) (offset + t.getD a 0) with ⟨h1, h2, h3⟩ | ⟨j, hj, h1, h2, h3, h4⟩
      · left
        refine ⟨h1, ?_, ?_⟩
        · rw [h2, hsum, add_assoc]
        · rcases h3 with h3 | h3
          · left
            by_contra hlt
            exact hc ⟨lt_of_not_le hlt, h3⟩
          · exact Or.inr h3
      · right
        refine ⟨j + 1, by omega, ?_, ?_, h3, ?_⟩
        · rw [h1]
          congr 1
          omega
        · rw [h2, hsum, add_assoc]
        · have he : j + 1 + a = j + (a + 1) := by omega
          rw [he]
          exact h4

/-- C26: for a thickness vector `t` with non-negative entries of a stack of `N ≥ 2`
layers and every height `z`, the layer index `layerIdx` that `getEpsilon` computes is `0`
when `z ≤ 0`; it is `i` when `1 ≤ i ≤ N - 1` and
`t[1] + ... + t[i-1] < z ≤ t[1] + ... + t[i]`, and such an `i` is unique; it is `N - 1`
when `z` exceeds the total thickness `t[1] + ... + t[N-1]`; and it always lies in
`[0, N - 1]`. -/
theorem getEpsilon_layer_index (s : Simulation K n) (z : K)
    (hN : 2 ≤ s.structure_.length) (hnn : ∀ x ∈ s.thicknessListVec_, (0 : K) ≤ x) :
    (z ≤ 0 → getEpsilonLayerIdx s z = 0) ∧
    (∀ i : Nat, 1 ≤ i → i ≤ s.structure_.length - 1 →
      cumThickness s.thicknessListVec_ (i - 1) < z → z ≤ cumThickness s.thicknessListVec_ i →
      getEpsilonLayerIdx s z = (i : Int) ∧
      ∀ k : Nat, 1 ≤ k → k ≤ s.structure_.length - 1 →
        cumThickness s.thicknessListVec_ (k - 1) < z →
        z ≤ cumThickness s.thicknessListVec_ k → k = i) ∧
    (cumThickness s.thicknessListVec_ (s.structure_.length - 1) < z →
      getEpsilonLayerIdx s z = (s.structure_.length : Int) - 1) ∧
    (0 ≤ getEpsilonLayerIdx s z ∧ getEpsilonLayerIdx s z ≤ (s.structure_.length : Int) - 1) := by
  have hmono := cumThickness_mono s.thicknessListVec_ hnn
  have hcount : (((s.structure_.length : Nat) : Int) - 1).toNat = s.structure_.length - 1 := by
    omega
  have hcum0 : cumThickness s.thicknessListVec_ 0 = 0 := by simp [cumThickness]
  have hcum : ∀ q : Nat, (0 : K) + ∑ m ∈ Finset.range q, s.thicknessListVec_.getD (m + 1) 0 =
      cumThickness s.thicknessListVec_ q := by
    intro q
    rw [zero_add]
    rfl
  have hsucc : ∀ q : Nat, cumThickness s.thicknessListVec_ q +
      s.thicknessListVec_.getD (q + 1) 0 = cumThickness s.thicknessListVec_ (q + 1) := by
    intro q
    unfold cumThickness
    rw [Finset.sum_range_succ]
  have huniq : ∀ i k : Nat, cumThickness s.thicknessListVec_ (i - 1) < z →
      z ≤ cumThickness s.thicknessListVec_ i →
      cumThickness s.thicknessListVec_ (k - 1) < z →
      z ≤ cumThickness s.thicknessListVec_ k → 1 ≤ i → 1 ≤ k → k = i := by
    intro i k hi1 hi2 hk1 hk2 h1i h1k
    rcases Nat.lt_trichotomy k i with h | h | h
    · exact absurd (lt_of_lt_of_le hi1 hk2) (not_lt.mpr (hmono k (i - 1) (by omega)))
    · exact h
    · exact absurd (lt_of_lt_of_le hk1 hi2) (not_lt.mpr (hmono i (k - 1) (by omega)))
  have hspec := locateLoop_spec s.thicknessListVec_ z (s.structure_.length - 1) 1 0
  have hdef : getEpsilonLayerIdx s z =
      if (locateLoop s.thicknessListVec_ z (s.structure_.length - 1) ((1 : Nat) : Int) 0).1 = 0 ∧
          z > (locateLoop s.thicknessListVec_ z (s.structure_.length - 1)
            ((1 : Nat) : Int) 0).2 then
        (s.structure_.length : Int) - 1
      else (locateLoop s.thicknessListVec_ z (s.structure_.length - 1)
        ((1 : Nat) : Int) 0).1 := by
    simp only [getEpsilonLayerIdx, hcount]
    rfl
  rw [hdef]
  rcases hspec with ⟨h1, h2, h3⟩ | ⟨j, hj, h1, h2, h3, h4⟩
  · rw [hcum] at h2
    rw [h1, h2]
    rw [h2] at h3
    have h0le : (0 : K) ≤ cumThickness s.thicknessListVec_ (s.structure_.length - 1) := by
      rw [← hcum0]
      exact hmono 0 _ (by omega)
    refine ⟨fun hz => ?_, fun i hi1 hi2 hz1 hz2 => ?_, fun hz => ?_, ?_⟩
    · rw [if_neg]
      intro hcon
      exact absurd (lt_of_le_of_lt h0le hcon.2) (not_lt.mpr hz)
    · exfalso
      rcases h3 with h3 | h3
      · have : (0 : K) ≤ cumThickness s.thicknessListVec_ (i - 1) := by
          rw [← hcum0]
          exact hmono 0 _ (by omega)
        exact absurd (lt_of_le_of_lt this hz1) (not_lt.mpr h3)
      · exact absurd (lt_of_lt_of_le h3 hz2) (not_lt.mpr (hmono i _ hi2))
    · rw [if_pos ⟨rfl, hz⟩]
    · split_ifs <;> omega
  · rw [hcum] at h2
    rw [h2] at h3 h4
    have hne : ¬ ((locateLoop s.thicknessListVec_ z (s.structure_.length - 1)
        ((1 : Nat) : Int) 0).1 = 0 ∧
        z > (locateLoop s.thicknessListVec_ z (s.structure_.length - 1)
          ((1 : Nat) : Int) 0).2) := by
      rw [h1]
      intro hcon
      have := hcon.1
      omega
    rw [if_neg hne, h1]
    rw [hsucc] at h4
    have hj0 : cumThickness s.thicknessListVec_ (j + 1 - 1) < z := h3
    refine ⟨fun hz => ?_, fun i hi1 hi2 hz1 hz2 => ?_, fun hz => ?_, ?_⟩
    · exfalso
      have : (0 : K) ≤ cumThickness s.thicknessListVec_ j := by
        rw [← hcum0]
        exact hmono 0 _ (by omega)
      exact absurd (lt_of_le_of_lt this h3) (not_lt.mpr hz)
    · have hji := huniq i (j + 1) hz1 hz2 hj0 h4 hi1 (by omega)
      refine ⟨by omega, fun k hk1 hk2 hk3 hk4 => huniq i k hz1 hz2 hk3 hk4 hi1 hk1⟩
    · exfalso
      exact absurd (lt_of_lt_of_le hz h4) (not_lt.mpr (hmono (j + 1) _ (by omega)))
    · omega

/-- Witness of `getEpsilon_layer_index`: the example stack of thicknesses `0, 1, 0` after
`initSimulation`, at the height `1/2`, which lies in layer `1`. -/
theorem getEpsilon_layer_index_witness :
    getEpsilonLayerIdx (initSimulation (demoExt 1) (demoStack 1 2)).state (1 / 2 : ℚ) =
      ((1 : Nat) : Int) :=
  ((getEpsilon_layer_index (initSimulation (demoExt 1) (demoStack 1 2)).state (1 / 2)
    (by decide) (by decide!)).2.1 1 (by decide) (by decide) (by decide!) (by decide!)).1

/-! ## The grid strategy adds to `Phi_` -/

/-- A reachable state with any `Phi_` has a valid cache, the grid of the start state and
the grid sum of the start state. -/
theorem Reach.setPhi (ext : Ext K n) (s t : Simulation K n) (h : Reach ext s t)
    (p : Option (List K)) :
    CacheValid ext { t with Phi_ := p } ∧
    ({ t with Phi_ := p } : Simulation K n).numOfKx_ = s.numOfKx_ ∧
    ({ t with Phi_ := p } : Simulation K n).numOfKy_ = s.numOfKy_ ∧
    ({ t with Phi_ := p } : Simulation K n).numOfOmega_ = s.numOfOmega_ ∧
    ∀ w : Int, gridSum ext { t with Phi_ := p } w = gridSum ext s w := by
  obtain ⟨c, E, G, Z, b, f, rfl, hZ, hc⟩ := h
  have hzz : ∀ w : Int,
      (cacheAt ext { withCache s c E G Z b f with Phi_ := p } w).eps_zz_Inv_Matrices_ =
        (cacheAt ext s w).eps_zz_Inv_Matrices_ := by
    intro w
    show storeFrom ((buildLayers ext { s with curOmegaIndex_ := w }).map (fun p => some p.2))
      0 Z = _
    rw [hZ _ (by simp [buildLayers])]
    rfl
  have hflux : ∀ (w : Int) (kx ky : K),
      fluxAt ext { withCache s c E G Z b f with Phi_ := p } w kx ky = fluxAt ext s w kx ky := by
    intro w kx ky
    unfold fluxAt phiAtKxKyValue
    rw [hzz w]
    rfl
  refine ⟨?_, rfl, rfl, rfl, fun w => ?_⟩
  · rcases hc with hneg | ⟨hE, hG, hZ2⟩
    · exact Or.inl hneg
    · refine Or.inr ⟨hE, hG, ?_⟩
      show Z = (cacheAt ext { withCache s c E G Z b f with Phi_ := p } c).eps_zz_Inv_Matrices_
      rw [hzz c]
      exact hZ2
  · unfold gridSum
    apply Finset.sum_congr rfl
    intro i _
    apply Finset.sum_congr rfl
    intro j _
    unfold gridFlux
    rw [hflux]
    rfl

/-- The state that `integrateKxKy` leaves: a state reached by cache refreshes and flux
evaluations, with the accumulated `Phi_`. -/
theorem integrateKxKy_state (ext : Ext K n) (s : Simulation K n)
    (hnk : 0 ≤ s.numOfKx_ * s.numOfKy_) (hω : 0 ≤ s.numOfOmega_) (hc : CacheValid ext s) :
    ∃ (t1 : Simulation K n) (p : Option (List K)), Reach ext s t1 ∧
      integrateKxKy ext s = ⟨.ok (), { t1 with Phi_ := p }⟩ := by
  obtain ⟨t1, arr1, hloop, hreach, _⟩ := gridOmegaLoop_spec ext s hnk s.numOfOmega_.toNat 0 s
    (fun _ => 0) (le_refl _) (by rw [Int.toNat_of_nonneg hω]; omega) (Reach.refl ext s hc)
  refine ⟨t1, t1.Phi_.map (accumulatePhi ext t1 arr1
    (s.numOfOmega_ * s.numOfKx_ * s.numOfKy_ - 0).toNat 0), hreach, ?_⟩
  simp only [integrateKxKy, integrateKxKyInternal, if_true, hloop]

/-- One call of `integrateKxKy` adds the grid sum to every entry of `Phi_`, and keeps the
length of `Phi_`. -/
theorem integrateKxKy_adds (ext : Ext K n) (s : Simulation K n) (phi : List K)
    (hkx : 0 < s.numOfKx_) (hky : 0 < s.numOfKy_) (hω : 0 ≤ s.numOfOmega_)
    (hphi : s.Phi_ = some phi) (hlen : (phi.length : Int) = s.numOfOmega_)
    (hc : CacheValid ext s) :
    (integrateKxKy ext s).returns ∧
    (∃ phi1 : List K, (integrateKxKy ext s).state.Phi_ = some phi1 ∧
      phi1.length = phi.length) ∧
    ∀ w : Nat, (w : Int) < s.numOfOmega_ →
      ((integrateKxKy ext s).state.Phi_.getD []).getD w 0 = phi.getD w 0 + gridSum ext s w := by
  have hnk : 0 < s.numOfKx_ * s.numOfKy_ := mul_pos hkx hky
  obtain ⟨t, ht, hphit⟩ := integrateKxKyInternal_grid ext s (le_of_lt hnk) hω hc
  refine ⟨by rw [ht]; trivial, ?_, fun w hw => ?_⟩
  · rw [ht, hphit, hphi]
    exact ⟨_, rfl, accumulatePhi_length ext s _ _ _ _⟩
  · exact (integrateKxKy_getD ext s phi hkx hky hω hphi hlen hc w hw).2

/-- C28: with the flux kernel an arbitrary function and exact arithmetic, `integrateKxKy`
adds to `Phi_`: on a state with a valid cache and at least one grid point, a call returns
and leaves `Phi_[w]` equal to its value before the call plus the value that one call
leaves in `Phi_[w]` when started from `Phi_` all zero; a second call returns too and adds
the same amount again; and after a successful `initSimulation` two consecutive calls leave
every `Phi_[w]` equal to twice the value left by a single call. -/
theorem integrateKxKy_accumulates (ext : Ext K n) (s : Simulation K n) (phi : List K)
    (hkx : 0 < s.numOfKx_) (hky : 0 < s.numOfKy_) (hω : 0 ≤ s.numOfOmega_)
    (hphi : s.Phi_ = some phi) (hlen : (phi.length : Int) = s.numOfOmega_)
    (hc : CacheValid ext s) (w : Nat) (hw : (w : Int) < s.numOfOmega_) :
    (integrateKxKy ext s).returns ∧
    ((integrateKxKy ext s).state.Phi_.getD []).getD w 0 =
      phi.getD w 0 +
        ((integrateKxKy ext
          { s with Phi_ := some (List.replicate phi.length 0) }).state.Phi_.getD []).getD w 0 ∧
    (integrateKxKy ext (integrateKxKy ext s).state).returns ∧
    ((integrateKxKy ext (integrateKxKy ext s).state).state.Phi_.getD []).getD w 0 =
      ((integrateKxKy ext s).state.Phi_.getD []).getD w 0 +
        ((integrateKxKy ext
          { s with Phi_ := some (List.replicate phi.length 0) }).state.Phi_.getD []).getD w 0 ∧
    (∀ s0 : Simulation K n, (initSimulation ext s0).returns →
      s = (initSimulation ext s0).state →
      ((integrateKxKy ext (integrateKxKy ext s).state).state.Phi_.getD []).getD w 0 =
        2 * ((integrateKxKy ext s).state.Phi_.getD []).getD w 0) := by
  have hnk : 0 < s.numOfKx_ * s.numOfKy_ := mul_pos hkx hky
  have hzero : ∀ m : Nat, (List.replicate m (0 : K)).getD w 0 = 0 := by
    intro m
    rw [List.getD_eq_getElem?_getD, List.getElem?_replicate]
    split_ifs <;> rfl
  -- the first call
  obtain ⟨hret1, ⟨phi1, hphi1, hlen1⟩, hadd1⟩ :=
    integrateKxKy_adds ext s phi hkx hky hω hphi hlen hc
  -- the call from `Phi_` all zero
  obtain ⟨hcz, hkxz, hkyz, hωz, hsumz⟩ := Reach.setPhi ext s s (Reach.refl ext s hc)
    (some (List.replicate phi.length 0))
  obtain ⟨_, _, haddz⟩ := integrateKxKy_adds ext
    { s with Phi_ := some (List.replicate phi.length 0) } (List.replicate phi.length 0)
    hkx hky hω rfl (by simpa using hlen) hcz
  have hz : ((integrateKxKy ext
      { s with Phi_ := some (List.replicate phi.length 0) }).state.Phi_.getD []).getD w 0 =
      gridSum ext s w := by
    rw [haddz w hw, hzero, zero_add, hsumz]
  -- the second call
  obtain ⟨t1, p, hreach, hstate⟩ := integrateKxKy_state ext s (le_of_lt hnk) hω hc
  have hp : p = some phi1 := by
    rw [hstate] at hphi1
    exact hphi1
  obtain ⟨hc2, hkx2, hky2, hω2, hsum2⟩ := Reach.setPhi ext s t1 hreach p
  have hst : (integrateKxKy ext s).state = { t1 with Phi_ := p } := by rw [hstate]
  obtain ⟨hret2, _, hadd2⟩ := integrateKxKy_adds ext { t1 with Phi_ := p } phi1
    (by rw [hkx2]; exact hkx) (by rw [hky2]; exact hky) (by rw [hω2]; exact hω)
    (by rw [hp]) (by rw [hω2, hlen1]; exact hlen) hc2
  have h2 : ((integrateKxKy ext (integrateKxKy ext s).state).state.Phi_.getD []).getD w 0 =
      ((integrateKxKy ext s).state.Phi_.getD []).getD w 0 + gridSum ext s w := by
    rw [hst, hadd2 w (by rw [hω2]; exact hw), hsum2]
    congr 1
    show phi1.getD w 0 = (p.getD []).getD w 0
    rw [hp]
    rfl
  refine ⟨hret1, ?_, ?_, ?_, fun s0 hinit hs => ?_⟩
  · rw [hadd1 w hw, hz]
  · rw [hst]
    exact hret2
  · rw [h2, hz]
  · obtain ⟨_, hphi0, _⟩ := initSimulation_returns_state ext s0 hinit
    rw [← hs, hphi] at hphi0
    have hphiw : phi.getD w 0 = 0 := by
      rw [Option.some.inj hphi0]
      exact hzero _
    rw [h2, hadd1 w hw, hphiw, zero_add]
    ring

/-- Witness of `integrateKxKy_accumulates`: the example stack with three `kx` points and two
`ky` points after `initSimulation`; two calls leave twice the flux of one call. -/
theorem integrateKxKy_accumulates_witness :
    ((integrateKxKy (demoExt 1) (integrateKxKy (demoExt 1)
        (initSimulation (demoExt 1) demoStackGrid).state).state).state.Phi_.getD []).getD 0 0 =
      2 * ((integrateKxKy (demoExt 1)
        (initSimulation (demoExt 1) demoStackGrid).state).state.Phi_.getD []).getD 0 0 :=
  (integrateKxKy_accumulates (demoExt 1) (initSimulation (demoExt 1) demoStackGrid).state [0]
    (by decide) (by decide) (by decide) (by decide!) (by decide) (Or.inl (by decide)) 0
    (by decide)).2.2.2.2 demoStackGrid (by decide) rfl

/-! ## The prefactor under the integration-bound setters -/

/-- A successful setter call doubles `prefactor_` when it is a symmetric setter and leaves
it as it is otherwise. -/
theorem KSetter.call_prefactor (ext : Ext K n) (c : KSetter K) (s : Simulation K n)
    (h : (c.call ext s).returns) :
    (c.call ext s).state.prefactor_ = (if c.isSym = true then 2 else 1) * s.prefactor_ := by
  cases c with
  | kx points end_ =>
    simp only [KSetter.call, KSetter.isSym] at h ⊢
    simp only [setKxIntegral] at h ⊢
    split_ifs at h ⊢ <;> simp_all [Outcome.returns]
  | kxSym points end_ =>
    simp only [KSetter.call, KSetter.isSym] at h ⊢
    simp only [setKxIntegralSym] at h ⊢
    split_ifs at h ⊢ <;> simp_all [Outcome.returns, mul_comm]
  | ky points end_ =>
    simp only [KSetter.call, KSetter.isSym] at h ⊢
    simp only [setKyIntegral] at h ⊢
    split_ifs at h ⊢ <;> simp_all [Outcome.returns]
  | kySym points end_ =>
    simp only [KSetter.call, KSetter.isSym] at h ⊢
    simp only [setKyIntegralSym] at h ⊢
    split_ifs at h ⊢ <;> simp_all [Outcome.returns, mul_comm]

/-- A sequence of setter calls that all return multiplies `prefactor_` by `2` to the
number of symmetric calls. -/
theorem callSeq_prefactor (ext : Ext K n) (calls : List (KSetter K)) :
    ∀ s : Simulation K n, (callSeq (calls.map (fun c => c.call ext)) s).returns →
      (callSeq (calls.map (fun c => c.call ext)) s).state.prefactor_ =
        2 ^ calls.countP KSetter.isSym * s.prefactor_ := by
  induction calls with
  | nil => intro s _; simp [callSeq]
  | cons c rest ih =>
    intro s h
    have hc := KSetter.call_prefactor ext c s
    simp only [List.map_cons, callSeq] at h ⊢
    rcases hcall : c.call ext s with ⟨r, s1⟩
    rw [hcall] at h hc
    cases r with
    | error e => simp [Outcome.returns] at h
    | ok u =>
      simp only at h ⊢
      rw [ih s1 h, hc trivial, List.countP_cons]
      by_cases hs : c.isSym = true
      · simp only [hs, if_true]
        rw [pow_succ]
        ring
      · simp only [hs, if_false]
        simp

/-- C29: for every sequence of calls of `setKxIntegral`, `setKyIntegral`,
`setKxIntegralSym` and `setKyIntegralSym` that all return, with `k` calls of the two
symmetric setters among them, `prefactor_` afterwards is `2^k` times `prefactor_` before,
hence `2^k` on an object whose `prefactor_` is `1`, the value the constructor of
`SimulationPlanar` sets; and `setKxIntegralSym(N, e)` followed by `setKxIntegral(N, e)`,
with `N ≥ 2`, `e ≠ 0` and the lattice set, returns and leaves `kxStart_ = -e`, `kxEnd_ = e`
and `prefactor_` doubled. -/
theorem prefactor_never_reset (ext : Ext K n) (calls : List (KSetter K)) (s : Simulation K n)
    (h : (callSeq (calls.map (fun c => c.call ext)) s).returns) :
    (callSeq (calls.map (fun c => c.call ext)) s).state.prefactor_ =
      2 ^ calls.countP KSetter.isSym * s.prefactor_ ∧
    (s.prefactor_ = 1 →
      (callSeq (calls.map (fun c => c.call ext)) s).state.prefactor_ =
        2 ^ calls.countP KSetter.isSym) ∧
    (∀ (decl : Simulation K n) (DEGREE : Int),
      (SimulationPlanar.instanceNew decl DEGREE).prefactor_ = 1) ∧
    (∀ (N : Int) (e : K), 2 ≤ N → e ≠ 0 →
      ¬ (s.dim_ ≠ DIMENSION.NO_ ∧ s.reciprocalLattice_.bx.1 = 0) →
      (callSeq [fun t => setKxIntegralSym ext t N e, fun t => setKxIntegral ext t N e]
        s).returns ∧
      (callSeq [fun t => setKxIntegralSym ext t N e, fun t => setKxIntegral ext t N e]
        s).state.kxStart_ = -e ∧
      (callSeq [fun t => setKxIntegralSym ext t N e, fun t => setKxIntegral ext t N e]
        s).state.kxEnd_ = e ∧
      (callSeq [fun t => setKxIntegralSym ext t N e, fun t => setKxIntegral ext t N e]
        s).state.prefactor_ = 2 * s.prefactor_) := by
  have h1 := callSeq_prefactor ext calls s h
  refine ⟨h1, fun hp => ?_, fun _ _ => rfl, fun N e hN he hlat => ?_⟩
  · rw [h1, hp, mul_one]
  · have hval : callSeq [fun t => setKxIntegralSym ext t N e, fun t => setKxIntegral ext t N e]
        s = ⟨.ok (), { s with
          numOfKx_ := N, kxEnd_ := e, kxStart_ := -e, prefactor_ := s.prefactor_ * 2
          options_ := { s.options_ with kxIntegralPreset := true } }⟩ := by
      have e1 := setKxIntegralSym_state ext s N e hN he hlat
      have e2 := setKxIntegral_state ext { s with
        numOfKx_ := N, kxEnd_ := e, kxStart_ := 0, prefactor_ := s.prefactor_ * 2
        options_ := { s.options_ with kxIntegralPreset := true } } N e hN he hlat
      simp only [callSeq, e1, e2]
    rw [hval]
    exact ⟨trivial, rfl, rfl, mul_comm _ _⟩

/-- Witness of `prefactor_never_reset`: on the planar example, a symmetric `kx` setter, a
plain `kx` setter and a symmetric `ky` setter leave the prefactor `4`. -/
theorem prefactor_never_reset_witness :
    (callSeq ([KSetter.kxSym 3 1, KSetter.kx 3 1, KSetter.kySym 3 1].map
      (fun c => c.call (demoExt 1))) (demoSim 1)).state.prefactor_ =
      2 ^ [KSetter.kxSym 3 (1 : ℚ), KSetter.kx 3 1, KSetter.kySym 3 1].countP KSetter.isSym *
        (demoSim 1).prefactor_ :=
  (prefactor_never_reset (demoExt 1) [KSetter.kxSym 3 1, KSetter.kx 3 1, KSetter.kySym 3 1]
    (demoSim 1) (by decide)).1

/-! ## The flat indices of a rank -/

/-- The chunk of a rank at or beyond `size` is empty and starts at or beyond `totalNum`. -/
theorem mpiRange_beyond (totalNum rank size : Int) (h0 : 0 ≤ totalNum) (h1 : 1 ≤ size)
    (hr : size ≤ rank) :
    (mpiRange totalNum rank size).2 ≤ (mpiRange totalNum rank size).1 := by
  have hs : 0 ≤ size := by omega
  have hq : 0 ≤ totalNum / size := Int.ediv_nonneg h0 hs
  have hl0 : 0 ≤ totalNum % size := Int.emod_nonneg _ (by omega)
  have hl1 : totalNum % size < size := Int.emod_lt_of_pos _ (by omega)
  have hdiv : size * (totalNum / size) + totalNum % size = totalNum :=
    Int.ediv_add_emod totalNum size
  have hge : rank ≥ totalNum % size := by omega
  have hmul : size * (totalNum / size) ≤ rank * (totalNum / size) :=
    mul_le_mul_of_nonneg_right hr hq
  have hstart : totalNum ≤ totalNum % size * (totalNum / size + 1) +
      (rank - totalNum % size) * (totalNum / size) := by
    have : totalNum % size * (totalNum / size + 1) +
        (rank - totalNum % size) * (totalNum / size) =
        rank * (totalNum / size) + totalNum % size := by ring
    rw [this]
    omega
  simp only [mpiRange, Int.tdiv_eq_ediv h0 hs, Int.tmod_eq_emod h0 hs, hge, if_true]
  split_ifs with hc
  · exact hstart
  · omega

/-- The chunk of a rank lies within `[0, totalNum]`. -/
theorem mpiRange_within (totalNum rank size : Int) (h0 : 0 ≤ totalNum) (h1 : 1 ≤ size)
    (hr : 0 ≤ rank) :
    0 ≤ (mpiRange totalNum rank size).1 ∧ (mpiRange totalNum rank size).2 ≤ totalNum := by
  have hs : 0 ≤ size := by omega
  have hq : 0 ≤ totalNum / size := Int.ediv_nonneg h0 hs
  have hl0 : 0 ≤ totalNum % size := Int.emod_nonneg _ (by omega)
  simp only [mpiRange, Int.tdiv_eq_ediv h0 hs, Int.tmod_eq_emod h0 hs]
  constructor
  · split_ifs with hc
    · have h2 : 0 ≤ (rank - totalNum % size) * (totalNum / size) :=
        mul_nonneg (by omega) hq
      have h3 : 0 ≤ totalNum % size * (totalNum / size + 1) := mul_nonneg hl0 (by omega)
      omega
    · exact mul_nonneg hr (by omega)
  · split_ifs <;> omega

/-- For a rank below `size` the bounds before the clamp are the bounds after it. -/
theorem mpiRange_unclamped (totalNum rank size : Int) (h0 : 0 ≤ totalNum) (h1 : 1 ≤ size)
    (hr : rank < size) :
    mpiRange totalNum rank size = mpiRangeUnclamped totalNum rank size := by
  have hs : 0 ≤ size := by omega
  rw [mpiRange_eq totalNum rank size h0 h1 hr]
  simp only [mpiRangeUnclamped, Int.tdiv_eq_ediv h0 hs, Int.tmod_eq_emod h0 hs, ge_iff_le]

/-! ## The chunk bounds in 32-bit arithmetic -/

theorem wrapInt_of_range (x : Int) (h1 : -2147483648 ≤ x) (h2 : x ≤ 2147483647) :
    wrapInt x = x := by
  unfold wrapInt
  omega

theorem wrapInt_modEq (x : Int) : Int.ModEq 4294967296 (wrapInt x) x := by
  unfold wrapInt
  have h := (Int.mod_modEq (x + 2147483648) 4294967296).sub_right 2147483648
  simpa using h

theorem wrapInt_congr {x y : Int} (h : Int.ModEq 4294967296 x y) : wrapInt x = wrapInt y := by
  unfold wrapInt
  have h1 := h.add_right 2147483648
  unfold Int.ModEq at h1
  rw [h1]

/-- When the exact end of the chunk before the clamp fits into an `int`, the 32-bit
bounds are the exact bounds. -/
theorem mpiRange32_eq (totalNum rank size : Int) (h0 : 0 ≤ totalNum) (h1 : 1 ≤ size)
    (hr : 0 ≤ rank) (hfit : (mpiRangeUnclamped totalNum rank size).2 ≤ 2147483647) :
    mpiRange32 totalNum rank size = mpiRange totalNum rank size := by
  have hs : 0 ≤ size := by omega
  have hq : 0 ≤ totalNum.tdiv size := by
    rw [Int.tdiv_eq_ediv h0 hs]
    exact Int.ediv_nonneg h0 hs
  have hl : 0 ≤ totalNum.tmod size := by
    rw [Int.tmod_eq_emod h0 hs]
    exact Int.emod_nonneg _ (by omega)
  unfold mpiRangeUnclamped at hfit
  simp only [] at hfit
  unfold mpiRange32 mpiRange
  simp only []
  generalize totalNum.tdiv size = q at hq hfit ⊢
  generalize totalNum.tmod size = l at hl hfit ⊢
  by_cases hb : rank ≥ l
  · rw [if_pos hb] at hfit
    simp only [if_pos hb]
    have hA : 0 ≤ l * (q + 1) := mul_nonneg hl (by omega)
    have hB : 0 ≤ (rank - l) * q := mul_nonneg (by omega) hq
    have hstart : wrapInt (wrapInt (l * wrapInt (q + 1)) + wrapInt (wrapInt (rank - l) * q)) =
        l * (q + 1) + (rank - l) * q := by
      have hm : Int.ModEq 4294967296
          (wrapInt (l * wrapInt (q + 1)) + wrapInt (wrapInt (rank - l) * q))
          (l * (q + 1) + (rank - l) * q) :=
        Int.ModEq.add
          ((wrapInt_modEq _).trans ((wrapInt_modEq (q + 1)).mul_left l))
          ((wrapInt_modEq _).trans ((wrapInt_modEq (rank - l)).mul_right q))
      rw [wrapInt_congr hm]
      exact wrapInt_of_range _ (by omega) (by omega)
    rw [hstart, wrapInt_of_range (l * (q + 1) + (rank - l) * q + q) (by omega) hfit]
  · rw [if_neg hb] at hfit
    simp only [if_neg hb]
    have hA : 0 ≤ rank * (q + 1) := mul_nonneg hr (by omega)
    have hstart : wrapInt (rank * wrapInt (q + 1)) = rank * (q + 1) := by
      rw [wrapInt_congr ((wrapInt_modEq (q + 1)).mul_left rank)]
      exact wrapInt_of_range _ (by omega) (by omega)
    rw [hstart, wrapInt_of_range (rank * (q + 1) + q) (by omega) (by omega),
      wrapInt_of_range (rank * (q + 1) + q + 1) (by omega) hfit]

/-- The exact end of the chunk of a rank at or beyond `size`, before the clamp. -/
theorem mpiRangeUnclamped_beyond (totalNum rank size : Int) (h0 : 0 ≤ totalNum) (h1 : 1 ≤ size)
    (hr : size ≤ rank) :
    (mpiRangeUnclamped totalNum rank size).2 =
      (rank + 1) * totalNum.tdiv size + totalNum.tmod size := by
  have hs : 0 ≤ size := by omega
  have hl1 : totalNum.tmod size < size := by
    rw [Int.tmod_eq_emod h0 hs]
    exact Int.emod_lt_of_pos _ (by omega)
  have hge : rank ≥ totalNum.tmod size := by omega
  unfold mpiRangeUnclamped
  simp only [if_pos hge]
  ring

/-- The product `numOfOmega_ * numOfKx_ * numOfKy_` in 32-bit arithmetic is the exact
product when that fits into an `int`. -/
theorem wrapInt_totalNum (a b c : Int) (h0 : -2147483648 ≤ a * b * c)
    (h1 : a * b * c ≤ 2147483647) : wrapInt (wrapInt (a * b) * c) = a * b * c := by
  rw [wrapInt_congr ((wrapInt_modEq (a * b)).mul_right c)]
  exact wrapInt_of_range _ h0 h1

/-- C30, amended: for `0 ≤ totalNum = numOfOmega_ * numOfKx_ * numOfKy_ ≤ INT_MAX`,
`size ≥ 1` and `rank ≥ 0`, where for `rank ≥ size` the exact end
`(rank + 1) * (totalNum / size) + totalNum % size` of the chunk fits into an `int`: the
bounds that `integrateKxKyMPI(rank, size)` computes in 32-bit arithmetic are the exact
ones; every flat index `i` with `start ≤ i < end` satisfies `0 ≤ i < totalNum`; for
`rank < size` the bounds before the clamp `if(end > totalNum) end = totalNum` are the
bounds after it; and for `rank ≥ size` the index range is empty and the call returns with
the object, `Phi_` included, as it was. -/
theorem mpi_indices_in_range (ext : Ext K n) (s : Simulation K n) (rank size : Int)
    (h0 : 0 ≤ s.numOfOmega_ * s.numOfKx_ * s.numOfKy_)
    (hmax : s.numOfOmega_ * s.numOfKx_ * s.numOfKy_ ≤ 2147483647)
    (h1 : 1 ≤ size) (hr : 0 ≤ rank)
    (hfit : size ≤ rank →
      (rank + 1) * (s.numOfOmega_ * s.numOfKx_ * s.numOfKy_).tdiv size +
        (s.numOfOmega_ * s.numOfKx_ * s.numOfKy_).tmod size ≤ 2147483647) :
    integrateKxKyMPI32 ext s rank size = integrateKxKyMPI ext s rank size ∧
    mpiRange32 (s.numOfOmega_ * s.numOfKx_ * s.numOfKy_) rank size =
      mpiRange (s.numOfOmega_ * s.numOfKx_ * s.numOfKy_) rank size ∧
    (∀ i : Int, (mpiRange32 (s.numOfOmega_ * s.numOfKx_ * s.numOfKy_) rank size).1 ≤ i →
      i < (mpiRange32 (s.numOfOmega_ * s.numOfKx_ * s.numOfKy_) rank size).2 →
      0 ≤ i ∧ i < s.numOfOmega_ * s.numOfKx_ * s.numOfKy_) ∧
    (rank < size →
      mpiRange32 (s.numOfOmega_ * s.numOfKx_ * s.numOfKy_) rank size =
        mpiRangeUnclamped (s.numOfOmega_ * s.numOfKx_ * s.numOfKy_) rank size ∧
      (mpiRangeUnclamped (s.numOfOmega_ * s.numOfKx_ * s.numOfKy_) rank size).2 ≤
        s.numOfOmega_ * s.numOfKx_ * s.numOfKy_) ∧
    (size ≤ rank →
      (∀ i : Int, ¬ ((mpiRange32 (s.numOfOmega_ * s.numOfKx_ * s.numOfKy_) rank size).1 ≤ i ∧
        i < (mpiRange32 (s.numOfOmega_ * s.numOfKx_ * s.numOfKy_) rank size).2)) ∧
      (integrateKxKyMPI32 ext s rank size).returns ∧
      (integrateKxKyMPI32 ext s rank size).state = s) := by
  have hw := mpiRange_within _ rank size h0 h1 hr
  have hfit2 : (mpiRangeUnclamped (s.numOfOmega_ * s.numOfKx_ * s.numOfKy_) rank size).2 ≤
      2147483647 := by
    rcases lt_or_le rank size with hlt | hge
    · have he := mpiRange_unclamped _ rank size h0 h1 hlt
      rw [← he]
      omega
    · rw [mpiRangeUnclamped_beyond _ rank size h0 h1 hge]
      exact hfit hge
  have h32 := mpiRange32_eq _ rank size h0 h1 hr hfit2
  have hcall : integrateKxKyMPI32 ext s rank size = integrateKxKyMPI ext s rank size := by
    unfold integrateKxKyMPI32 integrateKxKyMPI
    simp only []
    rw [wrapInt_totalNum _ _ _ (by omega) hmax, h32]
  refine ⟨hcall, h32, ?_, fun hlt => ?_, fun hge => ?_⟩
  · rw [h32]
    exact fun i hi1 hi2 => ⟨by omega, by omega⟩
  · have he := mpiRange_unclamped _ rank size h0 h1 hlt
    refine ⟨h32.trans he, ?_⟩
    rw [← he]
    exact hw.2
  · have hb := mpiRange_beyond _ rank size h0 h1 hge
    rw [h32, hcall]
    refine ⟨fun i hi => by omega, ?_⟩
    have hz : ((mpiRange (s.numOfOmega_ * s.numOfKx_ * s.numOfKy_) rank size).2 -
        (mpiRange (s.numOfOmega_ * s.numOfKx_ * s.numOfKy_) rank size).1).toNat = 0 := by
      omega
    have hval : integrateKxKyMPI ext s rank size = ⟨.ok (), s⟩ := by
      simp only [integrateKxKyMPI, integrateKxKyInternal, hz, forLoop, accumulatePhi]
      cases hphi : s.Phi_ <;> simp [hphi.symm]
    rw [hval]
    exact ⟨trivial, rfl⟩

/-- Witness of `mpi_indices_in_range`: the planar example with ten flat indices, rank `5`
of `3`. -/
theorem mpi_indices_in_range_witness :
    (integrateKxKyMPI32 (demoExt 1) demoTen 5 3).state = demoTen :=
  ((mpi_indices_in_range (demoExt 1) demoTen 5 3 (by decide) (by decide) (by decide)
    (by decide) (fun _ => by decide)).2.2.2.2 (by decide)).2.2

/-- C30 as stated fails: with ten flat indices, one process and the rank `2147483647`, the
product `(rank - left) * chunksize` wraps, the bounds are `start = -10` and `end = 0`, and
the loop evaluates the flux ten times, at the flat indices `-10, .., -1`, none of which
lies in `[0, 10)`. -/
theorem mpi_indices_in_range_counterexample :
    demoTen.numOfOmega_ * demoTen.numOfKx_ * demoTen.numOfKy_ = 10 ∧
    mpiRange32 10 2147483647 1 = (-10, 0) ∧
    ¬ (∀ i : Int, (mpiRange32 10 2147483647 1).1 ≤ i → i < (mpiRange32 10 2147483647 1).2 →
      0 ≤ i ∧ i < 10) ∧
    (integrateKxKyMPI32 (demoExt 1) demoTen 2147483647 1).returns ∧
    (integrateKxKyMPI32 (demoExt 1) demoTen 2147483647 1).state.fluxCount_ =
      demoTen.fluxCount_ + 10 := by
  refine ⟨by decide, by decide, ?_, by decide!, by decide!⟩
  intro hall
  have h := hall (-10) (by decide) (by decide)
  omega

end Theorems

end MESH
